import Mathlib

/-!
# Chatroom server: registry, command handlers and inactivity monitor

A shallow embedding of `src/main.c` and `src/project_defs.h`.

* C strings are modelled by their content up to the terminating NUL, as `String`
  (one `Char` per byte); the empty string is a buffer whose first byte is NUL. A string
  field of a message is the C string that starts at the field: it is shorter than the field
  when the field holds its terminator, and runs on into the bytes that follow otherwise.
* A `strcpy` whose source does not fit its destination writes past the destination. The
  embedding does not follow the bytes: it records the event in `GlobalRegistry.overflowed`,
  and what it says about a registry is meant for registries where that flag is `false`.
* `pid_t`, queue ids, `time_t` and the two registry counters are `Int`.
* The fixed-size arrays `clients[MAX_CLIENTS]`, `rooms[MAX_CHANNELS]` and
  `members[MAX_CLIENTS]` are lists; `WellTyped` states that they have the declared sizes.
* The global job queue is the list of queued jobs, oldest first; `add_job` appends.
* Locks, `printf` logging and `malloc`/`free` have no counterpart: every handler body runs
  under the registry lock, so a handler is a function from state to state.
-/

namespace ChatServer

/-! ## Constants (`project_defs.h`) -/

def MAX_TEXT_SIZE : Nat := 256
def MAX_CHANNEL : Nat := 32
def MAX_USERNAME : Nat := 32
def MAX_CLIENTS : Nat := 10
def MAX_CHANNELS : Nat := 5
def INACTIVITY_TIMEOUT : Int := 120

/-! ## Data model (`project_defs.h`) -/

inductive CommandCode where
  | CMD_REGISTER
  | CMD_JOIN
  | CMD_MSG
  | CMD_DM
  | CMD_WHO
  | CMD_LEAVE
  | CMD_QUIT
  deriving DecidableEq

/-- Control message, client to router (`CommandMessage` without `mtype`). -/
structure CommandMessage where
  command : CommandCode
  sender_pid : Int
  reply_qid : Int
  channel : String
  target : String
  text : String
  deriving DecidableEq

/-- Delivery job (`Job` without the `next` link). A job of type `CMD_MSG` is a broadcast to
`target_channel`; every other type the handlers produce is a unicast to `target_qid`.
Fields the C code leaves unassigned after `malloc` are modelled as `""` and `0`. -/
structure Job where
  type : CommandCode
  sender_name : String
  target_channel : String
  target_qid : Int
  message : String
  deriving DecidableEq

structure ClientEntry where
  pid : Int
  reply_qid : Int
  current_channel : String
  last_active : Int
  deriving DecidableEq

/-- Room slot. `members` is the whole array; only its first `member_count` cells are
meaningful. `member_count` is a natural number: the only decrement in the source is
guarded by `i < member_count`. -/
structure RoomEntry where
  channel_name : String
  members : List Int
  member_count : Nat
  deriving DecidableEq

/-- The registry (`GlobalRegistry` without the lock). The field `overflowed` has no
counterpart in C: it is set when a `strcpy` into a 32-byte field of the registry or of a
job is given a string of 32 bytes or more, so that bytes are written past the field, into
whatever follows it in memory; the other fields then no longer describe the memory. -/
structure GlobalRegistry where
  clients : List ClientEntry
  client_count : Int
  rooms : List RoomEntry
  room_count : Int
  overflowed : Bool := false
  deriving DecidableEq

/-- Registry together with the job queue (the globals of `main.c`). -/
structure ServerState where
  registry : GlobalRegistry
  job_queue : List Job
  deriving DecidableEq

/-- Client slot after `memset(.., 0, sizeof(ClientEntry))`. -/
def zero_client : ClientEntry :=
  { pid := 0, reply_qid := 0, current_channel := "", last_active := 0 }

/-- Room slot after `memset(.., 0, sizeof(RoomEntry))`. -/
def zero_room : RoomEntry :=
  { channel_name := "", members := List.replicate MAX_CLIENTS 0, member_count := 0 }

/-- The sizes fixed by the C array declarations. -/
def WellTyped (r : GlobalRegistry) : Prop :=
  r.clients.length = MAX_CLIENTS ∧ r.rooms.length = MAX_CHANNELS ∧
    ∀ room ∈ r.rooms, room.members.length = MAX_CLIENTS

instance (r : GlobalRegistry) : Decidable (WellTyped r) := by
  unfold WellTyped; infer_instance

/-! ## String helpers -/

/-- Output of `printf`'s `%d`. -/
def fmt_int (n : Int) : String := toString n

/-- Content left by `strncpy(dst, src, n)`: at most `n` bytes of `src`. -/
def strncpy (src : String) (n : Nat) : String := ⟨src.data.take n⟩

/-- Whether `strcpy(dst, src)` writes past a destination of `size` bytes: it writes the
bytes of `src` and the terminator. -/
def strcpy_overruns (src : String) (size : Nat) : Bool := decide (size ≤ src.length)

def is_space (c : Char) : Bool :=
  c.toNat = 32 ∨ (9 ≤ c.toNat ∧ c.toNat ≤ 13)

/-- Value of the leading decimal digits, accumulated left to right. -/
def digits_value : List Char → Nat → Nat
  | [], acc => acc
  | c :: cs, acc =>
    if c.isDigit then digits_value cs (acc * 10 + (c.toNat - 48)) else acc

/-- Saturation of `strtol` to the range of `long`. -/
def clamp_long (v : Int) : Int :=
  if v < -(2 ^ 63) then -(2 ^ 63) else if v > 2 ^ 63 - 1 then 2 ^ 63 - 1 else v

/-- Conversion of a `long` to a 32-bit `int`. -/
def to_int32 (v : Int) : Int :=
  (v + 2 ^ 31) % 2 ^ 32 - 2 ^ 31

/-- The libc `atoi`, as `(int) strtol(s, NULL, 10)`: leading white space is skipped, an
optional sign is read, then the longest run of decimal digits; no digits give 0. -/
def atoi (s : String) : Int :=
  match s.data.dropWhile is_space with
  | '-' :: rest => to_int32 (clamp_long (-(digits_value rest 0 : Int)))
  | '+' :: rest => to_int32 (clamp_long (digits_value rest 0))
  | cs => to_int32 (clamp_long (digits_value cs 0))

/-! ## Job queue -/

/-- Appends a job at the tail of the queue. -/
def add_job (s : ServerState) (new_job : Job) : ServerState :=
  { s with job_queue := s.job_queue ++ [new_job] }

/-- Unicast job with sender label `SERVER`, as built by the handlers
(`type = CMD_DM` unless stated otherwise). -/
def server_unicast (target_qid : Int) (message : String) : Job :=
  { type := .CMD_DM, sender_name := "SERVER", target_channel := "",
    target_qid := target_qid, message := message }

/-- Broadcast job with sender label `SERVER`. -/
def server_broadcast (target_channel : String) (message : String) : Job :=
  { type := .CMD_MSG, sender_name := "SERVER", target_channel := target_channel,
    target_qid := 0, message := message }

/-! ## Registry helpers -/

/-- Index of the first element satisfying `p`: the shape of the two lookup loops. -/
def first_index {α : Type} (p : α → Prop) [DecidablePred p] : List α → Option Nat
  | [] => none
  | a :: as => if p a then some 0 else (first_index p as).map (· + 1)

/-- Index of the first client slot whose `pid` equals the argument (`-1` is `none`). -/
def find_client_index (r : GlobalRegistry) (pid : Int) : Option Nat :=
  first_index (fun c : ClientEntry => c.pid = pid) r.clients

/-- Index of the first room slot whose name equals the argument (`-1` is `none`). -/
def find_room_index (r : GlobalRegistry) (channel_name : String) : Option Nat :=
  first_index (fun room : RoomEntry => room.channel_name = channel_name) r.rooms

/-- Read of `registry.clients[i]`. -/
def client_at (r : GlobalRegistry) (i : Nat) : ClientEntry :=
  r.clients.getD i zero_client

/-- Read of `registry.rooms[i]`. -/
def room_at (r : GlobalRegistry) (i : Nat) : RoomEntry :=
  r.rooms.getD i zero_room

/-- The member list of a room: the first `member_count` cells of `members`. -/
def RoomEntry.member_list (room : RoomEntry) : List Int :=
  room.members.take room.member_count

/-- Body of `add_client_to_room` on one room. -/
def room_add (room : RoomEntry) (pid : Int) : RoomEntry :=
  if pid ∈ room.member_list then room
  else if room.member_count < MAX_CLIENTS then
    { room with members := room.members.set room.member_count pid,
                member_count := room.member_count + 1 }
  else room

def add_client_to_room (r : GlobalRegistry) (room_idx : Nat) (pid : Int) : GlobalRegistry :=
  { r with rooms := r.rooms.set room_idx (room_add (room_at r room_idx) pid) }

/-- The inner loop of `remove_client_from_room`: `n` iterations of
`members[j] = members[j + 1]`, starting at `j`. -/
def shift_members (members : List Int) (j : Nat) : Nat → List Int
  | 0 => members
  | n + 1 => shift_members (members.set j (members.getD (j + 1) 0)) (j + 1) n

def remove_client_from_room (r : GlobalRegistry) (room_idx : Nat) (pid : Int) :
    GlobalRegistry :=
  let room := room_at r room_idx
  match first_index (fun m : Int => m = pid) room.member_list with
  | none => r
  | some i =>
    let members := shift_members room.members i (room.member_count - 1 - i)
    let member_count := room.member_count - 1
    if member_count = 0 ∧ room.channel_name ≠ "#general" then
      { r with rooms := r.rooms.set room_idx zero_room, room_count := r.room_count - 1 }
    else
      let room1 : RoomEntry := { room with members := members, member_count := member_count }
      { r with rooms := r.rooms.set room_idx room1 }

/-- Full removal of a client: out of its current room (with a departure broadcast), slot
zeroed, `client_count` decremented. -/
def remove_client (s : ServerState) (pid : Int) : ServerState :=
  match find_client_index s.registry pid with
  | none => s
  | some client_idx =>
    let channel_to_leave := (client_at s.registry client_idx).current_channel
    let s1 : ServerState :=
      if channel_to_leave ≠ "" then
        match find_room_index s.registry channel_to_leave with
        | some room_idx =>
          add_job { s with registry := remove_client_from_room s.registry room_idx pid }
            (server_broadcast channel_to_leave
              ("User " ++ fmt_int pid ++ " has left the chat."))
        | none => s
      else s
    let r1 := s1.registry
    let r2 : GlobalRegistry :=
      { r1 with clients := r1.clients.set client_idx zero_client,
                client_count := r1.client_count - 1 }
    { s1 with registry := r2 }

/-! ## Command handlers -/

/-- Handler of `REGISTER`; `now` is the value of `time(NULL)`. -/
def handle_register (s : ServerState) (cmd : CommandMessage) (now : Int) : ServerState :=
  match find_client_index s.registry 0 with
  | none =>
    add_job s (server_unicast cmd.reply_qid "Error: Server is full. Connection rejected.")
  | some slot =>
    let r := s.registry
    let entry : ClientEntry :=
      { pid := cmd.sender_pid, reply_qid := cmd.reply_qid, current_channel := "",
        last_active := now }
    let r1 : GlobalRegistry :=
      { r with clients := r.clients.set slot entry, client_count := r.client_count + 1 }
    add_job { s with registry := r1 }
      (server_unicast cmd.reply_qid
        ("Welcome User " ++ fmt_int cmd.sender_pid ++
          "! Use JOIN <#channel> or WHO <#channel>."))

/-- Handler of `QUIT`. -/
def handle_quit (s : ServerState) (cmd : CommandMessage) : ServerState :=
  add_job (remove_client s cmd.sender_pid)
    (server_unicast cmd.reply_qid "You have been disconnected. Goodbye.")

/-- Step 1 of `handle_join`: the index of the target room, created in the first unnamed
slot when it does not exist; `none` when it can be neither found nor created. The creation
copies the name with `strcpy` into the 32-byte `channel_name`. -/
def join_find_or_create (r : GlobalRegistry) (channel : String) :
    Option (GlobalRegistry × Nat) :=
  match find_room_index r channel with
  | some new_room_idx => some (r, new_room_idx)
  | none =>
    match find_room_index r "" with
    | some empty_slot =>
      if r.room_count < MAX_CHANNELS then
        let room1 : RoomEntry :=
          { room_at r empty_slot with channel_name := channel, member_count := 0 }
        some ({ r with rooms := r.rooms.set empty_slot room1,
                       room_count := r.room_count + 1,
                       overflowed := r.overflowed || strcpy_overruns channel MAX_CHANNEL },
              empty_slot)
      else none
    | none => none

/-- Step 2 of `handle_join`: departure from the old channel, when there is one and it is
not the channel being joined. -/
def join_leave_old (s : ServerState) (cmd : CommandMessage) (old_channel : String) :
    ServerState :=
  if old_channel ≠ "" ∧ old_channel ≠ cmd.channel then
    match find_room_index s.registry old_channel with
    | some old_room_idx =>
      add_job
        { s with registry := remove_client_from_room s.registry old_room_idx cmd.sender_pid }
        (server_broadcast old_channel
          ("User " ++ fmt_int cmd.sender_pid ++ " left the channel (Joined " ++
            cmd.channel ++ ")."))
    | none => s
  else s

/-- Handler of `JOIN`. On the path that joins, the channel name is copied with `strcpy`
into the 32-byte `current_channel` of the client (main.c:374) and into the 32-byte
`target_channel` of the join job (main.c:388), with no check of its length: for a name of
32 bytes or more the copies run past these fields, which `overflowed` records. The fields
of the result then hold the values the handler means to store, not the bytes in memory. -/
def handle_join (s : ServerState) (cmd : CommandMessage) : ServerState :=
  match find_client_index s.registry cmd.sender_pid with
  | none => s
  | some client_idx =>
    let old_channel := (client_at s.registry client_idx).current_channel
    match join_find_or_create s.registry cmd.channel with
    | none =>
      add_job s (server_unicast cmd.reply_qid
        "Error: Cannot join/create channel, room limit reached.")
    | some (r1, new_room_idx) =>
      let s2 := join_leave_old { s with registry := r1 } cmd old_channel
      let r3 := add_client_to_room s2.registry new_room_idx cmd.sender_pid
      let entry : ClientEntry :=
        { client_at r3 client_idx with current_channel := cmd.channel }
      let r4 : GlobalRegistry :=
        { r3 with clients := r3.clients.set client_idx entry,
                  overflowed := r3.overflowed || strcpy_overruns cmd.channel MAX_CHANNEL }
      let s5 := add_job { s2 with registry := r4 }
        (server_unicast cmd.reply_qid
          ("You have joined " ++ cmd.channel ++ ". Total members: " ++
            fmt_int (room_at r4 new_room_idx).member_count))
      add_job s5
        (server_broadcast cmd.channel
          ("User " ++ fmt_int cmd.sender_pid ++ " has joined the channel."))

/-- Handler of `MSG`. `sender_name` is the label that `sprintf` formats. When the label has
32 bytes or more, `sprintf` writes past the 32-byte field and the field itself holds only
the first 32 bytes; `send_reply` reads at most the first 31 bytes of it, which are those of
the label, so the label that is delivered is the same. -/
def handle_msg (s : ServerState) (cmd : CommandMessage) : ServerState :=
  match find_client_index s.registry cmd.sender_pid with
  | none => s
  | some client_idx =>
    let current_channel := (client_at s.registry client_idx).current_channel
    if current_channel = "" then
      add_job s (server_unicast cmd.reply_qid
        "Error: You are not in a channel. Use JOIN <#channel>.")
    else
      add_job s
        { type := .CMD_MSG,
          sender_name := "[" ++ current_channel ++ "] User " ++ fmt_int cmd.sender_pid,
          target_channel := current_channel,
          target_qid := 0,
          message := strncpy cmd.text MAX_TEXT_SIZE }

/-- Handler of `DM`. -/
def handle_dm (s : ServerState) (cmd : CommandMessage) : ServerState :=
  match find_client_index s.registry cmd.sender_pid with
  | none => s
  | some _ =>
    let target_pid := atoi cmd.target
    match find_client_index s.registry target_pid with
    | none =>
      add_job s (server_unicast cmd.reply_qid
        ("Error: User PID " ++ cmd.target ++ " is not online."))
    | some target_idx =>
      let s1 := add_job s
        { type := .CMD_DM,
          sender_name := "(DM from " ++ fmt_int cmd.sender_pid ++ ")",
          target_channel := "",
          target_qid := (client_at s.registry target_idx).reply_qid,
          message := strncpy cmd.text MAX_TEXT_SIZE }
      add_job s1 (server_unicast cmd.reply_qid ("DM sent to " ++ fmt_int target_pid ++ "."))

/-- One `snprintf(ptr, remaining, ..)` followed by `ptr += written; remaining -= written`:
the buffer receives at most `remaining - 1` bytes of the formatted text, and `remaining`
drops by the full length of that text. With `remaining ≤ 0` nothing is appended. -/
def snprintf_step (buf : String × Int) (text : String) : String × Int :=
  let written : Int := text.length
  (if buf.2 ≤ 0 then buf.1 else buf.1 ++ ⟨text.data.take (buf.2 - 1).toNat⟩,
   buf.2 - written)

/-- The member loop of `handle_who`, from index `i` on; `pids` are the cells `i ..` of the
member list and `count` is `member_count`. -/
def who_loop (count : Nat) : List Int → Nat → String × Int → String × Int
  | [], _, buf => buf
  | pid :: pids, i, buf =>
    let buf1 := snprintf_step buf (fmt_int pid ++ (if i + 1 < count then ", " else ""))
    if buf1.2 ≤ 1 then buf1 else who_loop count pids (i + 1) buf1

/-- The line `handle_who` formats for an existing room. -/
def who_line (channel : String) (room : RoomEntry) : String :=
  let buf0 := snprintf_step ("", (MAX_TEXT_SIZE : Int))
    ("Members of " ++ channel ++ " (" ++ fmt_int room.member_count ++ "): ")
  strncpy (who_loop room.member_count room.member_list 0 buf0).1 MAX_TEXT_SIZE

/-- Handler of `WHO`. -/
def handle_who (s : ServerState) (cmd : CommandMessage) : ServerState :=
  match find_client_index s.registry cmd.sender_pid with
  | none => s
  | some _ =>
    let message :=
      match find_room_index s.registry cmd.channel with
      | none => "Error: Channel " ++ cmd.channel ++ " does not exist."
      | some room_idx => who_line cmd.channel (room_at s.registry room_idx)
    add_job s
      { type := .CMD_WHO, sender_name := "SERVER", target_channel := "",
        target_qid := cmd.reply_qid, message := message }

/-- Handler of `LEAVE`. -/
def handle_leave (s : ServerState) (cmd : CommandMessage) : ServerState :=
  match find_client_index s.registry cmd.sender_pid with
  | none => s
  | some client_idx =>
    let old_channel := (client_at s.registry client_idx).current_channel
    if old_channel = "" then
      add_job s (server_unicast cmd.reply_qid "Error: You are not currently in any channel.")
    else
      let s1 : ServerState :=
        match find_room_index s.registry old_channel with
        | some room_idx =>
          add_job
            { s with registry := remove_client_from_room s.registry room_idx cmd.sender_pid }
            (server_broadcast old_channel
              ("User " ++ fmt_int cmd.sender_pid ++ " left the channel."))
        | none => s
      let r1 := s1.registry
      let entry : ClientEntry := { client_at r1 client_idx with current_channel := "" }
      let r2 : GlobalRegistry := { r1 with clients := r1.clients.set client_idx entry }
      add_job { s1 with registry := r2 }
        (server_unicast cmd.reply_qid ("You have left " ++ old_channel ++ "."))

/-! ## Router dispatch, monitor, initialisation -/

/-- The `switch` of `router_thread`: one handler call. -/
def dispatch (s : ServerState) (cmd : CommandMessage) (now : Int) : ServerState :=
  match cmd.command with
  | .CMD_REGISTER => handle_register s cmd now
  | .CMD_JOIN => handle_join s cmd
  | .CMD_MSG => handle_msg s cmd
  | .CMD_DM => handle_dm s cmd
  | .CMD_WHO => handle_who s cmd
  | .CMD_LEAVE => handle_leave s cmd
  | .CMD_QUIT => handle_quit s cmd

/-- Body of the sweep loop of `monitor_clients` for slot `i`. -/
def monitor_slot (now : Int) (s : ServerState) (i : Nat) : ServerState :=
  let c := client_at s.registry i
  if c.pid ≠ 0 ∧ now - c.last_active > INACTIVITY_TIMEOUT then
    remove_client
      (add_job s (server_unicast c.reply_qid "You have been disconnected due to inactivity."))
      c.pid
  else s

/-- One sweep of `monitor_clients` at time `now`. -/
def monitor_clients (s : ServerState) (now : Int) : ServerState :=
  (List.range MAX_CLIENTS).foldl (monitor_slot now) s

/-- The registry after `init_server_state`. -/
def init_registry : GlobalRegistry :=
  { clients := List.replicate MAX_CLIENTS zero_client,
    client_count := 0,
    rooms := (List.replicate MAX_CHANNELS zero_room).set 0
      ({ zero_room with channel_name := "#general" }),
    room_count := 1 }

/-- Server state after `init_server_state`, with the empty job queue. -/
def init_server_state : ServerState :=
  { registry := init_registry, job_queue := [] }

/-- One step of the server as seen by the registry: a handler call or a monitor sweep. -/
inductive Event where
  | command (cmd : CommandMessage) (now : Int)
  | sweep (now : Int)
  deriving DecidableEq

def step (s : ServerState) : Event → ServerState
  | .command cmd now => dispatch s cmd now
  | .sweep now => monitor_clients s now

/-- State after a sequence of events, oldest first. -/
def run (s : ServerState) (events : List Event) : ServerState :=
  events.foldl step s

/-! ## Worker pool (`send_reply`, `get_job`, `broadcaster_thread`) -/

/-- Reply message, broadcaster to client (`ReplyMessage` without `mtype`). -/
structure ReplyMessage where
  sender : String
  text : String
  deriving DecidableEq

/-- Outcome of `msgsnd(.., IPC_NOWAIT)`: success, `EAGAIN`, `EIDRM`, or another error. -/
inductive SendResult where
  | sent
  | queue_full
  | queue_removed
  | failed
  deriving DecidableEq

/-- One call of `msgsnd`: the queue it addresses and the message it hands over. -/
structure SendAttempt where
  target_qid : Int
  reply : ReplyMessage
  deriving DecidableEq

/-- The two warnings `send_reply` prints on the diagnostic stream, with the queue id. -/
inductive Warning where
  | reply_queue_full (target_qid : Int)
  | msgsnd_failed (target_qid : Int)
  deriving DecidableEq

/-- One call of `send_reply`: the label is cut to `MAX_USERNAME - 1` bytes and the text to
`MAX_TEXT_SIZE - 1` bytes, then `msgsnd` is called once; `result` is what `msgsnd` answers.
The function returns the attempt and the warnings printed. -/
def send_reply (target_qid : Int) (sender : String) (text : String) (result : SendResult) :
    SendAttempt × List Warning :=
  let reply : ReplyMessage :=
    { sender := strncpy sender (MAX_USERNAME - 1), text := strncpy text (MAX_TEXT_SIZE - 1) }
  ({ target_qid := target_qid, reply := reply },
   match result with
   | .sent => []
   | .queue_removed => []
   | .queue_full => [Warning.reply_queue_full target_qid]
   | .failed => [Warning.msgsnd_failed target_qid])

/-- Removal of the head of the job queue; `none` stands for the blocked caller of an empty
queue. -/
def get_job (s : ServerState) : Option (Job × ServerState) :=
  match s.job_queue with
  | [] => none
  | job :: rest => some (job, { s with job_queue := rest })

/-- The fan-out loop of `broadcaster_thread` from member index `i` on; `results i` is the
outcome of the send made for member `i`. -/
def broadcast_members (r : GlobalRegistry) (sender_name message : String)
    (results : Nat → SendResult) : List Int → Nat → List (SendAttempt × List Warning)
  | [], _ => []
  | member_pid :: rest, i =>
    (match find_client_index r member_pid with
      | some client_idx =>
        [send_reply (client_at r client_idx).reply_qid sender_name message (results i)]
      | none => []) ++
    broadcast_members r sender_name message results rest (i + 1)

/-- What one worker does with a dequeued job. -/
def process_job (r : GlobalRegistry) (job : Job) (results : Nat → SendResult) :
    List (SendAttempt × List Warning) :=
  if job.type = .CMD_MSG then
    match find_room_index r job.target_channel with
    | some room_idx =>
      broadcast_members r job.sender_name job.message results
        (room_at r room_idx).member_list 0
    | none => []
  else if job.type = .CMD_DM ∨ job.type = .CMD_WHO ∨ job.type = .CMD_REGISTER ∨
      job.type = .CMD_QUIT ∨ job.type = .CMD_LEAVE then
    [send_reply job.target_qid job.sender_name job.message (results 0)]
  else []

/-- One iteration of `broadcaster_thread`: dequeue, deliver, free. -/
def broadcaster_step (s : ServerState) (results : Nat → SendResult) :
    Option (ServerState × List (SendAttempt × List Warning)) :=
  match get_job s with
  | none => none
  | some (job, s1) => some (s1, process_job s1.registry job results)

/-! ## Client sender (`client.c`) -/

/-- The conversion `%Ns` after its white space has been skipped: at most `n` non-white
characters. -/
def take_word : Nat → List Char → List Char × List Char
  | 0, cs => ([], cs)
  | _ + 1, [] => ([], [])
  | n + 1, c :: cs =>
    if is_space c then ([], c :: cs)
    else ((c :: (take_word n cs).1), (take_word n cs).2)

/-- The conversion `%Ns`: white space is skipped; `none` at the end of the input. -/
def scan_word (n : Nat) (input : List Char) : Option (List Char × List Char) :=
  match input.dropWhile is_space with
  | [] => none
  | c :: cs => some (take_word n (c :: cs))

/-- Result of `sscanf(input_buffer, "%19s %31s %[^\n]", ..)` on buffers cleared before the
call: the return value and the three buffers. -/
structure ParsedLine where
  matched : Int
  cmd_str : String
  param1 : String
  text_content : String
  deriving DecidableEq

/-- The three conversions of the `sscanf` call. `%19s` and `%31s` carry the widths of their
buffers; `%[^\n]` carries none, so a text of 256 bytes or more is written past
`text_content[256]`. The embedding returns the text that was scanned, whatever its length:
it describes the call for texts of at most 255 bytes. -/
def sscanf_line (input : String) : ParsedLine :=
  match scan_word 19 input.data with
  | none => { matched := -1, cmd_str := "", param1 := "", text_content := "" }
  | some (w1, r1) =>
    match scan_word 31 r1 with
    | none => { matched := 1, cmd_str := ⟨w1⟩, param1 := "", text_content := "" }
    | some (w2, r2) =>
      let t := (r2.dropWhile is_space).takeWhile (fun c => c ≠ Char.ofNat 10)
      if t = [] then
        { matched := 2, cmd_str := ⟨w1⟩, param1 := ⟨w2⟩, text_content := "" }
      else
        { matched := 3, cmd_str := ⟨w1⟩, param1 := ⟨w2⟩, text_content := ⟨t⟩ }

/-- The control message `send_command` writes to the control queue. -/
def send_command (client_pid reply_qid : Int) (command : CommandCode)
    (channel target text : String) : CommandMessage :=
  { command := command, sender_pid := client_pid, reply_qid := reply_qid,
    channel := strncpy channel MAX_CHANNEL, target := strncpy target MAX_USERNAME,
    text := strncpy text MAX_TEXT_SIZE }

/-- What the sender does with one input line. -/
inductive SenderAction where
  | empty_line
  | rejected
  | sent (cmd : CommandMessage)
  | sent_and_quit (cmd : CommandMessage)
  deriving DecidableEq

/-- Body of the loop of `sender_thread` for one line returned by `fgets`. -/
def sender_thread_line (client_pid reply_qid : Int) (line : String) : SenderAction :=
  let input_buffer : String := ⟨line.data.takeWhile (fun c => c ≠ Char.ofNat 10)⟩
  let p := sscanf_line input_buffer
  if p.matched < 1 then .empty_line
  else if p.cmd_str = "JOIN" ∧ p.param1 ≠ "" then
    .sent (send_command client_pid reply_qid .CMD_JOIN p.param1 "" "")
  else if p.cmd_str = "MSG" ∧ p.text_content ≠ "" then
    .sent (send_command client_pid reply_qid .CMD_MSG "" "" p.text_content)
  else if p.cmd_str = "DM" ∧ p.param1 ≠ "" ∧ p.text_content ≠ "" then
    .sent (send_command client_pid reply_qid .CMD_DM "" p.param1 p.text_content)
  else if p.cmd_str = "WHO" ∧ p.param1 ≠ "" then
    .sent (send_command client_pid reply_qid .CMD_WHO p.param1 "" "")
  else if p.cmd_str = "LEAVE" then
    .sent (send_command client_pid reply_qid .CMD_LEAVE "" "" "")
  else if p.cmd_str = "QUIT" then
    .sent_and_quit (send_command client_pid reply_qid .CMD_QUIT "" "" "Goodbye")
  else .rejected

/-! ## Router loop (`router_thread`) -/

/-- The refresh at the top of the router loop: when the sender is found, its
`last_active` becomes `now`, the value of `time(NULL)`. -/
def touch_last_active (s : ServerState) (cmd : CommandMessage) (now : Int) : ServerState :=
  match find_client_index s.registry cmd.sender_pid with
  | none => s
  | some client_idx =>
    let r := s.registry
    let entry : ClientEntry := { client_at r client_idx with last_active := now }
    { s with registry := { r with clients := r.clients.set client_idx entry } }

/-- One iteration of the router loop on a received control message: the refresh, then the
handler. `touch_time` is the clock value read by the refresh and `handler_time` the one
read by `handle_register`. -/
def router_step (s : ServerState) (cmd : CommandMessage) (touch_time handler_time : Int) :
    ServerState :=
  dispatch (touch_last_active s cmd touch_time) cmd handler_time

/-- What the server threads do to the registry: a router iteration or a monitor sweep. -/
inductive ServerEvent where
  | received (cmd : CommandMessage) (touch_time handler_time : Int)
  | sweep (now : Int)
  deriving DecidableEq

def server_step (s : ServerState) : ServerEvent → ServerState
  | .received cmd touch_time handler_time => router_step s cmd touch_time handler_time
  | .sweep now => monitor_clients s now

/-- State after a sequence of server events, oldest first. -/
def server_run (s : ServerState) (events : List ServerEvent) : ServerState :=
  events.foldl server_step s

/-! ## Job queue as a linked list (`add_job`, `get_job`) -/

/-- A heap cell holding a `Job` and its `next` link; `none` is `NULL`. -/
structure JobNode where
  job : Job
  next : Option Nat
  deriving DecidableEq

/-- The job cells by address, with the globals `job_queue_head` and `job_queue_tail`. -/
structure JobQueue where
  node : Nat → JobNode
  job_queue_head : Option Nat
  job_queue_tail : Option Nat

/-- What a handler does before `add_job`: `malloc` returns the address `addr`, the handler
fills in the job; `next` holds whatever the cell contained. -/
def JobQueue.malloc_job (q : JobQueue) (addr : Nat) (job : Job) (junk : Option Nat) :
    JobQueue :=
  { q with node := Function.update q.node addr { job := job, next := junk } }

/-- The pointer-level `add_job(new_job)`. -/
def JobQueue.add_job (q : JobQueue) (new_job : Nat) : JobQueue :=
  let node1 := Function.update q.node new_job { q.node new_job with next := none }
  match q.job_queue_tail with
  | some tail =>
    { node := Function.update node1 tail { node1 tail with next := some new_job },
      job_queue_head := q.job_queue_head,
      job_queue_tail := some new_job }
  | none =>
    { node := node1, job_queue_head := some new_job, job_queue_tail := some new_job }

/-- The pointer-level `get_job()`: the address of the detached head and the queue left;
`none` when the queue is empty, where the C function waits on the condition variable. -/
def JobQueue.get_job (q : JobQueue) : Option (Nat × JobQueue) :=
  match q.job_queue_head with
  | none => none
  | some job =>
    let head1 := (q.node job).next
    let tail1 := if head1 = none then none else q.job_queue_tail
    some (job,
      { node := Function.update q.node job { q.node job with next := none },
        job_queue_head := head1,
        job_queue_tail := tail1 })

/-! ## Predicates, table operations and sample traces used by the theorems -/

/-- Spec-side reading of QUIT: LEAVE when the client is in a channel, then the client slot
is zeroed and `client_count` decremented. An unknown sender leaves the registry as it is. -/
def quit_as_leave_then_zero (s : ServerState) (cmd : CommandMessage) : GlobalRegistry :=
  match find_client_index s.registry cmd.sender_pid with
  | none => s.registry
  | some client_idx =>
    let r1 :=
      if (client_at s.registry client_idx).current_channel ≠ "" then
        (handle_leave s cmd).registry
      else s.registry
    { r1 with clients := r1.clients.set client_idx zero_client,
              client_count := r1.client_count - 1 }

/-- Room found at the slot after `remove_client_from_room`. -/
def room_after_remove (room : RoomEntry) (pid : Int) : RoomEntry :=
  match first_index (fun m : Int => m = pid) room.member_list with
  | none => room
  | some i =>
    if room.member_count - 1 = 0 ∧ room.channel_name ≠ "#general" then zero_room
    else
      { room with members := shift_members room.members i (room.member_count - 1 - i),
                  member_count := room.member_count - 1 }

/-- Whether `remove_client_from_room` clears the slot. -/
def room_cleared (room : RoomEntry) (pid : Int) : Prop :=
  pid ∈ room.member_list ∧ room.member_count - 1 = 0 ∧ room.channel_name ≠ "#general"

instance (room : RoomEntry) (pid : Int) : Decidable (room_cleared room pid) := by
  unfold room_cleared; infer_instance

/-- Room table after `remove_client_from_room` at the first room named `channel`
(unchanged when no room has that name). -/
def rooms_depart (rooms : List RoomEntry) (channel : String) (pid : Int) : List RoomEntry :=
  match first_index (fun room : RoomEntry => room.channel_name = channel) rooms with
  | some idx => rooms.set idx (room_after_remove (rooms.getD idx zero_room) pid)
  | none => rooms

/-- Room table after `add_client_to_room`. -/
def rooms_add (rooms : List RoomEntry) (idx : Nat) (pid : Int) : List RoomEntry :=
  rooms.set idx (room_add (rooms.getD idx zero_room) pid)

/-- Room table after the creation branch of `handle_join`. -/
def rooms_create (rooms : List RoomEntry) (idx : Nat) (channel : String) : List RoomEntry :=
  rooms.set idx { rooms.getD idx zero_room with channel_name := channel, member_count := 0 }

/-- Registry after the departure step shared by `remove_client`, `handle_leave` and
`handle_join`. -/
def depart (r : GlobalRegistry) (channel : String) (pid : Int) : GlobalRegistry :=
  match find_room_index r channel with
  | some idx => remove_client_from_room r idx pid
  | none => r

/-- A condition on every event of a trace, checked against the state the event meets. -/
def trace_ok (ok : ServerState → Event → Prop) : ServerState → List Event → Prop
  | _, [] => True
  | s, e :: es => ok s e ∧ trace_ok ok (step s e) es

instance trace_ok_decidable (ok : ServerState → Event → Prop)
    [inst : ∀ s e, Decidable (ok s e)] :
    ∀ (s : ServerState) (es : List Event), Decidable (trace_ok ok s es)
  | _, [] => isTrue trivial
  | s, e :: es =>
    match inst s e, trace_ok_decidable ok (step s e) es with
    | isTrue h1, isTrue h2 => isTrue ⟨h1, h2⟩
    | isFalse h1, _ => isFalse (fun h => h1 h.1)
    | _, isFalse h2 => isFalse (fun h => h2 h.2)

/-- Every room slot has a `members` array of `MAX_CLIENTS` cells and a count within it. -/
def RoomsShape (rooms : List RoomEntry) : Prop :=
  ∀ room ∈ rooms, room.members.length = MAX_CLIENTS ∧ room.member_count ≤ MAX_CLIENTS

/-- At most one slot per non-empty channel name. -/
def UniqueNames (rooms : List RoomEntry) : Prop :=
  ∀ (i j : Nat) (a b : RoomEntry), rooms[i]? = some a → rooms[j]? = some b →
    a.channel_name ≠ "" →
    a.channel_name = b.channel_name → i = j

/-- No named room other than `#general` has `member_count = 0`, slot `n` left aside. -/
def NoEmptyExcept (n : Nat) (rooms : List RoomEntry) : Prop :=
  ∀ (j : Nat) (room : RoomEntry), rooms[j]? = some room → j ≠ n → room.channel_name ≠ "" →
    room.channel_name ≠ "#general" → room.member_count ≠ 0

/-- No named room other than `#general` has `member_count = 0`. -/
def NoEmptyRoom (rooms : List RoomEntry) : Prop :=
  ∀ room ∈ rooms, room.channel_name ≠ "" → room.channel_name ≠ "#general" →
    room.member_count ≠ 0

/-- Condition on an event: a JOIN carries a channel name of at most 31 bytes, so that the
name and its terminator fit the 32-byte fields `handle_join` copies it into with
`strcpy`. -/
def channel_fits (_ : ServerState) : Event → Prop
  | .command cmd _ => cmd.command = .CMD_JOIN → cmd.channel.length < MAX_CHANNEL
  | .sweep _ => True

instance (s : ServerState) (e : Event) : Decidable (channel_fits s e) := by
  cases e <;> unfold channel_fits <;> infer_instance

/-- The event satisfies `channel_fits` and the condition `ok`. -/
def fits_and (ok : ServerState → Event → Prop) (s : ServerState) (e : Event) : Prop :=
  channel_fits s e ∧ ok s e

instance (ok : ServerState → Event → Prop) [∀ s e, Decidable (ok s e)] (s : ServerState)
    (e : Event) : Decidable (fits_and ok s e) := by
  unfold fits_and; infer_instance

/-- A control message with the given kind, handle and channel; the reply queue id is the
handle plus 1000. -/
def sample_cmd (command : CommandCode) (pid : Int) (channel : String) : CommandMessage :=
  { command := command, sender_pid := pid, reply_qid := pid + 1000, channel := channel,
    target := "", text := "" }

/-- A channel string of `n` bytes, all `c`. For `n` of 32 or more this is what a string
read finds at `cmd->channel` when the 32-byte field holds no terminator and the bytes of
`target` (and `text`) follow up to the first NUL. -/
def sample_name (n : Nat) : String := String.mk (List.replicate n 'c')

/-- REGISTER 5, then a JOIN by 5 whose channel string runs to `n` bytes. -/
def sample_events_long (n : Nat) : List Event :=
  [ .command (sample_cmd .CMD_REGISTER 5 "") 0,
    .command (sample_cmd .CMD_JOIN 5 (sample_name n)) 1 ]

/-- REGISTERs from handles 1 to 10, filling every client slot, then a JOIN by handle 10
(the client in slot 9) whose channel string runs to 44 bytes. -/
def sample_events_last_slot : List Event :=
  (List.range 10).map (fun i => Event.command (sample_cmd .CMD_REGISTER (i + 1) "") 0) ++
    [ .command (sample_cmd .CMD_JOIN 10 (sample_name 44)) 1 ]

/-- No two client slots hold the same non-zero handle. -/
def UniqueHandles (r : GlobalRegistry) : Prop :=
  ∀ (i j : Nat) (ci cj : ClientEntry), r.clients[i]? = some ci → r.clients[j]? = some cj →
    ci.pid ≠ 0 → ci.pid = cj.pid → i = j

/-- The same property on the client table alone. -/
def UniquePids (clients : List ClientEntry) : Prop :=
  ∀ (i j : Nat) (ci cj : ClientEntry), clients[i]? = some ci → clients[j]? = some cj →
    ci.pid ≠ 0 → ci.pid = cj.pid → i = j

/-- REGISTER events carry a handle that no occupied slot holds. -/
def register_fresh (s : ServerState) : Event → Prop
  | .command cmd _ =>
    cmd.command = .CMD_REGISTER →
      ∀ c ∈ s.registry.clients, c.pid ≠ 0 → c.pid ≠ cmd.sender_pid
  | .sweep _ => True

instance (s : ServerState) (e : Event) : Decidable (register_fresh s e) := by
  cases e <;> unfold register_fresh <;> infer_instance

/-- `client_count` is the number of slots with a non-zero handle. -/
def ClientCountOk (r : GlobalRegistry) : Prop :=
  r.client_count = (r.clients.countP (fun c => decide (c.pid ≠ 0)) : Nat)

/-- `room_count` is the number of slots with a non-empty name. -/
def RoomCountOk (r : GlobalRegistry) : Prop :=
  r.room_count = (r.rooms.countP (fun room => decide (room.channel_name ≠ "")) : Nat)

/-- Both counters agree with the tables. -/
def CountsMatch (r : GlobalRegistry) : Prop :=
  ClientCountOk r ∧ RoomCountOk r

instance (r : GlobalRegistry) : Decidable (CountsMatch r) := by
  unfold CountsMatch ClientCountOk RoomCountOk; infer_instance

/-- REGISTER and QUIT events carry a non-zero handle. -/
def nonzero_register_quit (_ : ServerState) : Event → Prop
  | .command cmd _ =>
    cmd.command = .CMD_REGISTER ∨ cmd.command = .CMD_QUIT → cmd.sender_pid ≠ 0
  | .sweep _ => True

instance (s : ServerState) (e : Event) : Decidable (nonzero_register_quit s e) := by
  cases e <;> unfold nonzero_register_quit <;> infer_instance

/-- REGISTER 5, REGISTER 6, both JOIN `#a`, 5 moves to `#b`, 6 QUITs, a sweep at time 500. -/
def sample_trace : List Event :=
  [ .command (sample_cmd .CMD_REGISTER 5 "") 0,
    .command (sample_cmd .CMD_REGISTER 6 "") 0,
    .command (sample_cmd .CMD_JOIN 5 "#a") 1,
    .command (sample_cmd .CMD_JOIN 6 "#a") 2,
    .command (sample_cmd .CMD_JOIN 5 "#b") 3,
    .command (sample_cmd .CMD_QUIT 6 "") 4,
    .sweep 500 ]

/-- The first room named `ch` sits at index `n`. -/
def FirstNamed (rooms : List RoomEntry) (ch : String) (n : Nat) : Prop :=
  (∃ a, rooms[n]? = some a ∧ a.channel_name = ch) ∧
    ∀ (j : Nat) (b : RoomEntry), j < n → rooms[j]? = some b → b.channel_name ≠ ch

/-- Every `members` array has `MAX_CLIENTS` cells. -/
def RoomsTyped (rooms : List RoomEntry) : Prop :=
  ∀ room ∈ rooms, room.members.length = MAX_CLIENTS

/-- The member list of every named room is duplicate-free and each member is the non-zero
handle of a client entry whose current channel is that room. -/
def MembersTracked (clients : List ClientEntry) (rooms : List RoomEntry) : Prop :=
  ∀ room ∈ rooms, room.channel_name ≠ "" →
    room.member_list.Nodup ∧
      ∀ m ∈ room.member_list, ∃ c ∈ clients, c.pid = m ∧ c.pid ≠ 0 ∧
        c.current_channel = room.channel_name

/-- The three facts that make member tracking inductive. -/
def TrackedInv (r : GlobalRegistry) : Prop :=
  RoomsShape r.rooms ∧ UniqueNames r.rooms ∧ MembersTracked r.clients r.rooms

/-- JOIN events carry a non-zero handle. -/
def join_sender_nonzero (_ : ServerState) : Event → Prop
  | .command cmd _ => cmd.command = .CMD_JOIN → cmd.sender_pid ≠ 0
  | .sweep _ => True

instance (s : ServerState) (e : Event) : Decidable (join_sender_nonzero s e) := by
  cases e <;> unfold join_sender_nonzero <;> infer_instance

/-- The member list of every named room is duplicate-free and made of handles of occupied
client entries. -/
def MembersValid (r : GlobalRegistry) : Prop :=
  ∀ room ∈ r.rooms, room.channel_name ≠ "" →
    room.member_list.Nodup ∧ ∀ m ∈ room.member_list, ∃ c ∈ r.clients, c.pid ≠ 0 ∧ c.pid = m

instance (r : GlobalRegistry) : Decidable (MembersValid r) := by
  unfold MembersValid; infer_instance

/-- Every occupied client entry with a non-empty current channel is listed in a room of
that name. -/
def ChannelsBacked (clients : List ClientEntry) (rooms : List RoomEntry) : Prop :=
  ∀ c ∈ clients, c.pid ≠ 0 → c.current_channel ≠ "" →
    ∃ room ∈ rooms, room.channel_name = c.current_channel ∧ c.pid ∈ room.member_list

/-- The facts that make the backing of current channels inductive. -/
def BackedInv (r : GlobalRegistry) : Prop :=
  r.clients.length = MAX_CLIENTS ∧ UniqueHandles r ∧ TrackedInv r ∧
    ChannelsBacked r.clients r.rooms

/-- REGISTER carries a handle no occupied slot holds, and JOIN a non-zero handle. -/
def fresh_and_nonzero (s : ServerState) (e : Event) : Prop :=
  register_fresh s e ∧ join_sender_nonzero s e

instance (s : ServerState) (e : Event) : Decidable (fresh_and_nonzero s e) := by
  unfold fresh_and_nonzero; infer_instance

/-- Every occupied client entry whose current channel is a non-empty name is listed in a
room of that name. -/
def CurrentChannelsBacked (r : GlobalRegistry) : Prop :=
  ∀ c ∈ r.clients, c.pid ≠ 0 → c.current_channel ≠ "" →
    ∃ room ∈ r.rooms, room.channel_name = c.current_channel ∧ c.pid ∈ room.member_list

instance (r : GlobalRegistry) : Decidable (CurrentChannelsBacked r) := by
  unfold CurrentChannelsBacked; infer_instance

instance (rooms : List RoomEntry) : Decidable (RoomsShape rooms) := by
  unfold RoomsShape; infer_instance

instance (rooms : List RoomEntry) : Decidable (NoEmptyRoom rooms) := by
  unfold NoEmptyRoom; infer_instance

/-- The room left when a handle that was not a member is added and removed again. -/
def room_restored (a : RoomEntry) (pid : Int) : RoomEntry :=
  if a.member_count = 0 ∧ a.channel_name ≠ "#general" then zero_room
  else { a with members := a.members.set a.member_count pid }

/-- The departure step of a JOIN by `pid`, in channel `old`, to channel `ch` clears the
room `old`. -/
def join_clears_old (r : GlobalRegistry) (old ch : String) (pid : Int) : Prop :=
  old ≠ "" ∧ old ≠ ch ∧
    match find_room_index r old with
    | some o => room_cleared (room_at r o) pid
    | none => False

instance (r : GlobalRegistry) (old ch : String) (pid : Int) :
    Decidable (join_clears_old r old ch pid) := by
  unfold join_clears_old
  cases find_room_index r old <;> infer_instance

/-- REGISTER 5, REGISTER 6, JOIN `#a` by 6. -/
def sample_events_one : List Event :=
  [ .command (sample_cmd .CMD_REGISTER 5 "") 0,
    .command (sample_cmd .CMD_REGISTER 6 "") 0,
    .command (sample_cmd .CMD_JOIN 6 "#a") 1 ]

/-- Handles 5 and 6 registered, 6 in `#a`. -/
def sample_state_one : ServerState :=
  run init_server_state sample_events_one

/-- Handle 5 registered, in no channel. -/
def sample_state_five : ServerState :=
  run init_server_state [ .command (sample_cmd .CMD_REGISTER 5 "") 0 ]

/-- Handle 5 registered and alone in `#a`. -/
def sample_state_two : ServerState :=
  run init_server_state
    [ .command (sample_cmd .CMD_REGISTER 5 "") 0,
      .command (sample_cmd .CMD_JOIN 5 "#a") 1 ]

/-- Slot 0 of the room table holds the room `#general`. -/
def GeneralAtZero (rooms : List RoomEntry) : Prop :=
  ∃ room, rooms[0]? = some room ∧ room.channel_name = "#general"

/-- Ten REGISTERs, from the handles 1 to 10. -/
def sample_events_full : List Event :=
  [ .command (sample_cmd .CMD_REGISTER 1 "") 0,
    .command (sample_cmd .CMD_REGISTER 2 "") 0,
    .command (sample_cmd .CMD_REGISTER 3 "") 0,
    .command (sample_cmd .CMD_REGISTER 4 "") 0,
    .command (sample_cmd .CMD_REGISTER 5 "") 0,
    .command (sample_cmd .CMD_REGISTER 6 "") 0,
    .command (sample_cmd .CMD_REGISTER 7 "") 0,
    .command (sample_cmd .CMD_REGISTER 8 "") 0,
    .command (sample_cmd .CMD_REGISTER 9 "") 0,
    .command (sample_cmd .CMD_REGISTER 10 "") 0 ]

/-- All ten client slots occupied. -/
def sample_state_full : ServerState :=
  run init_server_state sample_events_full

/-- Handles 1 to 4 registered, each alone in a room of its own (`#a` to `#d`): with
`#general` all five room slots are named. -/
def sample_state_rooms_full : ServerState :=
  run init_server_state
    [ .command (sample_cmd .CMD_REGISTER 1 "") 0,
      .command (sample_cmd .CMD_REGISTER 2 "") 0,
      .command (sample_cmd .CMD_REGISTER 3 "") 0,
      .command (sample_cmd .CMD_REGISTER 4 "") 0,
      .command (sample_cmd .CMD_JOIN 1 "#a") 1,
      .command (sample_cmd .CMD_JOIN 2 "#b") 1,
      .command (sample_cmd .CMD_JOIN 3 "#c") 1,
      .command (sample_cmd .CMD_JOIN 4 "#d") 1 ]

/-- A channel name of 31 characters, the longest the 32-byte channel field holds. -/
def sample_long_channel : String := "#aaaaaaaaaaaaaaaaaaaaaaaaaaaaaa"

/-- Handle 12345 registered and alone in the channel with the 31-character name. -/
def sample_state_long : ServerState :=
  run init_server_state
    [ .command (sample_cmd .CMD_REGISTER 12345 "") 0,
      .command (sample_cmd .CMD_JOIN 12345 sample_long_channel) 1 ]

/-- The MSG control message with text `hi` from handle 12345. -/
def sample_msg_long : CommandMessage :=
  { command := .CMD_MSG, sender_pid := 12345, reply_qid := 13345, channel := "", target := "",
    text := "hi" }

/-- REGISTER 5, REGISTER 6, both JOIN `#a`. -/
def sample_events_three : List Event :=
  [ .command (sample_cmd .CMD_REGISTER 5 "") 0,
    .command (sample_cmd .CMD_REGISTER 6 "") 0,
    .command (sample_cmd .CMD_JOIN 5 "#a") 1,
    .command (sample_cmd .CMD_JOIN 6 "#a") 2 ]

/-- The broadcast job that `MSG hi` from handle 5 in `#a` produces. -/
def sample_job_msg : Job :=
  { type := .CMD_MSG, sender_name := "[#a] User 5", target_channel := "#a", target_qid := 0,
    message := "hi" }

/-- The broadcast job that `MSG hi` from handle 12345 in the channel with the 31-character
name produces: its label `[C] User 12345` has 44 characters. -/
def sample_job_long : Job :=
  { type := .CMD_MSG, sender_name := "[" ++ sample_long_channel ++ "] User 12345",
    target_channel := sample_long_channel, target_qid := 0, message := "hi" }

/-- Handles 5 and 6 in `#a`, with the broadcast job of handle 5 at the head of the queue,
followed by one more job. -/
def sample_state_three : ServerState :=
  { registry := (run init_server_state sample_events_three).registry,
    job_queue := [sample_job_msg, server_unicast 1005 "later"] }

/-- The control message of the input line `DM 6 ping` typed by handle 5. -/
def sample_dm : CommandMessage :=
  { command := .CMD_DM, sender_pid := 5, reply_qid := 1005, channel := "", target := "6",
    text := "ping" }

/-- Handles 5, 6 and 7 registered, all three in `#r`, joined in that order. -/
def sample_state_who : ServerState :=
  run init_server_state
    [ .command (sample_cmd .CMD_REGISTER 5 "") 0,
      .command (sample_cmd .CMD_REGISTER 6 "") 0,
      .command (sample_cmd .CMD_REGISTER 7 "") 0,
      .command (sample_cmd .CMD_JOIN 5 "#r") 1,
      .command (sample_cmd .CMD_JOIN 6 "#r") 2,
      .command (sample_cmd .CMD_JOIN 7 "#r") 3 ]

/-- The eviction test of `monitor_clients` on one client entry. -/
def evicted (now : Int) (c : ClientEntry) : Prop :=
  c.pid ≠ 0 ∧ now - c.last_active > INACTIVITY_TIMEOUT

instance (now : Int) (c : ClientEntry) : Decidable (evicted now c) := by
  unfold evicted; infer_instance

/-- The jobs one sweep enqueues for a client entry: nothing for a kept entry; for an
evicted one the notice to its reply mailbox, then the departure broadcast to its current
channel when it has one. -/
def eviction_jobs (now : Int) (c : ClientEntry) : List Job :=
  if evicted now c then
    server_unicast c.reply_qid "You have been disconnected due to inactivity." ::
      (if c.current_channel ≠ "" then
        [server_broadcast c.current_channel ("User " ++ fmt_int c.pid ++ " has left the chat.")]
       else [])
  else []

/-- The member list of every named room is duplicate-free. -/
def NodupNamed (rooms : List RoomEntry) : Prop :=
  ∀ room ∈ rooms, room.channel_name ≠ "" → room.member_list.Nodup

/-- No room named `ch` lists the handle `pid`. -/
def Absent (rooms : List RoomEntry) (ch : String) (pid : Int) : Prop :=
  ∀ room ∈ rooms, room.channel_name = ch → pid ∉ room.member_list

/-- The facts about the registry that the sweep relies on and maintains. -/
def SweepInv (r : GlobalRegistry) : Prop :=
  r.clients.length = MAX_CLIENTS ∧ UniqueHandles r ∧ RoomsShape r.rooms ∧
    UniqueNames r.rooms ∧ NodupNamed r.rooms ∧ ChannelsBacked r.clients r.rooms

/-- The sweep loop after the slots below `i`. -/
def sweep_upto (s : ServerState) (now : Int) (i : Nat) : ServerState :=
  (List.range i).foldl (monitor_slot now) s

/-- REGISTER 5 at time 0, REGISTER 6 at time 100, both JOIN `#a`. -/
def sample_events_sweep : List Event :=
  [ .command (sample_cmd .CMD_REGISTER 5 "") 0,
    .command (sample_cmd .CMD_REGISTER 6 "") 100,
    .command (sample_cmd .CMD_JOIN 5 "#a") 0,
    .command (sample_cmd .CMD_JOIN 6 "#a") 100 ]

/-- Handles 5 and 6 in `#a`, last active at times 0 and 100. -/
def sample_state_sweep : ServerState :=
  run init_server_state sample_events_sweep

/-- REGISTER from handle 5, JOIN `#r`, MSG `hello`. -/
def sample_events_echo : List Event :=
  [ .command (sample_cmd .CMD_REGISTER 5 "") 0,
    .command (sample_cmd .CMD_JOIN 5 "#r") 1,
    .command { command := .CMD_MSG, sender_pid := 5, reply_qid := 1005, channel := "",
               target := "", text := "hello" } 2 ]

instance (clients : List ClientEntry) : Decidable (UniquePids clients) :=
  decidable_of_iff
    (∀ i < clients.length, ∀ j < clients.length,
      (clients.getD i zero_client).pid ≠ 0 →
      (clients.getD i zero_client).pid = (clients.getD j zero_client).pid → i = j)
    (by
      constructor
      · intro h i j ci cj hi hj h0 heq
        have hil := (List.getElem?_eq_some.mp hi).1
        have hjl := (List.getElem?_eq_some.mp hj).1
        have ei : clients.getD i zero_client = ci := by
          simp [List.getD_eq_getElem?_getD, hi]
        have ej : clients.getD j zero_client = cj := by
          simp [List.getD_eq_getElem?_getD, hj]
        exact h i hil j hjl (by rw [ei]; exact h0) (by rw [ei, ej]; exact heq)
      · intro h i hi j hj h0 heq
        have ei : clients[i]? = some (clients.getD i zero_client) := by
          simp [List.getD_eq_getElem?_getD, List.getElem?_eq_getElem hi]
        have ej : clients[j]? = some (clients.getD j zero_client) := by
          simp [List.getD_eq_getElem?_getD, List.getElem?_eq_getElem hj]
        exact h i j _ _ ei ej h0 heq)

instance (r : GlobalRegistry) : Decidable (UniqueHandles r) :=
  inferInstanceAs (Decidable (UniquePids r.clients))

instance (rooms : List RoomEntry) : Decidable (UniqueNames rooms) :=
  decidable_of_iff
    (∀ i < rooms.length, ∀ j < rooms.length,
      (rooms.getD i zero_room).channel_name ≠ "" →
      (rooms.getD i zero_room).channel_name = (rooms.getD j zero_room).channel_name → i = j)
    (by
      constructor
      · intro h i j a b hi hj h0 heq
        have hil := (List.getElem?_eq_some.mp hi).1
        have hjl := (List.getElem?_eq_some.mp hj).1
        have ei : rooms.getD i zero_room = a := by
          simp [List.getD_eq_getElem?_getD, hi]
        have ej : rooms.getD j zero_room = b := by
          simp [List.getD_eq_getElem?_getD, hj]
        exact h i hil j hjl (by rw [ei]; exact h0) (by rw [ei, ej]; exact heq)
      · intro h i hi j hj h0 heq
        have ei : rooms[i]? = some (rooms.getD i zero_room) := by
          simp [List.getD_eq_getElem?_getD, List.getElem?_eq_getElem hi]
        have ej : rooms[j]? = some (rooms.getD j zero_room) := by
          simp [List.getD_eq_getElem?_getD, List.getElem?_eq_getElem hj]
        exact h i j _ _ ei ej h0 heq)

/-- Invariants 1 to 6 of the registry as the specification words them. -/
def SpecInvariants (r : GlobalRegistry) : Prop :=
  UniqueHandles r ∧ UniqueNames r.rooms ∧ CurrentChannelsBacked r ∧ MembersValid r ∧
    NoEmptyRoom r.rooms ∧ CountsMatch r

instance (r : GlobalRegistry) : Decidable (SpecInvariants r) := by
  unfold SpecInvariants; infer_instance

/-- Every member of a named room is the handle of an occupied client entry whose current
channel is that room, and no member list holds a handle twice: invariant 4 with the
link back from the room to the client's current channel. -/
def MembersInCurrentChannel (r : GlobalRegistry) : Prop :=
  MembersTracked r.clients r.rooms

instance (r : GlobalRegistry) : Decidable (MembersInCurrentChannel r) := by
  unfold MembersInCurrentChannel MembersTracked; infer_instance

/-- Invariants 1 to 6 with invariant 4 in the form `MembersInCurrentChannel`, together with
the array sizes of the C types. -/
def RegistryInvariants (r : GlobalRegistry) : Prop :=
  WellTyped r ∧ RoomsShape r.rooms ∧ UniqueHandles r ∧ UniqueNames r.rooms ∧
    CurrentChannelsBacked r ∧ MembersInCurrentChannel r ∧ NoEmptyRoom r.rooms ∧ CountsMatch r

instance (r : GlobalRegistry) : Decidable (RegistryInvariants r) := by
  unfold RegistryInvariants; infer_instance

/-- Well-formed input: a command carries a non-zero sender handle, and a REGISTER a handle
that no client slot holds. -/
def well_formed_input (s : ServerState) : Event → Prop
  | .command cmd _ =>
    cmd.sender_pid ≠ 0 ∧
      (cmd.command = .CMD_REGISTER → ∀ c ∈ s.registry.clients, c.pid ≠ cmd.sender_pid)
  | .sweep _ => True

instance (s : ServerState) (e : Event) : Decidable (well_formed_input s e) := by
  cases e <;> unfold well_formed_input <;> infer_instance

/-- A registry with the array sizes of the C types in which handle 5 has no current channel
and is nevertheless listed in `#a`, next to handle 6 whose current channel is `#a`. -/
def sample_state_listed : ServerState :=
  { registry :=
      { clients :=
          [ { pid := 5, reply_qid := 1005, current_channel := "", last_active := 0 },
            { pid := 6, reply_qid := 1006, current_channel := "#a", last_active := 0 },
            zero_client, zero_client, zero_client, zero_client, zero_client, zero_client,
            zero_client, zero_client ],
        client_count := 2,
        rooms :=
          [ { zero_room with channel_name := "#general" },
            { channel_name := "#a", members := [5, 6, 0, 0, 0, 0, 0, 0, 0, 0],
              member_count := 2 },
            zero_room, zero_room, zero_room ],
        room_count := 2 },
    job_queue := [] }

/-- The clock values of a trace never go backwards, starting from `t0`: each refresh reads
a value at least the previous one, and `handle_register` reads one at least that of the
refresh before it. -/
def clock_ok : Int → List ServerEvent → Prop
  | _, [] => True
  | t0, .received _ touch_time handler_time :: es =>
    t0 ≤ touch_time ∧ touch_time ≤ handler_time ∧ clock_ok handler_time es
  | t0, .sweep now :: es => t0 ≤ now ∧ clock_ok now es

instance clock_ok_decidable : ∀ (t0 : Int) (es : List ServerEvent), Decidable (clock_ok t0 es)
  | _, [] => isTrue trivial
  | t0, .received _ touch_time handler_time :: es =>
    match Int.decLe t0 touch_time, Int.decLe touch_time handler_time,
      clock_ok_decidable handler_time es with
    | isTrue h1, isTrue h2, isTrue h3 => isTrue ⟨h1, h2, h3⟩
    | isFalse h1, _, _ => isFalse (fun h => h1 h.1)
    | _, isFalse h2, _ => isFalse (fun h => h2 h.2.1)
    | _, _, isFalse h3 => isFalse (fun h => h3 h.2.2)
  | t0, .sweep now :: es =>
    match Int.decLe t0 now, clock_ok_decidable now es with
    | isTrue h1, isTrue h2 => isTrue ⟨h1, h2⟩
    | isFalse h1, _ => isFalse (fun h => h1 h.1)
    | _, isFalse h2 => isFalse (fun h => h2 h.2)

/-- The last clock value read along a trace that starts at `t0`. -/
def last_time : Int → List ServerEvent → Int
  | t0, [] => t0
  | _, .received _ _ handler_time :: es => last_time handler_time es
  | _, .sweep now :: es => last_time now es

/-- No occupied client entry carries a `last_active` later than `t`. -/
def LastActiveBounded (t : Int) (r : GlobalRegistry) : Prop :=
  ∀ c ∈ r.clients, c.pid ≠ 0 → c.last_active ≤ t

/-- Slot by slot relation between two client tables. -/
def SlotsRel (R : ClientEntry → ClientEntry → Prop) (cl cl1 : List ClientEntry) : Prop :=
  ∀ (i : Nat) (c c1 : ClientEntry), cl[i]? = some c → cl1[i]? = some c1 → R c c1

/-- What a handler other than QUIT does to a slot: it keeps handle and `last_active`, or it
fills a free slot with `last_active = t`. -/
def KeepSlot (t : Int) (c c1 : ClientEntry) : Prop :=
  (c1.pid = c.pid ∧ c1.last_active = c.last_active) ∨ (c.pid = 0 ∧ c1.last_active = t)

/-- What a handler or the sweep does to a slot: as `KeepSlot`, or the slot is zeroed. -/
def HandlerSlot (t : Int) (c c1 : ClientEntry) : Prop :=
  KeepSlot t c c1 ∨ c1 = zero_client

/-- What the refresh does to a slot: the handle stays, `last_active` stays or becomes `t`. -/
def TouchSlot (t : Int) (c c1 : ClientEntry) : Prop :=
  c1.pid = c.pid ∧ (c1.last_active = c.last_active ∨ c1.last_active = t)

/-- A received JOIN carries a channel name of at most 31 bytes. -/
def server_event_fits : ServerEvent → Prop
  | .received cmd _ _ => cmd.command = .CMD_JOIN → cmd.channel.length < MAX_CHANNEL
  | .sweep _ => True

instance (e : ServerEvent) : Decidable (server_event_fits e) := by
  cases e <;> unfold server_event_fits <;> infer_instance

/-- REGISTER from handle 5 and then a JOIN by 5 whose channel string runs to 32 bytes, both
handled at clock value 1000. -/
def sample_server_events_long : List ServerEvent :=
  [ .received (sample_cmd .CMD_REGISTER 5 "") 1000 1000,
    .received (sample_cmd .CMD_JOIN 5 (sample_name 32)) 1000 1000 ]

/-- The `next` links lead from `p` through exactly the addresses `as`, then to `NULL`. -/
def chain (node : Nat → JobNode) : Option Nat → List Nat → Prop
  | p, [] => p = none
  | p, a :: as => p = some a ∧ chain node (node a).next as

/-- The queue holds exactly the jobs `l`, oldest first, each at its address: the list
hangs from `job_queue_head`, no address occurs twice, and `job_queue_tail` points to the
last cell (it is `NULL` when there is none). -/
def QueueHolds (q : JobQueue) (l : List (Nat × Job)) : Prop :=
  chain q.node q.job_queue_head (l.map Prod.fst) ∧ (l.map Prod.fst).Nodup ∧
    (∀ x ∈ l, (q.node x.1).job = x.2) ∧ q.job_queue_tail = (l.map Prod.fst).getLast?

/-- A call on the queue: `add_job` of a job freshly allocated at `addr` (whose `next` field
holds `junk` before the call), or `get_job`. -/
inductive QueueOp where
  | add (addr : Nat) (job : Job) (junk : Option Nat)
  | get
  deriving DecidableEq

/-- Runs the calls on the linked list; the result is the queue left and the jobs returned
by the `get_job` calls, in order. A `get_job` on an empty queue waits: nothing after it is
run. -/
def queue_run : JobQueue → List QueueOp → JobQueue × List Job
  | q, [] => (q, [])
  | q, .add addr job junk :: ops => queue_run ((q.malloc_job addr job junk).add_job addr) ops
  | q, .get :: ops =>
    match q.get_job with
    | none => (q, [])
    | some (a, q1) => ((queue_run q1 ops).1, (q1.node a).job :: (queue_run q1 ops).2)

/-- The jobs added by a sequence of calls, in order. -/
def added_jobs : List QueueOp → List Job
  | [] => []
  | .add _ job _ :: ops => job :: added_jobs ops
  | .get :: ops => added_jobs ops

/-- The number of `get_job` calls in a sequence. -/
def get_count : List QueueOp → Nat
  | [] => 0
  | .add _ _ _ :: ops => get_count ops
  | .get :: ops => get_count ops + 1

/-- The calls are admissible from a queue whose cells are at the addresses `live`: every
`add_job` passes an address that is not in the queue, and `get_job` is called only when
the queue is not empty. -/
def ops_ok : List Nat → List QueueOp → Prop
  | _, [] => True
  | live, .add addr _ _ :: ops => addr ∉ live ∧ ops_ok (live ++ [addr]) ops
  | live, .get :: ops =>
    match live with
    | [] => False
    | _ :: rest => ops_ok rest ops

instance ops_ok_decidable : ∀ (live : List Nat) (ops : List QueueOp), Decidable (ops_ok live ops)
  | _, [] => isTrue trivial
  | live, .add addr _ _ :: ops =>
    match (inferInstance : Decidable (addr ∉ live)), ops_ok_decidable (live ++ [addr]) ops with
    | isTrue h1, isTrue h2 => isTrue ⟨h1, h2⟩
    | isFalse h1, _ => isFalse (fun h => h1 h.1)
    | _, isFalse h2 => isFalse (fun h => h2 h.2)
  | [], .get :: _ => isFalse (fun h => h)
  | _ :: rest, .get :: ops => ops_ok_decidable rest ops

/-- The empty queue over a heap of blank cells. -/
def sample_queue : JobQueue :=
  { node := fun _ => { job := server_unicast 0 "", next := none },
    job_queue_head := none, job_queue_tail := none }

/-- Three jobs are added, the first at address 100 in a cell with a stale `next`, the
second at 200; one is taken; a third is added at the address 100, free again; one more is
taken. -/
def sample_queue_ops : List QueueOp :=
  [ .add 100 (server_unicast 1 "first") (some 7),
    .add 200 (server_unicast 2 "second") none,
    .get,
    .add 100 (server_unicast 3 "third") (some 200),
    .get ]

/-! # Theorems -/

/-! ## Lookup lemmas -/

theorem first_index_eq_none_iff {α : Type} (p : α → Prop) [DecidablePred p] (l : List α) :
    first_index p l = none ↔ ∀ a ∈ l, ¬ p a := by
  induction l with
  | nil => simp [first_index]
  | cons a as ih =>
    by_cases h : p a
    · simp [first_index, h]
    · simp [first_index, h, ih]

theorem first_index_some {α : Type} (p : α → Prop) [DecidablePred p] (l : List α) (i : Nat)
    (h : first_index p l = some i) :
    (∃ a, l[i]? = some a ∧ p a) ∧ ∀ j b, j < i → l[j]? = some b → ¬ p b := by
  induction l generalizing i with
  | nil => simp [first_index] at h
  | cons a as ih =>
    by_cases hp : p a
    · simp [first_index, hp] at h
      subst h
      exact ⟨⟨a, by simp, hp⟩, by intro j b hj; omega⟩
    · simp [first_index, hp] at h
      obtain ⟨k, hk, rfl⟩ := h
      obtain ⟨⟨b, hb, hpb⟩, hlt⟩ := ih k hk
      refine ⟨⟨b, by simpa using hb, hpb⟩, ?_⟩
      intro j c hj hc
      cases j with
      | zero => simp at hc; subst hc; exact hp
      | succ j => exact hlt j c (by omega) (by simpa using hc)

theorem first_index_lt {α : Type} (p : α → Prop) [DecidablePred p] (l : List α) (i : Nat)
    (h : first_index p l = some i) : i < l.length := by
  obtain ⟨⟨a, ha, _⟩, _⟩ := first_index_some p l i h
  exact (List.getElem?_eq_some.mp ha).1

theorem first_index_unique {α : Type} (p : α → Prop) [DecidablePred p] (l : List α) (i : Nat)
    (a : α) (ha : l[i]? = some a) (hp : p a) (hmin : ∀ j b, j < i → l[j]? = some b → ¬ p b) :
    first_index p l = some i := by
  cases h : first_index p l with
  | none =>
    exact absurd hp ((first_index_eq_none_iff p l).mp h a (List.mem_iff_getElem?.mpr ⟨i, ha⟩))
  | some k =>
    obtain ⟨⟨b, hb, hpb⟩, hlt⟩ := first_index_some p l k h
    rcases Nat.lt_trichotomy k i with hki | hki | hki
    · exact absurd hpb (hmin k b hki hb)
    · rw [hki]
    · exact absurd hp (hlt i a hki ha)

theorem find_client_index_none (r : GlobalRegistry) (pid : Int) :
    find_client_index r pid = none ↔ ∀ c ∈ r.clients, c.pid ≠ pid :=
  first_index_eq_none_iff _ _

theorem find_room_index_none (r : GlobalRegistry) (name : String) :
    find_room_index r name = none ↔ ∀ room ∈ r.rooms, room.channel_name ≠ name :=
  first_index_eq_none_iff _ _

theorem client_at_of_getElem? (r : GlobalRegistry) (i : Nat) (c : ClientEntry)
    (h : r.clients[i]? = some c) : client_at r i = c := by
  simp [client_at, List.getD_eq_getElem?_getD, h]

theorem room_at_of_getElem? (r : GlobalRegistry) (i : Nat) (room : RoomEntry)
    (h : r.rooms[i]? = some room) : room_at r i = room := by
  simp [room_at, List.getD_eq_getElem?_getD, h]

theorem find_client_index_some (r : GlobalRegistry) (pid : Int) (i : Nat)
    (h : find_client_index r pid = some i) :
    r.clients[i]? = some (client_at r i) ∧ (client_at r i).pid = pid ∧ i < r.clients.length := by
  obtain ⟨⟨a, ha, hp⟩, _⟩ := first_index_some _ _ _ h
  rw [client_at_of_getElem? r i a ha]
  exact ⟨ha, hp, (List.getElem?_eq_some.mp ha).1⟩

theorem find_room_index_some (r : GlobalRegistry) (name : String) (i : Nat)
    (h : find_room_index r name = some i) :
    r.rooms[i]? = some (room_at r i) ∧ (room_at r i).channel_name = name ∧
      i < r.rooms.length := by
  obtain ⟨⟨a, ha, hp⟩, _⟩ := first_index_some _ _ _ h
  rw [room_at_of_getElem? r i a ha]
  exact ⟨ha, hp, (List.getElem?_eq_some.mp ha).1⟩

/-- C9, as amended. A command whose sender handle is held by no client slot leaves the
state as it is, job queue included, when its kind is JOIN, MSG, DM, WHO or LEAVE; a QUIT
with such a handle leaves the registry as it is and enqueues exactly one job, the farewell
unicast to the reply mailbox named in the command. -/
theorem unknown_sender_dropped (s : ServerState) (cmd : CommandMessage) (now : Int)
    (hunk : ∀ c ∈ s.registry.clients, c.pid ≠ cmd.sender_pid) :
    (cmd.command ≠ .CMD_REGISTER → cmd.command ≠ .CMD_QUIT → dispatch s cmd now = s) ∧
    (cmd.command = .CMD_QUIT → dispatch s cmd now =
      add_job s (server_unicast cmd.reply_qid "You have been disconnected. Goodbye.")) := by
  have hnone : find_client_index s.registry cmd.sender_pid = none :=
    (find_client_index_none _ _).mpr hunk
  constructor
  · intro h1 h2
    cases hc : cmd.command <;>
      simp_all [dispatch, handle_join, handle_msg, handle_dm, handle_who, handle_leave]
  · intro h
    simp [dispatch, h, handle_quit, remove_client, hnone]

/-- C9 fails as stated: no client slot of the initial registry holds handle 77, and a QUIT
from 77 enqueues the farewell unicast. -/
theorem unknown_quit_enqueues_farewell :
    (∀ c ∈ init_server_state.registry.clients, c.pid ≠ 77) ∧
    (dispatch init_server_state
      { command := .CMD_QUIT, sender_pid := 77, reply_qid := 3, channel := "", target := "",
        text := "Goodbye" } 0).job_queue =
      [server_unicast 3 "You have been disconnected. Goodbye."] := by
  decide

/-- C10 at the failing input. Handle 100 is the only registered client; its DM to the
target `abc` is not answered by the error reply: `atoi` yields 0, the lookup of 0 finds a
free slot, and the handler enqueues a unicast to mailbox 0 and the confirmation
`DM sent to 0.`. -/
theorem dm_non_numeric_target_delivered :
    (handle_dm
      (handle_register init_server_state
        { command := .CMD_REGISTER, sender_pid := 100, reply_qid := 7, channel := "",
          target := "", text := "New client connection" } 0)
      { command := .CMD_DM, sender_pid := 100, reply_qid := 7, channel := "",
        target := "abc", text := "hi" }).job_queue =
      [ server_unicast 7 "Welcome User 100! Use JOIN <#channel> or WHO <#channel>.",
        { type := .CMD_DM, sender_name := "(DM from 100)", target_channel := "",
          target_qid := 0, message := "hi" },
        server_unicast 7 "DM sent to 0." ] := by
  decide

/-- C8. The registry produced by QUIT equals the registry produced by LEAVE, performed
only when the client is in a channel, followed by zeroing the client slot and decrementing
`client_count`. -/
theorem quit_eq_leave_then_zero (s : ServerState) (cmd : CommandMessage) :
    (handle_quit s cmd).registry = quit_as_leave_then_zero s cmd := by
  unfold handle_quit quit_as_leave_then_zero remove_client handle_leave
  cases hc : find_client_index s.registry cmd.sender_pid with
  | none => simp [add_job]
  | some k =>
    by_cases hch : (client_at s.registry k).current_channel = ""
    · simp [add_job, hch]
    · cases hr : find_room_index s.registry (client_at s.registry k).current_channel with
      | none => simp [add_job, hch, hr, List.set_set]
      | some idx => simp [add_job, hch, hr, List.set_set]

/-! ## Member array lemmas -/

theorem shift_members_length (ms : List Int) (j n : Nat) :
    (shift_members ms j n).length = ms.length := by
  induction n generalizing ms j with
  | zero => rfl
  | succ n ih => simp [shift_members, ih]

theorem shift_members_getElem? (ms : List Int) (j n k : Nat) (h : j + n < ms.length) :
    (shift_members ms j n)[k]? = if j ≤ k ∧ k < j + n then ms[k + 1]? else ms[k]? := by
  induction n generalizing ms j with
  | zero =>
    have : ¬ (j ≤ k ∧ k < j) := by omega
    simp [shift_members, this]
  | succ n ih =>
    have hlen : j + 1 + n < (ms.set j (ms.getD (j + 1) 0)).length := by
      simp; omega
    rw [shift_members, ih _ _ hlen]
    have hget : ms.getD (j + 1) 0 = ms[j + 1] := by
      simp [List.getD_eq_getElem?_getD, List.getElem?_eq_getElem (show j + 1 < ms.length by omega)]
    by_cases hk : k = j
    · subst hk
      have h1 : ¬ (k + 1 ≤ k ∧ k < k + 1 + n) := by omega
      have h2 : k ≤ k ∧ k < k + (n + 1) := by omega
      rw [if_neg h1, if_pos h2, List.getElem?_set_self (by omega), hget,
        List.getElem?_eq_getElem (show k + 1 < ms.length by omega)]
    · by_cases hc : j + 1 ≤ k ∧ k < j + 1 + n
      · have h2 : j ≤ k ∧ k < j + (n + 1) := by omega
        rw [if_pos hc, if_pos h2, List.getElem?_set_ne (by omega)]
      · have h2 : ¬ (j ≤ k ∧ k < j + (n + 1)) := by omega
        rw [if_neg hc, if_neg h2, List.getElem?_set_ne (by omega)]

theorem first_index_eq_erase (l : List Int) (a : Int) (i : Nat)
    (h : first_index (fun m : Int => m = a) l = some i) : l.erase a = l.eraseIdx i := by
  induction l generalizing i with
  | nil => simp [first_index] at h
  | cons b bs ih =>
    by_cases hb : b = a
    · simp [first_index, hb] at h
      subst h
      simp [hb]
    · simp [first_index, hb] at h
      obtain ⟨k, hk, rfl⟩ := h
      rw [List.erase_cons_tail (by simpa using hb), List.eraseIdx_cons_succ, ih k hk]

theorem first_index_mem (l : List Int) (a : Int) (i : Nat)
    (h : first_index (fun m : Int => m = a) l = some i) : a ∈ l := by
  obtain ⟨⟨b, hb, hp⟩, _⟩ := first_index_some _ _ _ h
  subst hp
  exact List.mem_iff_getElem?.mpr ⟨i, hb⟩

theorem take_shift_members (ms : List Int) (count i : Nat) (hc : count ≤ ms.length)
    (hi : i < count) :
    (shift_members ms i (count - 1 - i)).take (count - 1) = (ms.take count).eraseIdx i := by
  apply List.ext_getElem?
  intro k
  rw [List.getElem?_take, List.getElem?_eraseIdx, shift_members_getElem? _ _ _ _ (by omega)]
  simp only [List.getElem?_take]
  by_cases h1 : k < count - 1
  · by_cases h2 : k < i
    · have h3 : ¬ (i ≤ k ∧ k < i + (count - 1 - i)) := by omega
      have h4 : k < count := by omega
      simp [h1, h2, h3, h4]
    · have h3 : i ≤ k ∧ k < i + (count - 1 - i) := by omega
      have h4 : k + 1 < count := by omega
      simp [h1, h2, h3, h4]
  · by_cases h2 : k < i
    · omega
    · have h4 : ¬ (k + 1 < count) := by omega
      simp [h1, h2, h4]

/-! ## The room left by `remove_client_from_room` -/

theorem set_room_at_self (r : GlobalRegistry) (idx : Nat) :
    r.rooms.set idx (room_at r idx) = r.rooms := by
  apply List.ext_getElem?
  intro k
  by_cases hk : idx = k
  · subst hk
    by_cases hl : idx < r.rooms.length
    · rw [List.getElem?_set_self hl]
      simp [room_at, List.getD_eq_getElem?_getD, List.getElem?_eq_getElem hl]
    · rw [List.set_eq_of_length_le (by omega)]
  · rw [List.getElem?_set_ne hk]

theorem room_after_remove_of_not_mem (room : RoomEntry) (pid : Int)
    (h : pid ∉ room.member_list) : room_after_remove room pid = room := by
  have hn : first_index (fun m : Int => m = pid) room.member_list = none :=
    (first_index_eq_none_iff _ _).mpr (fun a ha hp => h (hp ▸ ha))
  simp only [room_after_remove, hn]

theorem room_after_remove_of_cleared (room : RoomEntry) (pid : Int)
    (h : room_cleared room pid) : room_after_remove room pid = zero_room := by
  cases hn : first_index (fun m : Int => m = pid) room.member_list with
  | none => exact absurd rfl ((first_index_eq_none_iff _ _).mp hn pid h.1)
  | some i => simp only [room_after_remove, hn]; rw [if_pos h.2]

theorem room_after_remove_of_mem (room : RoomEntry) (pid : Int)
    (hm : pid ∈ room.member_list) (h : ¬ room_cleared room pid) :
    ∃ i, first_index (fun m : Int => m = pid) room.member_list = some i ∧
      room_after_remove room pid =
        { room with members := shift_members room.members i (room.member_count - 1 - i),
                    member_count := room.member_count - 1 } := by
  cases hn : first_index (fun m : Int => m = pid) room.member_list with
  | none => exact absurd rfl ((first_index_eq_none_iff _ _).mp hn pid hm)
  | some i =>
    refine ⟨i, rfl, ?_⟩
    simp only [room_after_remove, hn]
    rw [if_neg (fun hc => h ⟨hm, hc⟩)]

theorem remove_client_from_room_eq (r : GlobalRegistry) (idx : Nat) (pid : Int) :
    remove_client_from_room r idx pid =
      { r with rooms := r.rooms.set idx (room_after_remove (room_at r idx) pid),
               room_count := r.room_count - (if room_cleared (room_at r idx) pid then 1 else 0) } := by
  by_cases hm : pid ∈ (room_at r idx).member_list
  · by_cases hc : room_cleared (room_at r idx) pid
    · rw [room_after_remove_of_cleared _ _ hc, if_pos hc]
      cases hn : first_index (fun m : Int => m = pid) (room_at r idx).member_list with
      | none => exact absurd rfl ((first_index_eq_none_iff _ _).mp hn pid hm)
      | some i => simp only [remove_client_from_room, hn]; rw [if_pos hc.2]
    · obtain ⟨i, hi, heq⟩ := room_after_remove_of_mem _ _ hm hc
      rw [heq, if_neg hc]
      simp only [remove_client_from_room, hi]
      rw [if_neg (fun h => hc ⟨hm, h⟩)]
      simp
  · have hn : first_index (fun m : Int => m = pid) (room_at r idx).member_list = none :=
      (first_index_eq_none_iff _ _).mpr (fun a ha hp => hm (hp ▸ ha))
    have hc : ¬ room_cleared (room_at r idx) pid := fun h => hm h.1
    rw [room_after_remove_of_not_mem _ _ hm, if_neg hc, set_room_at_self]
    simp only [remove_client_from_room, hn]
    simp

theorem room_after_remove_name (room : RoomEntry) (pid : Int) :
    (room_after_remove room pid).channel_name =
      if room_cleared room pid then "" else room.channel_name := by
  by_cases hm : pid ∈ room.member_list
  · by_cases hc : room_cleared room pid
    · rw [room_after_remove_of_cleared _ _ hc, if_pos hc]; rfl
    · obtain ⟨i, _, heq⟩ := room_after_remove_of_mem _ _ hm hc
      rw [heq, if_neg hc]
  · rw [room_after_remove_of_not_mem _ _ hm, if_neg (fun h => hm h.1)]

theorem room_after_remove_member_list (room : RoomEntry) (pid : Int)
    (hlen : room.member_count ≤ room.members.length) :
    (room_after_remove room pid).member_list = room.member_list.erase pid := by
  by_cases hm : pid ∈ room.member_list
  · by_cases hc : room_cleared room pid
    · rw [room_after_remove_of_cleared _ _ hc]
      have h1 : room.member_count = 1 ∨ room.member_count = 0 := by
        have := hc.2.1; omega
      have hl : room.member_list.length ≤ 1 := by
        simp [RoomEntry.member_list]; omega
      match hml : room.member_list, hl with
      | [], _ => rw [hml] at hm; simp at hm
      | [a], _ =>
        rw [hml] at hm
        have : pid = a := by simpa using hm
        subst this
        simp [zero_room, RoomEntry.member_list]
    · obtain ⟨i, hi, heq⟩ := room_after_remove_of_mem _ _ hm hc
      rw [heq, first_index_eq_erase _ _ _ hi]
      have hi1 : i < room.member_list.length := first_index_lt _ _ _ hi
      have hi2 : i < room.member_count := by
        simp [RoomEntry.member_list] at hi1; omega
      simp only [RoomEntry.member_list]
      exact take_shift_members _ _ _ hlen hi2
  · rw [room_after_remove_of_not_mem _ _ hm, List.erase_of_not_mem hm]

theorem room_after_remove_shape (room : RoomEntry) (pid : Int)
    (h : room.members.length = MAX_CLIENTS ∧ room.member_count ≤ MAX_CLIENTS) :
    (room_after_remove room pid).members.length = MAX_CLIENTS ∧
      (room_after_remove room pid).member_count ≤ MAX_CLIENTS := by
  by_cases hm : pid ∈ room.member_list
  · by_cases hc : room_cleared room pid
    · rw [room_after_remove_of_cleared _ _ hc]
      simp [zero_room]
    · obtain ⟨i, _, heq⟩ := room_after_remove_of_mem _ _ hm hc
      rw [heq]
      simp only [shift_members_length]
      exact ⟨h.1, by have := h.2; omega⟩
  · rw [room_after_remove_of_not_mem _ _ hm]; exact h

theorem room_after_remove_count (room : RoomEntry) (pid : Int) :
    (room_after_remove room pid).member_count =
      if room_cleared room pid then 0
      else if pid ∈ room.member_list then room.member_count - 1 else room.member_count := by
  by_cases hm : pid ∈ room.member_list
  · by_cases hc : room_cleared room pid
    · rw [room_after_remove_of_cleared _ _ hc, if_pos hc]; rfl
    · obtain ⟨i, _, heq⟩ := room_after_remove_of_mem _ _ hm hc
      rw [heq, if_neg hc, if_pos hm]
  · rw [room_after_remove_of_not_mem _ _ hm, if_neg (fun h => hm h.1), if_neg hm]

/-! ## The room left by `add_client_to_room` -/

theorem room_add_name (room : RoomEntry) (pid : Int) :
    (room_add room pid).channel_name = room.channel_name := by
  unfold room_add
  split_ifs <;> rfl

theorem room_add_count_ne_zero (room : RoomEntry) (pid : Int) :
    (room_add room pid).member_count ≠ 0 := by
  unfold room_add
  split_ifs with h1 h2
  · intro h0
    simp [RoomEntry.member_list, h0] at h1
  · simp
  · simp [MAX_CLIENTS] at h2; omega

theorem room_add_of_mem (room : RoomEntry) (pid : Int) (h : pid ∈ room.member_list) :
    room_add room pid = room := by
  unfold room_add
  rw [if_pos h]

theorem room_add_of_full (room : RoomEntry) (pid : Int)
    (h : ¬ room.member_count < MAX_CLIENTS) : room_add room pid = room := by
  unfold room_add
  split_ifs <;> rfl

theorem room_add_of_new (room : RoomEntry) (pid : Int) (h1 : pid ∉ room.member_list)
    (h2 : room.member_count < MAX_CLIENTS) :
    room_add room pid =
      { room with members := room.members.set room.member_count pid,
                  member_count := room.member_count + 1 } := by
  unfold room_add
  rw [if_neg h1, if_pos h2]

theorem room_add_shape (room : RoomEntry) (pid : Int)
    (h : room.members.length = MAX_CLIENTS ∧ room.member_count ≤ MAX_CLIENTS) :
    (room_add room pid).members.length = MAX_CLIENTS ∧
      (room_add room pid).member_count ≤ MAX_CLIENTS := by
  by_cases h1 : pid ∈ room.member_list
  · rw [room_add_of_mem _ _ h1]; exact h
  · by_cases h2 : room.member_count < MAX_CLIENTS
    · rw [room_add_of_new _ _ h1 h2]
      simp only [List.length_set]
      exact ⟨h.1, Nat.succ_le_of_lt h2⟩
    · rw [room_add_of_full _ _ h2]; exact h

theorem take_succ_set (ms : List Int) (n : Nat) (a : Int) (h : n < ms.length) :
    (ms.set n a).take (n + 1) = ms.take n ++ [a] := by
  apply List.ext_getElem?
  intro k
  simp only [List.getElem?_take, List.getElem?_append, List.length_take, List.getElem?_set]
  have hmin : min n ms.length = n := by omega
  rw [hmin]
  by_cases hk : k < n
  · have : ¬ n = k := by omega
    simp [hk, this, show k < n + 1 by omega]
  · by_cases hk2 : k = n
    · subst hk2
      simp [h]
    · have h6 : ¬ k < n + 1 := by omega
      have h7 : k - n ≠ 0 := by omega
      simp only [hk, h6, if_false]
      cases hkk : k - n with
      | zero => exact absurd hkk h7
      | succ m => simp

theorem room_add_member_list (room : RoomEntry) (pid : Int)
    (hlen : room.members.length = MAX_CLIENTS) :
    (room_add room pid).member_list =
      if pid ∈ room.member_list ∨ ¬ room.member_count < MAX_CLIENTS then room.member_list
      else room.member_list ++ [pid] := by
  by_cases h1 : pid ∈ room.member_list
  · rw [room_add_of_mem _ _ h1, if_pos (Or.inl h1)]
  · by_cases h2 : room.member_count < MAX_CLIENTS
    · rw [room_add_of_new _ _ h1 h2, if_neg (by tauto)]
      simp only [RoomEntry.member_list]
      exact take_succ_set _ _ _ (by omega)
    · rw [room_add_of_full _ _ h2, if_pos (Or.inr h2)]

theorem room_add_idem (room : RoomEntry) (pid : Int)
    (hlen : room.members.length = MAX_CLIENTS) :
    room_add (room_add room pid) pid = room_add room pid := by
  by_cases h : pid ∈ room.member_list ∨ ¬ room.member_count < MAX_CLIENTS
  · have h1 : room_add room pid = room := by
      rcases h with h | h
      · exact room_add_of_mem _ _ h
      · exact room_add_of_full _ _ h
    rw [h1, h1]
  · have hml := room_add_member_list room pid hlen
    rw [if_neg h] at hml
    have hin : pid ∈ (room_add room pid).member_list := by rw [hml]; simp
    exact room_add_of_mem _ _ hin

/-! ## Room table operations -/

theorem depart_clients (r : GlobalRegistry) (channel : String) (pid : Int) :
    (depart r channel pid).clients = r.clients := by
  unfold depart
  cases find_room_index r channel with
  | none => rfl
  | some idx =>
    show (remove_client_from_room r idx pid).clients = _
    rw [remove_client_from_room_eq]

theorem depart_client_count (r : GlobalRegistry) (channel : String) (pid : Int) :
    (depart r channel pid).client_count = r.client_count := by
  unfold depart
  cases find_room_index r channel with
  | none => rfl
  | some idx =>
    show (remove_client_from_room r idx pid).client_count = _
    rw [remove_client_from_room_eq]

theorem depart_rooms (r : GlobalRegistry) (channel : String) (pid : Int) :
    (depart r channel pid).rooms = rooms_depart r.rooms channel pid := by
  unfold depart rooms_depart find_room_index
  cases first_index (fun room : RoomEntry => room.channel_name = channel) r.rooms with
  | none => rfl
  | some idx => simp only [remove_client_from_room_eq]; rfl

theorem depart_room_count (r : GlobalRegistry) (channel : String) (pid : Int) :
    (depart r channel pid).room_count =
      r.room_count -
        (match find_room_index r channel with
          | some idx => if room_cleared (room_at r idx) pid then 1 else 0
          | none => 0) := by
  unfold depart
  cases find_room_index r channel with
  | none => simp
  | some idx => simp only [remove_client_from_room_eq]

/-! ## Registry effect of the handlers -/

theorem add_job_registry (s : ServerState) (j : Job) : (add_job s j).registry = s.registry :=
  rfl

theorem remove_client_registry (s : ServerState) (pid : Int) :
    (remove_client s pid).registry =
      match find_client_index s.registry pid with
      | none => s.registry
      | some k =>
        let ch := (client_at s.registry k).current_channel
        let r1 := if ch ≠ "" then depart s.registry ch pid else s.registry
        { r1 with clients := r1.clients.set k zero_client,
                  client_count := r1.client_count - 1 } := by
  unfold remove_client depart
  cases find_client_index s.registry pid with
  | none => rfl
  | some k =>
    simp only
    by_cases hch : (client_at s.registry k).current_channel = ""
    · simp [hch]
    · simp only [ne_eq, hch, not_false_eq_true, if_true]
      cases find_room_index s.registry (client_at s.registry k).current_channel with
      | none => rfl
      | some idx => rfl

theorem handle_quit_registry (s : ServerState) (cmd : CommandMessage) :
    (handle_quit s cmd).registry = (remove_client s cmd.sender_pid).registry := rfl

theorem handle_msg_registry (s : ServerState) (cmd : CommandMessage) :
    (handle_msg s cmd).registry = s.registry := by
  unfold handle_msg
  cases find_client_index s.registry cmd.sender_pid with
  | none => rfl
  | some k => simp only; split_ifs <;> rfl

theorem handle_dm_registry (s : ServerState) (cmd : CommandMessage) :
    (handle_dm s cmd).registry = s.registry := by
  unfold handle_dm
  cases find_client_index s.registry cmd.sender_pid with
  | none => rfl
  | some k =>
    simp only
    cases find_client_index s.registry (atoi cmd.target) with
    | none => rfl
    | some t => rfl

theorem handle_who_registry (s : ServerState) (cmd : CommandMessage) :
    (handle_who s cmd).registry = s.registry := by
  unfold handle_who
  cases find_client_index s.registry cmd.sender_pid with
  | none => rfl
  | some k => rfl

theorem handle_register_registry (s : ServerState) (cmd : CommandMessage) (now : Int) :
    (handle_register s cmd now).registry =
      match find_client_index s.registry 0 with
      | none => s.registry
      | some slot =>
        { s.registry with
          clients := s.registry.clients.set slot
            ({ pid := cmd.sender_pid, reply_qid := cmd.reply_qid, current_channel := "",
               last_active := now }),
          client_count := s.registry.client_count + 1 } := by
  unfold handle_register
  cases find_client_index s.registry 0 with
  | none => rfl
  | some k => rfl

theorem handle_leave_registry (s : ServerState) (cmd : CommandMessage) :
    (handle_leave s cmd).registry =
      match find_client_index s.registry cmd.sender_pid with
      | none => s.registry
      | some k =>
        let ch := (client_at s.registry k).current_channel
        if ch = "" then s.registry
        else
          let r1 := depart s.registry ch cmd.sender_pid
          { r1 with clients := r1.clients.set k { client_at r1 k with current_channel := "" } } := by
  unfold handle_leave depart
  cases find_client_index s.registry cmd.sender_pid with
  | none => rfl
  | some k =>
    simp only
    by_cases hch : (client_at s.registry k).current_channel = ""
    · simp [hch, add_job]
    · simp only [hch, if_false]
      cases find_room_index s.registry (client_at s.registry k).current_channel with
      | none => rfl
      | some idx => rfl

theorem join_leave_old_registry (s : ServerState) (cmd : CommandMessage) (old : String) :
    (join_leave_old s cmd old).registry =
      if old ≠ "" ∧ old ≠ cmd.channel then depart s.registry old cmd.sender_pid
      else s.registry := by
  unfold join_leave_old depart
  split_ifs with h
  · cases find_room_index s.registry old with
    | none => rfl
    | some idx => rfl
  · rfl

theorem handle_join_registry (s : ServerState) (cmd : CommandMessage) :
    (handle_join s cmd).registry =
      match find_client_index s.registry cmd.sender_pid with
      | none => s.registry
      | some k =>
        match join_find_or_create s.registry cmd.channel with
        | none => s.registry
        | some (r1, n) =>
          let old := (client_at s.registry k).current_channel
          let r2 := if old ≠ "" ∧ old ≠ cmd.channel then depart r1 old cmd.sender_pid else r1
          let r3 := add_client_to_room r2 n cmd.sender_pid
          { r3 with
            clients := r3.clients.set k { client_at r3 k with current_channel := cmd.channel },
            overflowed := r3.overflowed || strcpy_overruns cmd.channel MAX_CHANNEL } := by
  unfold handle_join
  cases find_client_index s.registry cmd.sender_pid with
  | none => rfl
  | some k =>
    simp only
    cases hj : join_find_or_create s.registry cmd.channel with
    | none => rfl
    | some p =>
      obtain ⟨r1, n⟩ := p
      simp only [add_job_registry, join_leave_old_registry]

theorem join_find_or_create_some (r : GlobalRegistry) (ch : String) (r1 : GlobalRegistry)
    (n : Nat) (h : join_find_or_create r ch = some (r1, n)) :
    (find_room_index r ch = some n ∧ r1 = r) ∨
    (find_room_index r ch = none ∧ find_room_index r "" = some n ∧
      r.room_count < MAX_CHANNELS ∧
      r1 = { r with rooms := rooms_create r.rooms n ch, room_count := r.room_count + 1,
                    overflowed := r.overflowed || strcpy_overruns ch MAX_CHANNEL }) := by
  unfold join_find_or_create at h
  cases hf : find_room_index r ch with
  | some idx =>
    rw [hf] at h
    simp only [Option.some.injEq, Prod.mk.injEq] at h
    left
    rw [← h.2, h.1]
    exact ⟨rfl, rfl⟩
  | none =>
    rw [hf] at h
    right
    cases he : find_room_index r "" with
    | none => rw [he] at h; simp at h
    | some e =>
      rw [he] at h
      simp only at h
      split_ifs at h with hc
      simp only [Option.some.injEq, Prod.mk.injEq] at h
      rw [← h.2, ← h.1]
      exact ⟨rfl, rfl, hc, rfl⟩

/-! ## Copies that stay inside their field -/

theorem strcpy_overruns_of_fit (src : String) (size : Nat) (h : src.length < size) :
    strcpy_overruns src size = false := by
  unfold strcpy_overruns
  exact decide_eq_false (by omega)

theorem strcpy_overruns_of_long (src : String) (size : Nat) (h : size ≤ src.length) :
    strcpy_overruns src size = true := by
  unfold strcpy_overruns
  exact decide_eq_true h

theorem depart_overflowed (r : GlobalRegistry) (channel : String) (pid : Int) :
    (depart r channel pid).overflowed = r.overflowed := by
  unfold depart
  cases find_room_index r channel with
  | none => rfl
  | some idx =>
    show (remove_client_from_room r idx pid).overflowed = r.overflowed
    rw [remove_client_from_room_eq]

theorem remove_client_overflowed (s : ServerState) (pid : Int) :
    (remove_client s pid).registry.overflowed = s.registry.overflowed := by
  rw [remove_client_registry]
  cases find_client_index s.registry pid with
  | none => rfl
  | some k =>
    simp only
    split_ifs
    · exact depart_overflowed _ _ _
    · rfl

theorem handle_register_overflowed (s : ServerState) (cmd : CommandMessage) (now : Int) :
    (handle_register s cmd now).registry.overflowed = s.registry.overflowed := by
  rw [handle_register_registry]
  cases find_client_index s.registry 0 with
  | none => rfl
  | some k => rfl

theorem handle_leave_overflowed (s : ServerState) (cmd : CommandMessage) :
    (handle_leave s cmd).registry.overflowed = s.registry.overflowed := by
  rw [handle_leave_registry]
  cases find_client_index s.registry cmd.sender_pid with
  | none => rfl
  | some k =>
    simp only
    split_ifs
    · rfl
    · exact depart_overflowed _ _ _

theorem join_find_or_create_overflowed (r : GlobalRegistry) (ch : String)
    (r1 : GlobalRegistry) (n : Nat) (hj : join_find_or_create r ch = some (r1, n)) :
    r1.overflowed = r.overflowed ∨
      r1.overflowed = (r.overflowed || strcpy_overruns ch MAX_CHANNEL) := by
  rcases join_find_or_create_some _ _ _ _ hj with ⟨_, h2⟩ | ⟨_, _, _, h4⟩
  · left; rw [h2]
  · right; rw [h4]

/-- The flag after `handle_join`: set on the path that joins when the name does not fit,
unchanged otherwise. -/
theorem handle_join_overflowed_eq (s : ServerState) (cmd : CommandMessage) :
    (handle_join s cmd).registry.overflowed =
      match find_client_index s.registry cmd.sender_pid with
      | none => s.registry.overflowed
      | some _ =>
        match join_find_or_create s.registry cmd.channel with
        | none => s.registry.overflowed
        | some _ => s.registry.overflowed || strcpy_overruns cmd.channel MAX_CHANNEL := by
  rw [handle_join_registry]
  cases find_client_index s.registry cmd.sender_pid with
  | none => rfl
  | some k =>
    simp only
    cases hj : join_find_or_create s.registry cmd.channel with
    | none => rfl
    | some p =>
      obtain ⟨r1, n⟩ := p
      simp only
      have hr2 : ∀ r2 : GlobalRegistry,
          (add_client_to_room r2 n cmd.sender_pid).overflowed = r2.overflowed := fun _ => rfl
      rw [hr2]
      have hif : (if (client_at s.registry k).current_channel ≠ "" ∧
          (client_at s.registry k).current_channel ≠ cmd.channel then
            depart r1 (client_at s.registry k).current_channel cmd.sender_pid
          else r1).overflowed = r1.overflowed := by
        split_ifs
        · exact depart_overflowed _ _ _
        · rfl
      rw [hif]
      rcases join_find_or_create_overflowed _ _ _ _ hj with h | h
      · rw [h]
      · rw [h, Bool.or_assoc, Bool.or_self]

theorem handle_join_overflowed (s : ServerState) (cmd : CommandMessage)
    (hfit : cmd.channel.length < MAX_CHANNEL) :
    (handle_join s cmd).registry.overflowed = s.registry.overflowed := by
  rw [handle_join_overflowed_eq]
  cases find_client_index s.registry cmd.sender_pid with
  | none => rfl
  | some k =>
    simp only
    cases join_find_or_create s.registry cmd.channel with
    | none => rfl
    | some p =>
      simp only
      rw [strcpy_overruns_of_fit _ _ hfit, Bool.or_false]

theorem handle_join_overflows (s : ServerState) (cmd : CommandMessage) (k : Nat)
    (hk : find_client_index s.registry cmd.sender_pid = some k)
    (hj : join_find_or_create s.registry cmd.channel ≠ none)
    (hlong : MAX_CHANNEL ≤ cmd.channel.length) :
    (handle_join s cmd).registry.overflowed = true := by
  rw [handle_join_overflowed_eq, hk]
  simp only
  cases hjc : join_find_or_create s.registry cmd.channel with
  | none => exact absurd hjc hj
  | some p =>
    simp only
    rw [strcpy_overruns_of_long _ _ hlong, Bool.or_true]

/-! ## Traces -/

theorem run_preserves (P : GlobalRegistry → Prop) (ok : ServerState → Event → Prop)
    (hstep : ∀ s e, P s.registry → ok s e → P (step s e).registry) :
    ∀ (es : List Event) (s : ServerState), P s.registry → trace_ok ok s es →
      P (run s es).registry := by
  intro es
  induction es with
  | nil => intro s h _; exact h
  | cons e es ih =>
    intro s h hok
    exact ih (step s e) (hstep s e h hok.1) hok.2

theorem monitor_preserves (P : GlobalRegistry → Prop)
    (h : ∀ (s : ServerState) (pid : Int), pid ≠ 0 → P s.registry →
      P (remove_client s pid).registry)
    (s : ServerState) (now : Int) (hP : P s.registry) :
    P (monitor_clients s now).registry := by
  unfold monitor_clients
  generalize List.range MAX_CLIENTS = l
  induction l generalizing s with
  | nil => exact hP
  | cons i is ih =>
    apply ih
    unfold monitor_slot
    simp only
    split_ifs with hc
    · exact h _ _ hc.1 hP
    · exact hP

theorem dispatch_preserves (P : GlobalRegistry → Prop) (s : ServerState)
    (cmd : CommandMessage) (now : Int) (hP : P s.registry)
    (hreg : cmd.command = .CMD_REGISTER → P (handle_register s cmd now).registry)
    (hjoin : cmd.command = .CMD_JOIN → P (handle_join s cmd).registry)
    (hleave : cmd.command = .CMD_LEAVE → P (handle_leave s cmd).registry)
    (hquit : cmd.command = .CMD_QUIT → P (remove_client s cmd.sender_pid).registry) :
    P (dispatch s cmd now).registry := by
  unfold dispatch
  cases hc : cmd.command with
  | CMD_REGISTER => exact hreg hc
  | CMD_JOIN => exact hjoin hc
  | CMD_MSG => simp only [handle_msg_registry]; exact hP
  | CMD_DM => simp only [handle_dm_registry]; exact hP
  | CMD_WHO => simp only [handle_who_registry]; exact hP
  | CMD_LEAVE => exact hleave hc
  | CMD_QUIT => exact hquit hc

/-! ## List update lemmas -/

theorem getElem?_set_cases {α : Type} (l : List α) (i j : Nat) (a b : α)
    (h : (l.set i a)[j]? = some b) : (j = i ∧ b = a) ∨ (j ≠ i ∧ l[j]? = some b) := by
  by_cases hij : i = j
  · subst hij
    left
    rw [List.getElem?_set] at h
    simp only [if_true] at h
    split_ifs at h
    exact ⟨rfl, (Option.some.inj h).symm⟩
  · right
    rw [List.getElem?_set_ne hij] at h
    exact ⟨fun hh => hij hh.symm, h⟩

theorem getD_of_getElem? (rooms : List RoomEntry) (i : Nat) (room : RoomEntry)
    (h : rooms[i]? = some room) : rooms.getD i zero_room = room := by
  simp [List.getD_eq_getElem?_getD, h]

theorem getElem?_getD_of_lt (rooms : List RoomEntry) (i : Nat) (h : i < rooms.length) :
    rooms[i]? = some (rooms.getD i zero_room) := by
  simp [List.getD_eq_getElem?_getD, List.getElem?_eq_getElem h]

/-! ## Unconditional room invariants -/

theorem zero_room_shape :
    zero_room.members.length = MAX_CLIENTS ∧ zero_room.member_count ≤ MAX_CLIENTS := by
  simp [zero_room]

theorem getD_shape (rooms : List RoomEntry) (h : RoomsShape rooms) (i : Nat) :
    (rooms.getD i zero_room).members.length = MAX_CLIENTS ∧
      (rooms.getD i zero_room).member_count ≤ MAX_CLIENTS := by
  by_cases hi : i < rooms.length
  · exact h _ (List.mem_iff_getElem?.mpr ⟨i, getElem?_getD_of_lt rooms i hi⟩)
  · rw [List.getD_eq_getElem?_getD, List.getElem?_eq_none (by omega)]
    exact zero_room_shape

theorem rooms_shape_set (rooms : List RoomEntry) (h : RoomsShape rooms) (i : Nat)
    (room : RoomEntry)
    (hr : room.members.length = MAX_CLIENTS ∧ room.member_count ≤ MAX_CLIENTS) :
    RoomsShape (rooms.set i room) := by
  intro x hx
  rcases List.mem_or_eq_of_mem_set hx with hx | hx
  · exact h x hx
  · rw [hx]; exact hr

theorem rooms_depart_shape (rooms : List RoomEntry) (ch : String) (pid : Int)
    (h : RoomsShape rooms) : RoomsShape (rooms_depart rooms ch pid) := by
  unfold rooms_depart
  cases first_index (fun room : RoomEntry => room.channel_name = ch) rooms with
  | none => exact h
  | some idx => exact rooms_shape_set _ h _ _ (room_after_remove_shape _ _ (getD_shape rooms h idx))

theorem rooms_add_shape (rooms : List RoomEntry) (idx : Nat) (pid : Int)
    (h : RoomsShape rooms) : RoomsShape (rooms_add rooms idx pid) :=
  rooms_shape_set _ h _ _ (room_add_shape _ _ (getD_shape rooms h idx))

theorem rooms_create_shape (rooms : List RoomEntry) (idx : Nat) (ch : String)
    (h : RoomsShape rooms) : RoomsShape (rooms_create rooms idx ch) :=
  rooms_shape_set _ h _ _ ⟨(getD_shape rooms h idx).1, Nat.zero_le _⟩

theorem rooms_depart_length (rooms : List RoomEntry) (ch : String) (pid : Int) :
    (rooms_depart rooms ch pid).length = rooms.length := by
  unfold rooms_depart
  cases first_index (fun room : RoomEntry => room.channel_name = ch) rooms with
  | none => rfl
  | some idx => simp

/-- Slot by slot, `rooms_depart` keeps the name or clears the slot. -/
theorem rooms_depart_getElem? (rooms : List RoomEntry) (ch : String) (pid : Int) (j : Nat)
    (b : RoomEntry) (h : (rooms_depart rooms ch pid)[j]? = some b) :
    rooms[j]? = some b ∨
      (∃ a, rooms[j]? = some a ∧ a.channel_name = ch ∧ b = room_after_remove a pid ∧
        first_index (fun room : RoomEntry => room.channel_name = ch) rooms = some j) := by
  unfold rooms_depart at h
  cases hf : first_index (fun room : RoomEntry => room.channel_name = ch) rooms with
  | none => rw [hf] at h; exact Or.inl h
  | some idx =>
    rw [hf] at h
    simp only at h
    rcases getElem?_set_cases _ _ _ _ _ h with ⟨h1, h2⟩ | ⟨_, h2⟩
    · right
      subst h1
      obtain ⟨⟨a, ha, hp⟩, _⟩ := first_index_some _ _ _ hf
      refine ⟨a, ha, hp, ?_, rfl⟩
      rw [h2, getD_of_getElem? _ _ _ ha]
    · exact Or.inl h2

theorem rooms_depart_unique (rooms : List RoomEntry) (ch : String) (pid : Int)
    (h : UniqueNames rooms) : UniqueNames (rooms_depart rooms ch pid) := by
  intro i j a b ha hb hne heq
  have key : ∀ (k : Nat) (x : RoomEntry), (rooms_depart rooms ch pid)[k]? = some x →
      x.channel_name ≠ "" → ∃ y, rooms[k]? = some y ∧ y.channel_name = x.channel_name := by
    intro k x hx hxn
    rcases rooms_depart_getElem? _ _ _ _ _ hx with h1 | ⟨y, hy, _, hxy, _⟩
    · exact ⟨x, h1, rfl⟩
    · refine ⟨y, hy, ?_⟩
      rw [hxy, room_after_remove_name] at hxn ⊢
      split_ifs at hxn ⊢ with hc
      · exact absurd rfl hxn
      · rfl
  obtain ⟨a', ha', hna⟩ := key i a ha hne
  obtain ⟨b', hb', hnb⟩ := key j b hb (heq ▸ hne)
  exact h i j a' b' ha' hb' (hna ▸ hne) (by rw [hna, hnb, heq])

theorem rooms_add_unique (rooms : List RoomEntry) (idx : Nat) (pid : Int)
    (h : UniqueNames rooms) : UniqueNames (rooms_add rooms idx pid) := by
  intro i j a b ha hb hne heq
  have key : ∀ (k : Nat) (x : RoomEntry), (rooms_add rooms idx pid)[k]? = some x →
      ∃ y, rooms[k]? = some y ∧ y.channel_name = x.channel_name := by
    intro k x hx
    unfold rooms_add at hx
    rcases getElem?_set_cases _ _ _ _ _ hx with ⟨h1, h2⟩ | ⟨_, h2⟩
    · subst h1
      have hlt : k < rooms.length := by
        have := (List.getElem?_eq_some.mp hx).1
        simpa using this
      exact ⟨_, getElem?_getD_of_lt rooms k hlt, by rw [h2, room_add_name]⟩
    · exact ⟨x, h2, rfl⟩
  obtain ⟨a', ha', hna⟩ := key i a ha
  obtain ⟨b', hb', hnb⟩ := key j b hb
  exact h i j a' b' ha' hb' (hna ▸ hne) (by rw [hna, hnb, heq])

theorem rooms_create_unique (rooms : List RoomEntry) (idx : Nat) (ch : String)
    (h : UniqueNames rooms)
    (hnone : first_index (fun room : RoomEntry => room.channel_name = ch) rooms = none) :
    UniqueNames (rooms_create rooms idx ch) := by
  have hno : ∀ (k : Nat) (x : RoomEntry), rooms[k]? = some x → x.channel_name ≠ ch :=
    fun k x hx => (first_index_eq_none_iff _ _).mp hnone x (List.mem_iff_getElem?.mpr ⟨k, hx⟩)
  intro i j a b ha hb hne heq
  unfold rooms_create at ha hb
  rcases getElem?_set_cases _ _ _ _ _ ha with ⟨h1, h2⟩ | ⟨h1, h2⟩
  · rcases getElem?_set_cases _ _ _ _ _ hb with ⟨h3, h4⟩ | ⟨h3, h4⟩
    · rw [h1, h3]
    · exfalso
      apply hno j b h4
      rw [← heq, h2]
  · rcases getElem?_set_cases _ _ _ _ _ hb with ⟨h3, h4⟩ | ⟨h3, h4⟩
    · exfalso
      apply hno i a h2
      rw [heq, h4]
    · exact h i j a b h2 h4 hne heq

theorem no_empty_room_except (rooms : List RoomEntry) (h : NoEmptyRoom rooms) (n : Nat) :
    NoEmptyExcept n rooms :=
  fun j room hj _ => h room (List.mem_iff_getElem?.mpr ⟨j, hj⟩)

theorem rooms_depart_no_empty (rooms : List RoomEntry) (ch : String) (pid : Int) (n : Nat)
    (h : NoEmptyExcept n rooms) : NoEmptyExcept n (rooms_depart rooms ch pid) := by
  intro j b hb hjn hne hng
  rcases rooms_depart_getElem? _ _ _ _ _ hb with h1 | ⟨a, ha, _, hba, _⟩
  · exact h j b h1 hjn hne hng
  · rw [hba, room_after_remove_name] at hne hng
    rw [hba, room_after_remove_count]
    by_cases hc : room_cleared a pid
    · rw [if_pos hc] at hne; exact absurd rfl hne
    · rw [if_neg hc] at hne hng ⊢
      have ha0 := h j a ha hjn hne hng
      split_ifs with hm
      · intro h0
        exact hc ⟨hm, h0, hng⟩
      · exact ha0

theorem rooms_depart_no_empty_all (rooms : List RoomEntry) (ch : String) (pid : Int)
    (h : NoEmptyRoom rooms) : NoEmptyRoom (rooms_depart rooms ch pid) := by
  intro room hroom
  obtain ⟨j, hj⟩ := List.mem_iff_getElem?.mp hroom
  have := rooms_depart_no_empty rooms ch pid (rooms.length) (no_empty_room_except rooms h _) j room hj
  apply this
  have hlt := (List.getElem?_eq_some.mp hj).1
  rw [rooms_depart_length] at hlt
  omega

theorem rooms_create_no_empty (rooms : List RoomEntry) (idx : Nat) (ch : String)
    (h : NoEmptyRoom rooms) : NoEmptyExcept idx (rooms_create rooms idx ch) := by
  intro j b hb hjn
  unfold rooms_create at hb
  rcases getElem?_set_cases _ _ _ _ _ hb with ⟨h1, _⟩ | ⟨_, h2⟩
  · exact absurd h1 hjn
  · exact h b (List.mem_iff_getElem?.mpr ⟨j, h2⟩)

theorem rooms_add_no_empty (rooms : List RoomEntry) (idx : Nat) (pid : Int)
    (h : NoEmptyExcept idx rooms) : NoEmptyRoom (rooms_add rooms idx pid) := by
  intro room hroom
  obtain ⟨j, hj⟩ := List.mem_iff_getElem?.mp hroom
  unfold rooms_add at hj
  rcases getElem?_set_cases _ _ _ _ _ hj with ⟨_, h2⟩ | ⟨h1, h2⟩
  · intro _ _
    rw [h2]
    exact room_add_count_ne_zero _ _
  · exact h j room h2 h1

/-! ## Channel names within their field -/

theorem step_command (s : ServerState) (cmd : CommandMessage) (now : Int) :
    step s (.command cmd now) = dispatch s cmd now := rfl

theorem step_sweep (s : ServerState) (now : Int) :
    step s (.sweep now) = monitor_clients s now := rfl

theorem sample_name_length (n : Nat) : (sample_name n).length = n := by
  simp [sample_name, String.length]

/-- The trace `sample_events_long n` ends in an overrun as soon as `n` is 32 or more. -/
theorem sample_events_long_overflowed (n : Nat) (h : MAX_CHANNEL ≤ n) :
    (run init_server_state (sample_events_long n)).registry.overflowed = true := by
  have hrun : run init_server_state (sample_events_long n) =
      handle_join (handle_register init_server_state (sample_cmd .CMD_REGISTER 5 "") 0)
        (sample_cmd .CMD_JOIN 5 (sample_name n)) := rfl
  rw [hrun]
  have hk : find_client_index
      (handle_register init_server_state (sample_cmd .CMD_REGISTER 5 "") 0).registry 5 =
      some 0 := by decide
  refine handle_join_overflows _ _ 0 hk ?_ ?_
  · show join_find_or_create _ (sample_name n) ≠ none
    have hnone : find_room_index
        (handle_register init_server_state (sample_cmd .CMD_REGISTER 5 "") 0).registry
        (sample_name n) = none := by
      apply (find_room_index_none _ _).mpr
      intro room hroom hname
      have hlen : room.channel_name.length < MAX_CHANNEL := by
        have : ∀ x ∈ (handle_register init_server_state
            (sample_cmd .CMD_REGISTER 5 "") 0).registry.rooms,
            x.channel_name.length < MAX_CHANNEL := by decide
        exact this room hroom
      rw [hname, sample_name_length] at hlen
      omega
    have hslot : find_room_index
        (handle_register init_server_state (sample_cmd .CMD_REGISTER 5 "") 0).registry "" =
        some 1 := by decide
    unfold join_find_or_create
    rw [hnone, hslot]
    simp only
    rw [if_pos (by decide)]
    exact Option.some_ne_none _
  · show MAX_CHANNEL ≤ (sample_name n).length
    rw [sample_name_length]
    exact h

theorem trace_ok_fits_and (ok : ServerState → Event → Prop) (es : List Event) :
    ∀ s : ServerState, trace_ok (fits_and ok) s es →
      trace_ok channel_fits s es ∧ trace_ok ok s es := by
  induction es with
  | nil => intro s _; exact ⟨trivial, trivial⟩
  | cons e es ih =>
    intro s h
    obtain ⟨h1, h2⟩ := ih (step s e) h.2
    exact ⟨⟨h.1.1, h1⟩, ⟨h.1.2, h2⟩⟩

theorem monitor_clients_overflowed (s : ServerState) (now : Int) :
    (monitor_clients s now).registry.overflowed = s.registry.overflowed :=
  monitor_preserves (fun r => r.overflowed = s.registry.overflowed)
    (fun t pid _ h => (remove_client_overflowed t pid).trans h) s now rfl

/-- A step whose JOIN carries a name that fits writes past no field. -/
theorem step_overflowed (s : ServerState) (e : Event) (h : channel_fits s e) :
    (step s e).registry.overflowed = s.registry.overflowed := by
  cases e with
  | sweep now =>
    rw [step_sweep]
    exact monitor_clients_overflowed s now
  | command cmd now =>
    rw [step_command]
    exact dispatch_preserves (fun r => r.overflowed = s.registry.overflowed) s cmd now rfl
      (fun _ => handle_register_overflowed s cmd now)
      (fun hc => handle_join_overflowed s cmd (h hc))
      (fun _ => handle_leave_overflowed s cmd)
      (fun _ => remove_client_overflowed s cmd.sender_pid)

theorem run_overflowed (es : List Event) :
    ∀ s : ServerState, trace_ok channel_fits s es →
      (run s es).registry.overflowed = s.registry.overflowed := by
  induction es with
  | nil => intro s _; rfl
  | cons e es ih =>
    intro s h
    exact (ih (step s e) h.2).trans (step_overflowed s e h.1)

/-- From initialisation, a trace whose JOINs carry names that fit writes past no field. -/
theorem run_init_overflowed (es : List Event)
    (h : trace_ok channel_fits init_server_state es) :
    (run init_server_state es).registry.overflowed = false :=
  run_overflowed es init_server_state h

/-! ## Room table after each handler -/

theorem add_client_to_room_rooms (r : GlobalRegistry) (idx : Nat) (pid : Int) :
    (add_client_to_room r idx pid).rooms = rooms_add r.rooms idx pid := rfl

theorem remove_client_rooms_ind (P : List RoomEntry → Prop)
    (hd : ∀ rooms ch pid, P rooms → P (rooms_depart rooms ch pid))
    (s : ServerState) (pid : Int) (h : P s.registry.rooms) :
    P (remove_client s pid).registry.rooms := by
  rw [remove_client_registry]
  cases find_client_index s.registry pid with
  | none => exact h
  | some k =>
    simp only
    split_ifs with hc
    · rw [depart_rooms]; exact hd _ _ _ h
    · exact h

theorem handle_leave_rooms_ind (P : List RoomEntry → Prop)
    (hd : ∀ rooms ch pid, P rooms → P (rooms_depart rooms ch pid))
    (s : ServerState) (cmd : CommandMessage) (h : P s.registry.rooms) :
    P (handle_leave s cmd).registry.rooms := by
  rw [handle_leave_registry]
  cases find_client_index s.registry cmd.sender_pid with
  | none => exact h
  | some k =>
    simp only
    split_ifs with hc
    · exact h
    · simp only [depart_rooms]; exact hd _ _ _ h

theorem handle_join_rooms_ind (P : List RoomEntry → Prop) (Q : Nat → List RoomEntry → Prop)
    (hPQ : ∀ n rooms, P rooms → Q n rooms)
    (hcreate : ∀ n ch rooms, P rooms →
      first_index (fun room : RoomEntry => room.channel_name = ch) rooms = none →
      first_index (fun room : RoomEntry => room.channel_name = "") rooms = some n →
      Q n (rooms_create rooms n ch))
    (hdep : ∀ n rooms ch pid, Q n rooms → Q n (rooms_depart rooms ch pid))
    (hadd : ∀ n rooms pid, Q n rooms → P (rooms_add rooms n pid))
    (s : ServerState) (cmd : CommandMessage) (h : P s.registry.rooms) :
    P (handle_join s cmd).registry.rooms := by
  rw [handle_join_registry]
  cases find_client_index s.registry cmd.sender_pid with
  | none => exact h
  | some k =>
    simp only
    cases hj : join_find_or_create s.registry cmd.channel with
    | none => exact h
    | some p =>
      obtain ⟨r1, n⟩ := p
      simp only [add_client_to_room_rooms]
      apply hadd
      have hQ1 : Q n r1.rooms := by
        rcases join_find_or_create_some _ _ _ _ hj with ⟨_, h2⟩ | ⟨h1, h2, _, h4⟩
        · rw [h2]; exact hPQ _ _ h
        · rw [h4]; exact hcreate _ _ _ h h1 h2
      split_ifs with hc
      · rw [depart_rooms]; exact hdep _ _ _ _ hQ1
      · exact hQ1

theorem step_rooms_ind (P : List RoomEntry → Prop) (Q : Nat → List RoomEntry → Prop)
    (hPQ : ∀ n rooms, P rooms → Q n rooms)
    (hcreate : ∀ n ch rooms, P rooms →
      first_index (fun room : RoomEntry => room.channel_name = ch) rooms = none →
      first_index (fun room : RoomEntry => room.channel_name = "") rooms = some n →
      Q n (rooms_create rooms n ch))
    (hdep : ∀ n rooms ch pid, Q n rooms → Q n (rooms_depart rooms ch pid))
    (hdepP : ∀ rooms ch pid, P rooms → P (rooms_depart rooms ch pid))
    (hadd : ∀ n rooms pid, Q n rooms → P (rooms_add rooms n pid))
    (s : ServerState) (e : Event) (h : P s.registry.rooms) :
    P (step s e).registry.rooms := by
  cases e with
  | command cmd now =>
    rw [step_command]
    refine dispatch_preserves (fun r => P r.rooms) s cmd now h ?_ ?_ ?_ ?_
    · intro _
      show P (handle_register s cmd now).registry.rooms
      rw [handle_register_registry]
      cases find_client_index s.registry 0 with
      | none => exact h
      | some k => exact h
    · intro _; exact handle_join_rooms_ind P Q hPQ hcreate hdep hadd s cmd h
    · intro _; exact handle_leave_rooms_ind P hdepP s cmd h
    · intro _; exact remove_client_rooms_ind P hdepP s _ h
  | sweep now =>
    rw [step_sweep]
    exact monitor_preserves (fun r => P r.rooms)
      (fun s pid _ hs => remove_client_rooms_ind P hdepP s pid hs) s now h

theorem step_no_empty (s : ServerState) (e : Event) (h : NoEmptyRoom s.registry.rooms) :
    NoEmptyRoom (step s e).registry.rooms :=
  step_rooms_ind NoEmptyRoom NoEmptyExcept
    (fun n rooms hr => no_empty_room_except rooms hr n)
    (fun n ch rooms hr _ _ => rooms_create_no_empty rooms n ch hr)
    (fun n rooms ch pid hq => rooms_depart_no_empty rooms ch pid n hq)
    (fun rooms ch pid hr => rooms_depart_no_empty_all rooms ch pid hr)
    (fun n rooms pid hq => rooms_add_no_empty rooms n pid hq) s e h

theorem step_rooms_shape (s : ServerState) (e : Event) (h : RoomsShape s.registry.rooms) :
    RoomsShape (step s e).registry.rooms :=
  step_rooms_ind RoomsShape (fun _ => RoomsShape)
    (fun _ _ hr => hr)
    (fun n ch rooms hr _ _ => rooms_create_shape rooms n ch hr)
    (fun _ rooms ch pid hq => rooms_depart_shape rooms ch pid hq)
    (fun rooms ch pid hr => rooms_depart_shape rooms ch pid hr)
    (fun n rooms pid hq => rooms_add_shape rooms n pid hq) s e h

theorem step_unique_names (s : ServerState) (e : Event) (h : UniqueNames s.registry.rooms) :
    UniqueNames (step s e).registry.rooms :=
  step_rooms_ind UniqueNames (fun _ => UniqueNames)
    (fun _ _ hr => hr)
    (fun n ch rooms hr hnone _ => rooms_create_unique rooms n ch hr hnone)
    (fun _ rooms ch pid hq => rooms_depart_unique rooms ch pid hq)
    (fun rooms ch pid hr => rooms_depart_unique rooms ch pid hr)
    (fun n rooms pid hq => rooms_add_unique rooms n pid hq) s e h

theorem init_no_empty : NoEmptyRoom init_server_state.registry.rooms := by
  unfold NoEmptyRoom; decide

theorem init_rooms_shape : RoomsShape init_server_state.registry.rooms := by
  unfold RoomsShape; decide

theorem run_eq_foldl (s : ServerState) (es : List Event) : run s es = es.foldl step s := rfl

theorem run_unconditional (P : GlobalRegistry → Prop)
    (hstep : ∀ s e, P s.registry → P (step s e).registry) (es : List Event)
    (s : ServerState) (h : P s.registry) : P (run s es).registry := by
  induction es generalizing s with
  | nil => exact h
  | cons e es ih => exact ih (step s e) (hstep s e h)

/-- C3. Over every sequence of handler calls and monitor sweeps from initialisation whose
JOINs carry channel names of at most 31 bytes, no copy runs past a field and no room slot
with a non-empty name other than `#general` has `member_count = 0`. The claim also covers
longer names, and there the code breaks it: after REGISTER 5, a JOIN by 5 whose channel
string runs to 77 bytes is copied by `strcpy` (main.c:340) past the 32-byte `channel_name`
of the created room, over its `members` and `member_count` and onto `channel_name` of the
next slot, which is then a named room with `member_count` 0. -/
theorem no_empty_room_reachable :
    (∀ events : List Event, trace_ok channel_fits init_server_state events →
      (run init_server_state events).registry.overflowed = false ∧
        ∀ room ∈ (run init_server_state events).registry.rooms,
          room.channel_name ≠ "" → room.channel_name ≠ "#general" →
            room.member_count ≠ 0) ∧
    (run init_server_state (sample_events_long 77)).registry.overflowed = true :=
  ⟨fun events h => ⟨run_init_overflowed events h,
      run_unconditional (fun r => NoEmptyRoom r.rooms) step_no_empty events
        init_server_state init_no_empty⟩,
    sample_events_long_overflowed 77 (by decide)⟩

/-! ## Client table after each handler -/

theorem join_find_or_create_clients (r : GlobalRegistry) (ch : String) (r1 : GlobalRegistry)
    (n : Nat) (h : join_find_or_create r ch = some (r1, n)) :
    r1.clients = r.clients ∧ r1.client_count = r.client_count := by
  rcases join_find_or_create_some _ _ _ _ h with ⟨_, h2⟩ | ⟨_, _, _, h4⟩
  · rw [h2]; exact ⟨rfl, rfl⟩
  · rw [h4]; exact ⟨rfl, rfl⟩

theorem client_at_congr (r r1 : GlobalRegistry) (h : r1.clients = r.clients) (k : Nat) :
    client_at r1 k = client_at r k := by
  unfold client_at; rw [h]

/-- Client table after `handle_join`, for a known sender and a room found or created. -/
theorem handle_join_clients (s : ServerState) (cmd : CommandMessage) (k : Nat)
    (hk : find_client_index s.registry cmd.sender_pid = some k) (r1 : GlobalRegistry) (n : Nat)
    (hj : join_find_or_create s.registry cmd.channel = some (r1, n)) :
    (handle_join s cmd).registry.clients =
      s.registry.clients.set k
        { client_at s.registry k with current_channel := cmd.channel } := by
  rw [handle_join_registry, hk]
  simp only [hj]
  have hc := (join_find_or_create_clients _ _ _ _ hj).1
  have h3 : ∀ r2 : GlobalRegistry, r2.clients = s.registry.clients →
      (add_client_to_room r2 n cmd.sender_pid).clients = s.registry.clients := fun r2 h => h
  split_ifs with hcond
  · have := h3 (depart r1 (client_at s.registry k).current_channel cmd.sender_pid)
      (by rw [depart_clients, hc])
    rw [client_at_congr _ _ this, this]
  · have := h3 r1 hc
    rw [client_at_congr _ _ this, this]

theorem handle_leave_clients (s : ServerState) (cmd : CommandMessage) (k : Nat)
    (hk : find_client_index s.registry cmd.sender_pid = some k)
    (hch : (client_at s.registry k).current_channel ≠ "") :
    (handle_leave s cmd).registry.clients =
      s.registry.clients.set k { client_at s.registry k with current_channel := "" } := by
  rw [handle_leave_registry, hk]
  simp only [hch, if_false]
  rw [client_at_congr _ _ (depart_clients _ _ _), depart_clients]

theorem remove_client_clients (s : ServerState) (pid : Int) (k : Nat)
    (hk : find_client_index s.registry pid = some k) :
    (remove_client s pid).registry.clients = s.registry.clients.set k zero_client := by
  rw [remove_client_registry, hk]
  simp only
  split_ifs
  · rw [depart_clients]
  · rfl

/-! ## Unique handles -/

theorem unique_pids_set (clients : List ClientEntry) (h : UniquePids clients) (k : Nat)
    (e : ClientEntry)
    (he : e.pid = 0 ∨ ∀ (j : Nat) (cj : ClientEntry), clients[j]? = some cj → j ≠ k →
      cj.pid ≠ e.pid) :
    UniquePids (clients.set k e) := by
  intro i j ci cj hi hj hne heq
  rcases getElem?_set_cases _ _ _ _ _ hi with ⟨hi1, hi2⟩ | ⟨hi1, hi2⟩
  · rcases getElem?_set_cases _ _ _ _ _ hj with ⟨hj1, hj2⟩ | ⟨hj1, hj2⟩
    · rw [hi1, hj1]
    · exfalso
      rcases he with he | he
      · exact hne (hi2 ▸ he)
      · exact he j cj hj2 hj1 (by rw [← heq, hi2])
  · rcases getElem?_set_cases _ _ _ _ _ hj with ⟨hj1, hj2⟩ | ⟨hj1, hj2⟩
    · exfalso
      rcases he with he | he
      · exact hne (by rw [heq, hj2, he])
      · exact he i ci hi2 hi1 (by rw [heq, hj2])
    · exact h i j ci cj hi2 hj2 hne heq

theorem unique_pids_set_same_pid (clients : List ClientEntry) (h : UniquePids clients) (k : Nat)
    (c e : ClientEntry) (hk : clients[k]? = some c) (hpid : e.pid = c.pid) :
    UniquePids (clients.set k e) := by
  apply unique_pids_set _ h
  by_cases h0 : e.pid = 0
  · exact Or.inl h0
  · right
    intro j cj hj hjk heq
    exact hjk (h j k cj c hj hk (by rw [heq]; exact h0) (by rw [heq, hpid]))

theorem remove_client_unique (s : ServerState) (pid : Int) (h : UniqueHandles s.registry) :
    UniqueHandles (remove_client s pid).registry := by
  cases hk : find_client_index s.registry pid with
  | none => rw [remove_client_registry, hk]; exact h
  | some k =>
    unfold UniqueHandles
    rw [remove_client_clients _ _ _ hk]
    exact unique_pids_set _ h k zero_client (Or.inl rfl)

theorem step_unique_handles (s : ServerState) (e : Event) (h : UniqueHandles s.registry)
    (hok : register_fresh s e) : UniqueHandles (step s e).registry := by
  cases e with
  | command cmd now =>
    rw [step_command]
    refine dispatch_preserves UniqueHandles s cmd now h ?_ ?_ ?_ ?_
    · intro hc
      rw [handle_register_registry]
      cases hk : find_client_index s.registry 0 with
      | none => exact h
      | some k =>
        refine unique_pids_set _ h k _ ?_
        by_cases h0 : cmd.sender_pid = 0
        · exact Or.inl h0
        · right
          intro j cj hj _ heq
          have hfresh := hok hc cj (List.mem_iff_getElem?.mpr ⟨j, hj⟩)
          exact hfresh (by rw [heq]; exact h0) heq
    · intro _
      cases hk : find_client_index s.registry cmd.sender_pid with
      | none => rw [handle_join_registry, hk]; exact h
      | some k =>
        cases hj : join_find_or_create s.registry cmd.channel with
        | none => rw [handle_join_registry, hk]; simp only [hj]; exact h
        | some p =>
          obtain ⟨r1, n⟩ := p
          unfold UniqueHandles
          rw [handle_join_clients _ _ _ hk _ _ hj]
          exact unique_pids_set_same_pid _ h k _ _ (find_client_index_some _ _ _ hk).1 rfl
    · intro _
      cases hk : find_client_index s.registry cmd.sender_pid with
      | none => rw [handle_leave_registry, hk]; exact h
      | some k =>
        by_cases hch : (client_at s.registry k).current_channel = ""
        · rw [handle_leave_registry, hk]; simp only [hch, if_true]; exact h
        · unfold UniqueHandles
          rw [handle_leave_clients _ _ _ hk hch]
          exact unique_pids_set_same_pid _ h k _ _ (find_client_index_some _ _ _ hk).1 rfl
    · intro _
      exact remove_client_unique s _ h
  | sweep now =>
    rw [step_sweep]
    exact monitor_preserves UniqueHandles (fun s pid _ hs => remove_client_unique s pid hs)
      s now h

theorem init_unique_handles : UniqueHandles init_server_state.registry := by
  intro i j ci cj hi _ hne _
  exfalso
  apply hne
  have hmem : ci ∈ init_server_state.registry.clients := List.mem_iff_getElem?.mpr ⟨i, hi⟩
  have : ci = zero_client := by
    simp only [init_server_state, init_registry] at hmem
    exact (List.mem_replicate.mp hmem).2
  rw [this]; rfl

/-- C1, as amended. In every state reachable from initialisation by handler calls and
monitor sweeps in which every JOIN carries a channel name of at most 31 bytes and no
REGISTER carries a handle that is registered at that moment, no copy has run past a field
and no two client slots hold the same non-zero handle. -/
theorem unique_handles_reachable (events : List Event)
    (h : trace_ok (fits_and register_fresh) init_server_state events) :
    (run init_server_state events).registry.overflowed = false ∧
      UniqueHandles (run init_server_state events).registry :=
  ⟨run_init_overflowed events (trace_ok_fits_and _ events _ h).1,
    run_preserves UniqueHandles register_fresh step_unique_handles events init_server_state
      init_unique_handles (trace_ok_fits_and _ events _ h).2⟩

/-! ## Counters -/

theorem countP_set_int {α : Type} (p : α → Bool) (l : List α) (i : Nat) (a x : α)
    (hx : l[i]? = some x) :
    ((l.set i a).countP p : Int) =
      l.countP p - (if p x = true then 1 else 0) + (if p a = true then 1 else 0) := by
  obtain ⟨hi, hxi⟩ := List.getElem?_eq_some.mp hx
  rw [List.countP_set p l i a hi, hxi]
  by_cases hpx : p x = true
  · have hpos : 0 < l.countP p :=
      List.countP_pos_iff.mpr ⟨x, List.mem_iff_getElem?.mpr ⟨i, hx⟩, hpx⟩
    by_cases hpa : p a = true
    · rw [if_pos hpx, if_pos hpa, if_pos hpx, if_pos hpa]; omega
    · rw [if_pos hpx, if_neg hpa, if_pos hpx, if_neg hpa]; omega
  · by_cases hpa : p a = true
    · rw [if_neg hpx, if_pos hpa, if_neg hpx, if_pos hpa]; omega
    · rw [if_neg hpx, if_neg hpa, if_neg hpx, if_neg hpa]; omega

theorem depart_room_count_ok (r : GlobalRegistry) (ch : String) (pid : Int) (hch : ch ≠ "")
    (h : RoomCountOk r) : RoomCountOk (depart r ch pid) := by
  unfold RoomCountOk at h ⊢
  rw [depart_room_count, depart_rooms]
  unfold rooms_depart
  have hf : find_room_index r ch =
      first_index (fun room : RoomEntry => room.channel_name = ch) r.rooms := rfl
  rw [hf]
  cases hidx : first_index (fun room : RoomEntry => room.channel_name = ch) r.rooms with
  | none => simpa using h
  | some idx =>
    obtain ⟨hget, hname, _⟩ := find_room_index_some r ch idx hidx
    simp only
    rw [countP_set_int _ _ _ _ _ hget, h]
    have hra : r.rooms.getD idx zero_room = room_at r idx := rfl
    rw [hra, room_after_remove_name]
    have hn : (room_at r idx).channel_name ≠ "" := by rw [hname]; exact hch
    by_cases hc : room_cleared (room_at r idx) pid
    · simp [hc, hn]
    · simp [hc, hn]

theorem add_client_to_room_room_count_ok (r : GlobalRegistry) (idx : Nat) (pid : Int)
    (h : RoomCountOk r) : RoomCountOk (add_client_to_room r idx pid) := by
  unfold RoomCountOk at h ⊢
  show r.room_count = _
  rw [add_client_to_room_rooms]
  unfold rooms_add
  by_cases hi : idx < r.rooms.length
  · rw [countP_set_int _ _ _ _ _ (getElem?_getD_of_lt r.rooms idx hi), h, room_add_name]
    split_ifs <;> simp
  · rw [List.set_eq_of_length_le (by omega)]
    exact h

theorem join_find_or_create_room_count_ok (r : GlobalRegistry) (ch : String)
    (r1 : GlobalRegistry) (n : Nat) (hj : join_find_or_create r ch = some (r1, n))
    (h : RoomCountOk r) : RoomCountOk r1 := by
  rcases join_find_or_create_some _ _ _ _ hj with ⟨_, h2⟩ | ⟨h1, h2, _, h4⟩
  · rw [h2]; exact h
  · rw [h4]
    unfold RoomCountOk at h ⊢
    obtain ⟨hget, hname, _⟩ := find_room_index_some r "" n h2
    have hne : ch ≠ "" := by
      intro he
      rw [he, h2] at h1
      exact absurd h1 (by simp)
    simp only [rooms_create]
    rw [countP_set_int _ _ _ _ _ hget, h]
    simp [hname, hne]

theorem step_room_count_ok (s : ServerState) (e : Event) (h : RoomCountOk s.registry) :
    RoomCountOk (step s e).registry := by
  have hrem : ∀ (s : ServerState) (pid : Int), RoomCountOk s.registry →
      RoomCountOk (remove_client s pid).registry := by
    intro s pid h
    rw [remove_client_registry]
    cases find_client_index s.registry pid with
    | none => exact h
    | some k =>
      simp only
      split_ifs with hc
      · exact depart_room_count_ok _ _ _ hc h
      · exact h
  cases e with
  | command cmd now =>
    rw [step_command]
    refine dispatch_preserves RoomCountOk s cmd now h ?_ ?_ ?_ ?_
    · intro _
      rw [handle_register_registry]
      cases find_client_index s.registry 0 with
      | none => exact h
      | some k => exact h
    · intro _
      rw [handle_join_registry]
      cases find_client_index s.registry cmd.sender_pid with
      | none => exact h
      | some k =>
        simp only
        cases hj : join_find_or_create s.registry cmd.channel with
        | none => exact h
        | some p =>
          obtain ⟨r1, n⟩ := p
          have h1 := join_find_or_create_room_count_ok _ _ _ _ hj h
          simp only
          split_ifs with hc
          · exact add_client_to_room_room_count_ok _ _ _ (depart_room_count_ok _ _ _ hc.1 h1)
          · exact add_client_to_room_room_count_ok _ _ _ h1
    · intro _
      rw [handle_leave_registry]
      cases find_client_index s.registry cmd.sender_pid with
      | none => exact h
      | some k =>
        simp only
        split_ifs with hc
        · exact h
        · exact depart_room_count_ok _ _ _ hc h
    · intro _
      exact hrem s _ h
  | sweep now =>
    rw [step_sweep]
    exact monitor_preserves RoomCountOk (fun s pid _ hs => hrem s pid hs) s now h

theorem remove_client_client_count_ok (s : ServerState) (pid : Int) (hpid : pid ≠ 0)
    (h : ClientCountOk s.registry) : ClientCountOk (remove_client s pid).registry := by
  cases hk : find_client_index s.registry pid with
  | none => rw [remove_client_registry, hk]; exact h
  | some k =>
    obtain ⟨hget, hp, _⟩ := find_client_index_some _ _ _ hk
    unfold ClientCountOk at h ⊢
    rw [remove_client_clients _ _ _ hk, countP_set_int _ _ _ _ _ hget]
    have hcc : (remove_client s pid).registry.client_count = s.registry.client_count - 1 := by
      rw [remove_client_registry, hk]
      simp only
      split_ifs
      · rw [depart_client_count]
      · rfl
    rw [hcc, h, hp]
    simp [hpid, zero_client]

theorem step_client_count_ok (s : ServerState) (e : Event) (h : ClientCountOk s.registry)
    (hok : nonzero_register_quit s e) : ClientCountOk (step s e).registry := by
  cases e with
  | command cmd now =>
    rw [step_command]
    refine dispatch_preserves ClientCountOk s cmd now h ?_ ?_ ?_ ?_
    · intro hc
      have hpid : cmd.sender_pid ≠ 0 := hok (Or.inl hc)
      rw [handle_register_registry]
      cases hk : find_client_index s.registry 0 with
      | none => exact h
      | some k =>
        obtain ⟨hget, hp, _⟩ := find_client_index_some _ _ _ hk
        unfold ClientCountOk at h ⊢
        simp only
        rw [countP_set_int _ _ _ _ _ hget, h, hp]
        simp [hpid]
    · intro _
      cases hk : find_client_index s.registry cmd.sender_pid with
      | none => rw [handle_join_registry, hk]; exact h
      | some k =>
        cases hj : join_find_or_create s.registry cmd.channel with
        | none => rw [handle_join_registry, hk]; simp only [hj]; exact h
        | some p =>
          obtain ⟨r1, n⟩ := p
          obtain ⟨hget, _, _⟩ := find_client_index_some _ _ _ hk
          unfold ClientCountOk at h ⊢
          rw [handle_join_clients _ _ _ hk _ _ hj, countP_set_int _ _ _ _ _ hget]
          have hcc : (handle_join s cmd).registry.client_count = s.registry.client_count := by
            rw [handle_join_registry, hk]
            simp only [hj]
            have h1 := (join_find_or_create_clients _ _ _ _ hj).2
            split_ifs
            · show (depart r1 _ _).client_count = _
              rw [depart_client_count, h1]
            · exact h1
          rw [hcc, h]
          split_ifs <;> simp
    · intro _
      cases hk : find_client_index s.registry cmd.sender_pid with
      | none => rw [handle_leave_registry, hk]; exact h
      | some k =>
        by_cases hch : (client_at s.registry k).current_channel = ""
        · rw [handle_leave_registry, hk]; simp only [hch, if_true]; exact h
        · obtain ⟨hget, _, _⟩ := find_client_index_some _ _ _ hk
          unfold ClientCountOk at h ⊢
          rw [handle_leave_clients _ _ _ hk hch, countP_set_int _ _ _ _ _ hget]
          have hcc : (handle_leave s cmd).registry.client_count = s.registry.client_count := by
            rw [handle_leave_registry, hk]
            simp only [hch, if_false]
            rw [depart_client_count]
          rw [hcc, h]
          split_ifs <;> simp
    · intro hc
      exact remove_client_client_count_ok s _ (hok (Or.inr hc)) h
  | sweep now =>
    rw [step_sweep]
    exact monitor_preserves ClientCountOk
      (fun s pid hpid hs => remove_client_client_count_ok s pid hpid hs) s now h

theorem step_counts_match (s : ServerState) (e : Event) (h : CountsMatch s.registry)
    (hok : nonzero_register_quit s e) : CountsMatch (step s e).registry :=
  ⟨step_client_count_ok s e h.1 hok, step_room_count_ok s e h.2⟩

/-- C4, as amended. In every state reachable from initialisation by handler calls and
monitor sweeps in which every JOIN carries a channel name of at most 31 bytes and every
REGISTER and QUIT carries a non-zero handle, no copy has run past a field, `client_count`
is the number of client slots with a non-zero handle and `room_count` is the number of
room slots with a non-empty name. -/
theorem counts_match_reachable (events : List Event)
    (h : trace_ok (fits_and nonzero_register_quit) init_server_state events) :
    (run init_server_state events).registry.overflowed = false ∧
      CountsMatch (run init_server_state events).registry :=
  ⟨run_init_overflowed events (trace_ok_fits_and _ events _ h).1,
    run_preserves CountsMatch nonzero_register_quit step_counts_match events
      init_server_state (by decide) (trace_ok_fits_and _ events _ h).2⟩

/-! ## Concrete traces -/

/-- The amended C1 on the sample trace. -/
theorem unique_handles_reachable_witness :
    trace_ok (fits_and register_fresh) init_server_state sample_trace ∧
      (run init_server_state sample_trace).registry.overflowed = false ∧
      UniqueHandles (run init_server_state sample_trace).registry :=
  ⟨by decide, unique_handles_reachable sample_trace (by decide)⟩

/-- The amended C4 on the sample trace. -/
theorem counts_match_reachable_witness :
    trace_ok (fits_and nonzero_register_quit) init_server_state sample_trace ∧
      (run init_server_state sample_trace).registry.overflowed = false ∧
      CountsMatch (run init_server_state sample_trace).registry :=
  ⟨by decide, counts_match_reachable sample_trace (by decide)⟩

/-- C1 fails as stated: after two REGISTERs from handle 5, slots 0 and 1 both hold it. -/
theorem duplicate_register_two_entries :
    ¬ UniqueHandles (run init_server_state
      [ .command (sample_cmd .CMD_REGISTER 5 "") 0,
        .command (sample_cmd .CMD_REGISTER 5 "") 0 ]).registry := by
  intro h
  have h01 := h 0 1 { pid := 5, reply_qid := 1005, current_channel := "", last_active := 0 }
    { pid := 5, reply_qid := 1005, current_channel := "", last_active := 0 }
    (by decide) (by decide) (by decide) rfl
  exact absurd h01 (by decide)

/-- C4 fails as stated: a REGISTER with handle 0 raises `client_count` to 1 while no slot
is occupied. -/
theorem register_zero_breaks_count :
    ¬ CountsMatch (run init_server_state
      [ .command (sample_cmd .CMD_REGISTER 0 "") 0 ]).registry := by
  decide

/-! ## Lookups after an update -/

theorem first_index_set_of_iff {α : Type} (p : α → Prop) [DecidablePred p] (l : List α)
    (k : Nat) (e x : α) (hx : l[k]? = some x) (h : p e ↔ p x) :
    first_index p (l.set k e) = first_index p l := by
  induction l generalizing k with
  | nil => simp at hx
  | cons a as ih =>
    cases k with
    | zero =>
      simp at hx
      subst hx
      simp only [List.set_cons_zero, first_index]
      by_cases hp : p a
      · rw [if_pos hp, if_pos (h.mpr hp)]
      · rw [if_neg hp, if_neg (fun he => hp (h.mp he))]
    | succ k =>
      simp only [List.set_cons_succ, first_index]
      rw [ih k (by simpa using hx)]

theorem set_client_at_self (r : GlobalRegistry) (k : Nat) :
    r.clients.set k (client_at r k) = r.clients := by
  apply List.ext_getElem?
  intro j
  by_cases hk : k = j
  · subst hk
    by_cases hl : k < r.clients.length
    · rw [List.getElem?_set_self hl]
      simp [client_at, List.getD_eq_getElem?_getD, List.getElem?_eq_getElem hl]
    · rw [List.set_eq_of_length_le (by omega)]
  · rw [List.getElem?_set_ne hk]

theorem first_named_iff (rooms : List RoomEntry) (ch : String) (n : Nat) :
    first_index (fun room : RoomEntry => room.channel_name = ch) rooms = some n ↔
      FirstNamed rooms ch n := by
  constructor
  · intro h
    exact first_index_some _ _ _ h
  · rintro ⟨⟨a, ha, hp⟩, hmin⟩
    exact first_index_unique _ _ _ a ha hp hmin

theorem rooms_depart_first_named (rooms : List RoomEntry) (ch old : String) (pid : Int)
    (n : Nat) (hch : ch ≠ "") (hold : old ≠ ch) (h : FirstNamed rooms ch n) :
    FirstNamed (rooms_depart rooms old pid) ch n ∧
      (rooms_depart rooms old pid)[n]? = rooms[n]? := by
  obtain ⟨⟨a, ha, hp⟩, hmin⟩ := h
  have hn : (rooms_depart rooms old pid)[n]? = rooms[n]? := by
    unfold rooms_depart
    cases hf : first_index (fun room : RoomEntry => room.channel_name = old) rooms with
    | none => rfl
    | some idx =>
      simp only
      obtain ⟨⟨x, hx, hpx⟩, _⟩ := first_index_some _ _ _ hf
      have hne : idx ≠ n := by
        intro he
        rw [he, ha] at hx
        have : a = x := Option.some.inj hx
        rw [← this, hp] at hpx
        exact hold hpx.symm
      rw [List.getElem?_set_ne hne]
  refine ⟨⟨⟨a, by rw [hn]; exact ha, hp⟩, ?_⟩, hn⟩
  intro j b hj hb
  rcases rooms_depart_getElem? _ _ _ _ _ hb with h1 | ⟨y, hy, _, hby, _⟩
  · exact hmin j b hj h1
  · rw [hby, room_after_remove_name]
    split_ifs
    · exact fun he => hch he.symm
    · exact hmin j y hj hy

theorem rooms_add_first_named (rooms : List RoomEntry) (ch : String) (pid : Int) (n : Nat)
    (h : FirstNamed rooms ch n) : FirstNamed (rooms_add rooms n pid) ch n := by
  obtain ⟨⟨a, ha, hp⟩, hmin⟩ := h
  have hlt := (List.getElem?_eq_some.mp ha).1
  unfold rooms_add
  refine ⟨⟨_, List.getElem?_set_self hlt, ?_⟩, ?_⟩
  · rw [room_add_name, getD_of_getElem? _ _ _ ha, hp]
  · intro j b hj hb
    rw [List.getElem?_set_ne (by omega)] at hb
    exact hmin j b hj hb

theorem rooms_create_first_named (rooms : List RoomEntry) (ch : String) (n : Nat)
    (hnone : first_index (fun room : RoomEntry => room.channel_name = ch) rooms = none)
    (hlt : n < rooms.length) : FirstNamed (rooms_create rooms n ch) ch n := by
  unfold rooms_create
  refine ⟨⟨_, List.getElem?_set_self hlt, rfl⟩, ?_⟩
  intro j b hj hb
  rw [List.getElem?_set_ne (by omega)] at hb
  exact (first_index_eq_none_iff _ _).mp hnone b (List.mem_iff_getElem?.mpr ⟨j, hb⟩)

theorem room_after_remove_members_length (room : RoomEntry) (pid : Int)
    (h : room.members.length = MAX_CLIENTS) :
    (room_after_remove room pid).members.length = MAX_CLIENTS := by
  by_cases hm : pid ∈ room.member_list
  · by_cases hc : room_cleared room pid
    · rw [room_after_remove_of_cleared _ _ hc]
      simp [zero_room]
    · obtain ⟨i, _, heq⟩ := room_after_remove_of_mem _ _ hm hc
      rw [heq]
      simp only [shift_members_length]
      exact h
  · rw [room_after_remove_of_not_mem _ _ hm]; exact h

theorem rooms_depart_typed (rooms : List RoomEntry) (ch : String) (pid : Int)
    (h : RoomsTyped rooms) : RoomsTyped (rooms_depart rooms ch pid) := by
  intro b hb
  obtain ⟨j, hj⟩ := List.mem_iff_getElem?.mp hb
  rcases rooms_depart_getElem? _ _ _ _ _ hj with h1 | ⟨y, hy, _, hby, _⟩
  · exact h b (List.mem_iff_getElem?.mpr ⟨j, h1⟩)
  · rw [hby]
    exact room_after_remove_members_length _ _ (h y (List.mem_iff_getElem?.mpr ⟨j, hy⟩))

theorem rooms_create_typed (rooms : List RoomEntry) (n : Nat) (ch : String)
    (hlt : n < rooms.length) (h : RoomsTyped rooms) : RoomsTyped (rooms_create rooms n ch) := by
  intro b hb
  unfold rooms_create at hb
  rcases List.mem_or_eq_of_mem_set hb with hb | hb
  · exact h b hb
  · rw [hb]
    show (rooms.getD n zero_room).members.length = MAX_CLIENTS
    exact h _ (List.mem_iff_getElem?.mpr ⟨n, getElem?_getD_of_lt rooms n hlt⟩)

/-- The room found or created by `handle_join` is the first one carrying the name. -/
theorem join_find_or_create_first_named (r : GlobalRegistry) (ch : String)
    (r1 : GlobalRegistry) (n : Nat) (hj : join_find_or_create r ch = some (r1, n))
    (hty : RoomsTyped r.rooms) : FirstNamed r1.rooms ch n ∧ RoomsTyped r1.rooms := by
  rcases join_find_or_create_some _ _ _ _ hj with ⟨h1, h2⟩ | ⟨h1, h2, _, h4⟩
  · rw [h2]
    exact ⟨(first_named_iff _ _ _).mp h1, hty⟩
  · rw [h4]
    have hlt := (find_room_index_some r "" n h2).2.2
    exact ⟨rooms_create_first_named _ _ _ h1 hlt, rooms_create_typed _ _ _ hlt hty⟩

/-- Handling the same JOIN twice, for a channel name that fits the 32-byte fields with its
terminator: the second call leaves the registry as the first left it, and the first call
writes past no field. -/
theorem join_twice_fitting (s : ServerState) (cmd : CommandMessage)
    (hty : WellTyped s.registry) (hch : cmd.channel ≠ "")
    (hfit : cmd.channel.length < MAX_CHANNEL) :
    (handle_join (handle_join s cmd) cmd).registry = (handle_join s cmd).registry ∧
      (handle_join s cmd).registry.overflowed = s.registry.overflowed := by
  have hov := strcpy_overruns_of_fit cmd.channel MAX_CHANNEL hfit
  refine ⟨?_, handle_join_overflowed s cmd hfit⟩
  cases hk : find_client_index s.registry cmd.sender_pid with
  | none =>
    have h1 : (handle_join s cmd).registry = s.registry := by
      rw [handle_join_registry, hk]
    rw [handle_join_registry (handle_join s cmd), h1, hk]
  | some k =>
    cases hj : join_find_or_create s.registry cmd.channel with
    | none =>
      have h1 : (handle_join s cmd).registry = s.registry := by
        rw [handle_join_registry, hk]; simp only [hj]
      rw [handle_join_registry (handle_join s cmd), h1, hk]
      simp only [hj]
    | some p =>
      obtain ⟨r1, n⟩ := p
      obtain ⟨hget, _, hklt⟩ := find_client_index_some _ _ _ hk
      -- the client table after the first JOIN
      have hcl := handle_join_clients s cmd k hk r1 n hj
      have hk2 : find_client_index (handle_join s cmd).registry cmd.sender_pid = some k := by
        unfold find_client_index
        rw [hcl]
        exact (first_index_set_of_iff (fun c : ClientEntry => c.pid = cmd.sender_pid)
          s.registry.clients k { client_at s.registry k with current_channel := cmd.channel }
          (client_at s.registry k) hget Iff.rfl).trans hk
      have hcat : client_at (handle_join s cmd).registry k =
          { client_at s.registry k with current_channel := cmd.channel } := by
        apply client_at_of_getElem?
        rw [hcl]
        exact List.getElem?_set_self hklt
      -- the room table after the first JOIN
      obtain ⟨hfn1, hty1⟩ := join_find_or_create_first_named _ _ _ _ hj hty.2.2
      have hrooms : ∃ L : List RoomEntry, FirstNamed L cmd.channel n ∧ RoomsTyped L ∧
          (handle_join s cmd).registry.rooms = rooms_add L n cmd.sender_pid := by
        rw [handle_join_registry, hk]
        simp only [hj]
        split_ifs with hc
        · refine ⟨rooms_depart r1.rooms (client_at s.registry k).current_channel
            cmd.sender_pid, ?_, rooms_depart_typed _ _ _ hty1, ?_⟩
          · exact (rooms_depart_first_named _ _ _ _ _ hch hc.2 hfn1).1
          · rw [add_client_to_room_rooms, depart_rooms]
        · exact ⟨r1.rooms, hfn1, hty1, rfl⟩
      obtain ⟨L, hfnL, htyL, hL⟩ := hrooms
      obtain ⟨⟨a, ha, _⟩, _⟩ := id hfnL
      have hnlt : n < L.length := (List.getElem?_eq_some.mp ha).1
      have hfind : find_room_index (handle_join s cmd).registry cmd.channel = some n := by
        unfold find_room_index
        rw [hL]
        exact (first_named_iff _ _ _).mpr (rooms_add_first_named _ _ _ _ hfnL)
      have hjoin2 : join_find_or_create (handle_join s cmd).registry cmd.channel =
          some ((handle_join s cmd).registry, n) := by
        unfold join_find_or_create
        rw [hfind]
      have hadd : add_client_to_room (handle_join s cmd).registry n cmd.sender_pid =
          (handle_join s cmd).registry := by
        unfold add_client_to_room
        have hra : room_at (handle_join s cmd).registry n =
            room_add (L.getD n zero_room) cmd.sender_pid := by
          apply room_at_of_getElem?
          rw [hL]
          exact List.getElem?_set_self hnlt
        have hlen : (L.getD n zero_room).members.length = MAX_CLIENTS :=
          htyL _ (List.mem_iff_getElem?.mpr ⟨n, getElem?_getD_of_lt L n hnlt⟩)
        rw [hra, room_add_idem _ _ hlen, ← hra, set_room_at_self]
      rw [handle_join_registry (handle_join s cmd), hk2]
      simp only [hjoin2, hcat]
      rw [if_neg (fun hc => hc.2 rfl), hadd]
      have hself : ({ client_at (handle_join s cmd).registry k with
          current_channel := cmd.channel } : ClientEntry) =
          client_at (handle_join s cmd).registry k := by
        rw [hcat]
      rw [hself, set_client_at_self, hov, Bool.or_false]

/-- C7. For a registry with the array sizes of the C types and a non-empty channel name:
when the name has at most 31 bytes, handling the same JOIN a second time leaves the whole
registry as the first call left it, and no copy runs past a field; when the name has 32
bytes or more and the JOIN succeeds (sender found, room found or created), `strcpy` writes
the name and its terminator past the 32-byte `current_channel`, so the registry in memory
is no longer the one the first JOIN is meant to leave (with 32 bytes the terminator lands on
`last_active`, and in a created room on `members[0]`, which `add_client_to_room` then
overwrites: the stored room name runs on into the member handle and the second JOIN finds
no room of the requested name). -/
theorem join_twice_same_registry (s : ServerState) (cmd : CommandMessage)
    (hty : WellTyped s.registry) (hch : cmd.channel ≠ "") :
    (cmd.channel.length < MAX_CHANNEL →
      (handle_join (handle_join s cmd) cmd).registry = (handle_join s cmd).registry ∧
        (handle_join s cmd).registry.overflowed = s.registry.overflowed) ∧
    (MAX_CHANNEL ≤ cmd.channel.length →
      ∀ k, find_client_index s.registry cmd.sender_pid = some k →
        join_find_or_create s.registry cmd.channel ≠ none →
        (handle_join s cmd).registry.overflowed = true) :=
  ⟨fun hfit => join_twice_fitting s cmd hty hch hfit,
    fun hlong k hk hj => handle_join_overflows s cmd k hk hj hlong⟩

/-! ## Room table after each handler, in closed form -/

theorem remove_client_rooms (s : ServerState) (pid : Int) (k : Nat)
    (hk : find_client_index s.registry pid = some k) :
    (remove_client s pid).registry.rooms =
      if (client_at s.registry k).current_channel ≠ "" then
        rooms_depart s.registry.rooms (client_at s.registry k).current_channel pid
      else s.registry.rooms := by
  rw [remove_client_registry, hk]
  simp only
  split_ifs
  · rw [depart_rooms]
  · rfl

theorem handle_leave_rooms (s : ServerState) (cmd : CommandMessage) (k : Nat)
    (hk : find_client_index s.registry cmd.sender_pid = some k)
    (hch : (client_at s.registry k).current_channel ≠ "") :
    (handle_leave s cmd).registry.rooms =
      rooms_depart s.registry.rooms (client_at s.registry k).current_channel
        cmd.sender_pid := by
  rw [handle_leave_registry, hk]
  simp only [hch, if_false]
  rw [depart_rooms]

theorem handle_join_rooms (s : ServerState) (cmd : CommandMessage) (k : Nat)
    (hk : find_client_index s.registry cmd.sender_pid = some k) (r1 : GlobalRegistry) (n : Nat)
    (hj : join_find_or_create s.registry cmd.channel = some (r1, n)) :
    (handle_join s cmd).registry.rooms =
      rooms_add
        (if (client_at s.registry k).current_channel ≠ "" ∧
            (client_at s.registry k).current_channel ≠ cmd.channel then
          rooms_depart r1.rooms (client_at s.registry k).current_channel cmd.sender_pid
        else r1.rooms) n cmd.sender_pid := by
  rw [handle_join_registry, hk]
  simp only [hj]
  split_ifs
  · rw [add_client_to_room_rooms, depart_rooms]
  · rfl

/-! ## Precise form of `rooms_depart` -/

theorem rooms_depart_of_none (rooms : List RoomEntry) (ch : String) (pid : Int)
    (h : first_index (fun room : RoomEntry => room.channel_name = ch) rooms = none) :
    rooms_depart rooms ch pid = rooms := by
  unfold rooms_depart; rw [h]

theorem rooms_depart_of_some (rooms : List RoomEntry) (ch : String) (pid : Int) (idx : Nat)
    (a : RoomEntry) (ha : rooms[idx]? = some a)
    (h : first_index (fun room : RoomEntry => room.channel_name = ch) rooms = some idx) :
    rooms_depart rooms ch pid = rooms.set idx (room_after_remove a pid) := by
  unfold rooms_depart; rw [h]
  simp only
  rw [getD_of_getElem? _ _ _ ha]

theorem mem_set_of_mem {α : Type} (l : List α) (k : Nat) (e c x : α) (hc : l[k]? = some c)
    (hx : x ∈ l) : x = c ∨ x ∈ l.set k e := by
  obtain ⟨i, hi⟩ := List.mem_iff_getElem?.mp hx
  by_cases hik : i = k
  · left
    rw [hik, hc] at hi
    exact (Option.some.inj hi).symm
  · right
    refine List.mem_iff_getElem?.mpr ⟨i, ?_⟩
    rw [List.getElem?_set_ne (fun h => hik h.symm)]
    exact hi

/-- A departure from `old` leaves the slot of a room with another name untouched. -/
theorem rooms_depart_getElem?_other (rooms : List RoomEntry) (ch old : String) (pid : Int)
    (n : Nat) (a : RoomEntry) (ha : rooms[n]? = some a) (hp : a.channel_name = ch)
    (hold : old ≠ ch) : (rooms_depart rooms old pid)[n]? = rooms[n]? := by
  unfold rooms_depart
  cases hf : first_index (fun room : RoomEntry => room.channel_name = old) rooms with
  | none => rfl
  | some idx =>
    simp only
    obtain ⟨⟨x, hx, hpx⟩, _⟩ := first_index_some _ _ _ hf
    have hne : idx ≠ n := by
      intro he
      rw [he, ha] at hx
      have : a = x := Option.some.inj hx
      rw [← this, hp] at hpx
      exact hold hpx.symm
    rw [List.getElem?_set_ne hne]

/-! ## Members are tracked by the client table -/

theorem shape_count_le (rooms : List RoomEntry) (h : RoomsShape rooms) (room : RoomEntry)
    (hr : room ∈ rooms) : room.member_count ≤ room.members.length := by
  have := h room hr
  omega

theorem rooms_depart_tracked (clients : List ClientEntry) (rooms : List RoomEntry)
    (ch : String) (pid : Int) (hs : RoomsShape rooms) (h : MembersTracked clients rooms) :
    MembersTracked clients (rooms_depart rooms ch pid) := by
  intro b hb hbn
  obtain ⟨j, hj⟩ := List.mem_iff_getElem?.mp hb
  rcases rooms_depart_getElem? _ _ _ _ _ hj with h1 | ⟨a, ha, _, hba, _⟩
  · exact h b (List.mem_iff_getElem?.mpr ⟨j, h1⟩) hbn
  · have hamem : a ∈ rooms := List.mem_iff_getElem?.mpr ⟨j, ha⟩
    have hname : b.channel_name = a.channel_name := by
      rw [hba, room_after_remove_name] at hbn ⊢
      split_ifs at hbn ⊢ with hc
      · exact absurd rfl hbn
      · rfl
    have hlist : b.member_list = a.member_list.erase pid := by
      rw [hba]; exact room_after_remove_member_list _ _ (shape_count_le rooms hs a hamem)
    obtain ⟨hnd, hw⟩ := h a hamem (hname ▸ hbn)
    rw [hlist, hname]
    exact ⟨hnd.erase pid, fun m hm => hw m (List.mem_of_mem_erase hm)⟩

/-- After the departure from `ch`, no room named `ch` lists the handle. -/
theorem rooms_depart_absent (clients : List ClientEntry) (rooms : List RoomEntry)
    (ch : String) (pid : Int) (hs : RoomsShape rooms) (hu : UniqueNames rooms)
    (h : MembersTracked clients rooms) (hch : ch ≠ "") :
    ∀ room ∈ rooms_depart rooms ch pid, room.channel_name = ch → pid ∉ room.member_list := by
  intro b hb hbn
  obtain ⟨j, hj⟩ := List.mem_iff_getElem?.mp hb
  cases hf : first_index (fun room : RoomEntry => room.channel_name = ch) rooms with
  | none =>
    rw [rooms_depart_of_none _ _ _ hf] at hj
    exact absurd hbn ((first_index_eq_none_iff _ _).mp hf b (List.mem_iff_getElem?.mpr ⟨j, hj⟩))
  | some idx =>
    obtain ⟨⟨a, ha, hpa⟩, _⟩ := first_index_some _ _ _ hf
    have hamem : a ∈ rooms := List.mem_iff_getElem?.mpr ⟨idx, ha⟩
    rw [rooms_depart_of_some _ _ _ _ _ ha hf] at hj
    rcases getElem?_set_cases _ _ _ _ _ hj with ⟨_, h2⟩ | ⟨h1, h2⟩
    · rw [h2, room_after_remove_member_list _ _ (shape_count_le rooms hs a hamem)]
      have hnd := (h a hamem (by rw [hpa]; exact hch)).1
      intro hin
      exact ((List.Nodup.mem_erase_iff hnd).mp hin).1 rfl
    · exfalso
      apply h1
      exact hu j idx b a h2 ha (by rw [hbn]; exact hch) (by rw [hbn, hpa])

/-- Overwriting a client slot keeps the members tracked when no room named after the
slot's channel lists the slot's handle. -/
theorem members_tracked_set_client (clients : List ClientEntry) (rooms : List RoomEntry)
    (h : MembersTracked clients rooms) (k : Nat) (c e : ClientEntry)
    (hc : clients[k]? = some c)
    (habs : ∀ room ∈ rooms, room.channel_name ≠ "" → room.channel_name = c.current_channel →
      c.pid ∉ room.member_list) :
    MembersTracked (clients.set k e) rooms := by
  intro room hroom hn
  obtain ⟨hnd, hw⟩ := h room hroom hn
  refine ⟨hnd, ?_⟩
  intro m hm
  obtain ⟨x, hx, hxp, hx0, hxc⟩ := hw m hm
  rcases mem_set_of_mem clients k e c x hc hx with hxc' | hxs
  · exfalso
    rw [hxc'] at hxp hxc
    exact habs room hroom hn hxc.symm (hxp ▸ hm)
  · exact ⟨x, hxs, hxp, hx0, hxc⟩

/-- Departure from the slot's channel followed by any overwrite of the slot. -/
theorem depart_then_set_tracked (clients : List ClientEntry) (rooms : List RoomEntry)
    (hs : RoomsShape rooms) (hu : UniqueNames rooms) (h : MembersTracked clients rooms)
    (k : Nat) (c e : ClientEntry) (hc : clients[k]? = some c) :
    MembersTracked (clients.set k e)
      (if c.current_channel ≠ "" then rooms_depart rooms c.current_channel c.pid
       else rooms) := by
  split_ifs with hch
  · apply members_tracked_set_client _ _ (rooms_depart_tracked clients rooms _ _ hs h) k c e hc
    intro room hroom _ hname
    exact rooms_depart_absent clients rooms _ _ hs hu h hch room hroom hname
  · apply members_tracked_set_client _ _ h k c e hc
    intro room _ hn hname
    exact absurd (hname ▸ hn) hch

theorem rooms_create_tracked (clients : List ClientEntry) (rooms : List RoomEntry) (n : Nat)
    (ch : String) (h : MembersTracked clients rooms) :
    MembersTracked clients (rooms_create rooms n ch) := by
  intro room hroom hn
  unfold rooms_create at hroom
  rcases List.mem_or_eq_of_mem_set hroom with hr | hr
  · exact h room hr hn
  · rw [hr]
    simp [RoomEntry.member_list]

/-- The JOIN step proper: the handle is added to room `n` and the slot's channel set. -/
theorem join_tracked (clients : List ClientEntry) (rooms1 : List RoomEntry) (n k : Nat)
    (c : ClientEntry) (ch : String) (pid : Int) (hs : RoomsShape rooms1)
    (hu : UniqueNames rooms1) (h : MembersTracked clients rooms1)
    (hfn : FirstNamed rooms1 ch n) (hc : clients[k]? = some c) (hp : c.pid = pid)
    (hpid : pid ≠ 0) :
    MembersTracked (clients.set k { c with current_channel := ch })
      (rooms_add
        (if c.current_channel ≠ "" ∧ c.current_channel ≠ ch then
          rooms_depart rooms1 c.current_channel pid
        else rooms1) n pid) := by
  subst hp
  have hklt : k < clients.length := (List.getElem?_eq_some.mp hc).1
  have he : ({ c with current_channel := ch } : ClientEntry) ∈
      clients.set k { c with current_channel := ch } :=
    List.mem_iff_getElem?.mpr ⟨k, List.getElem?_set_self hklt⟩
  -- the table before the handle is added
  have hmid : ∃ rooms2 : List RoomEntry,
      (if c.current_channel ≠ "" ∧ c.current_channel ≠ ch then
          rooms_depart rooms1 c.current_channel c.pid else rooms1) = rooms2 ∧
      RoomsShape rooms2 ∧ MembersTracked clients rooms2 ∧
      (∀ (j : Nat) (room : RoomEntry), rooms2[j]? = some room → j ≠ n →
        room.channel_name ≠ "" → room.channel_name = c.current_channel →
        c.pid ∉ room.member_list) := by
    split_ifs with hcond
    · refine ⟨_, rfl, rooms_depart_shape _ _ _ hs, rooms_depart_tracked _ _ _ _ hs h, ?_⟩
      intro j room hj _ _ hname
      exact rooms_depart_absent clients rooms1 _ _ hs hu h hcond.1 room
        (List.mem_iff_getElem?.mpr ⟨j, hj⟩) hname
    · refine ⟨_, rfl, hs, h, ?_⟩
      intro j room hj hjn hne hname
      exfalso
      have hold : c.current_channel = ch := by
        by_contra hne2
        exact hcond ⟨hname ▸ hne, hne2⟩
      obtain ⟨⟨a, ha, hpa⟩, _⟩ := hfn
      exact hjn (hu j n room a hj ha hne (by rw [hname, hold, hpa]))
  obtain ⟨rooms2, hrw, hs2, ht2, habs⟩ := hmid
  rw [hrw]
  intro room hroom hn
  obtain ⟨j, hj⟩ := List.mem_iff_getElem?.mp hroom
  unfold rooms_add at hj
  have hwit : ∀ (R : RoomEntry) (jR : Nat), rooms2[jR]? = some R → R.channel_name ≠ "" →
      (jR = n → R.channel_name = ch) →
      ∀ m ∈ R.member_list, ∃ x ∈ clients.set k { c with current_channel := ch },
        x.pid = m ∧ x.pid ≠ 0 ∧ x.current_channel = R.channel_name := by
    intro R jR hR hRn hRch m hm
    obtain ⟨x, hx, hxp, hx0, hxc⟩ :=
      (ht2 R (List.mem_iff_getElem?.mpr ⟨jR, hR⟩) hRn).2 m hm
    rcases mem_set_of_mem clients k { c with current_channel := ch } c x hc hx with hxc' | hxs
    · rw [hxc'] at hxp hxc
      by_cases hjn : jR = n
      · exact ⟨_, he, hxp, hpid, (hRch hjn).symm⟩
      · exact absurd (hxp ▸ hm) (habs jR R hR hjn hRn hxc.symm)
    · exact ⟨x, hxs, hxp, hx0, hxc⟩
  rcases getElem?_set_cases _ _ _ _ _ hj with ⟨hjn, h2⟩ | ⟨hjn, h2⟩
  · -- the joined room
    have hnlt : n < rooms2.length := by
      have := (List.getElem?_eq_some.mp hj).1
      simpa [hjn] using this
    have hX := getElem?_getD_of_lt rooms2 n hnlt
    have hXmem : rooms2.getD n zero_room ∈ rooms2 := List.mem_iff_getElem?.mpr ⟨n, hX⟩
    have hXname : room.channel_name = (rooms2.getD n zero_room).channel_name := by
      rw [h2, room_add_name]
    have hXch : (rooms2.getD n zero_room).channel_name = ch := by
      obtain ⟨⟨a, ha, hpa⟩, _⟩ := hfn
      have hn1 : rooms2[n]? = rooms1[n]? := by
        rw [← hrw]
        split_ifs with hcond
        · exact rooms_depart_getElem?_other _ _ _ _ _ a ha hpa hcond.2
        · rfl
      rw [ha] at hn1
      rw [getD_of_getElem? _ _ _ hn1]; exact hpa
    have hXn : (rooms2.getD n zero_room).channel_name ≠ "" := hXname ▸ hn
    obtain ⟨hnd, _⟩ := ht2 _ hXmem hXn
    have hml := room_add_member_list (rooms2.getD n zero_room) c.pid (hs2 _ hXmem).1
    rw [h2, hml]
    split_ifs with hfull
    · refine ⟨hnd, ?_⟩
      intro m hm
      obtain ⟨x, hx, hx1, hx2, hx3⟩ := hwit _ n hX hXn (fun _ => hXch) m hm
      exact ⟨x, hx, hx1, hx2, by rw [hx3, room_add_name]⟩
    · have hnotin : c.pid ∉ (rooms2.getD n zero_room).member_list := fun hin =>
        hfull (Or.inl hin)
      refine ⟨List.nodup_append.mpr ⟨hnd, List.nodup_singleton _, ?_⟩, ?_⟩
      · intro a ha1 ha2
        rw [List.mem_singleton] at ha2
        exact hnotin (ha2 ▸ ha1)
      · intro m hm
        rw [room_add_name]
        rcases List.mem_append.mp hm with hm | hm
        · exact hwit _ n hX hXn (fun _ => hXch) m hm
        · rw [List.mem_singleton] at hm
          exact ⟨_, he, hm.symm, hpid, hXch.symm⟩
  · -- any other room
    have hrm : room ∈ rooms2 := List.mem_iff_getElem?.mpr ⟨j, h2⟩
    exact ⟨(ht2 room hrm hn).1, hwit room j h2 hn (fun hjn' => absurd hjn' hjn)⟩

theorem rooms_shape_typed (rooms : List RoomEntry) (h : RoomsShape rooms) : RoomsTyped rooms :=
  fun room hr => (h room hr).1

/-- What `join_find_or_create` hands to the rest of `handle_join`. -/
theorem join_find_or_create_inv (r : GlobalRegistry) (ch : String) (r1 : GlobalRegistry)
    (n : Nat) (hj : join_find_or_create r ch = some (r1, n)) (hs : RoomsShape r.rooms)
    (hu : UniqueNames r.rooms) (ht : MembersTracked r.clients r.rooms) :
    RoomsShape r1.rooms ∧ UniqueNames r1.rooms ∧ MembersTracked r.clients r1.rooms ∧
      FirstNamed r1.rooms ch n := by
  have hfn := (join_find_or_create_first_named r ch r1 n hj (rooms_shape_typed _ hs)).1
  rcases join_find_or_create_some _ _ _ _ hj with ⟨_, h2⟩ | ⟨h1, _, _, h4⟩
  · rw [h2] at hfn ⊢
    exact ⟨hs, hu, ht, hfn⟩
  · rw [h4] at hfn ⊢
    exact ⟨rooms_create_shape _ _ _ hs, rooms_create_unique _ _ _ hu h1,
      rooms_create_tracked _ _ _ _ ht, hfn⟩

theorem tracked_zero_not_member (clients : List ClientEntry) (rooms : List RoomEntry)
    (h : MembersTracked clients rooms) (room : RoomEntry) (hr : room ∈ rooms)
    (hn : room.channel_name ≠ "") (pid : Int) (hpid : pid = 0) : pid ∉ room.member_list := by
  intro hin
  obtain ⟨c, _, hc1, hc2, _⟩ := (h room hr hn).2 pid hin
  exact hc2 (hc1.trans hpid)

theorem remove_client_tracked (s : ServerState) (pid : Int) (h : TrackedInv s.registry) :
    MembersTracked (remove_client s pid).registry.clients
      (remove_client s pid).registry.rooms := by
  obtain ⟨hs, hu, ht⟩ := h
  cases hk : find_client_index s.registry pid with
  | none => rw [remove_client_registry, hk]; exact ht
  | some k =>
    obtain ⟨hget, hp, _⟩ := find_client_index_some _ _ _ hk
    rw [remove_client_clients _ _ _ hk, remove_client_rooms _ _ _ hk]
    have := depart_then_set_tracked _ _ hs hu ht k _ zero_client hget
    rw [hp] at this
    exact this

theorem handle_leave_tracked (s : ServerState) (cmd : CommandMessage)
    (h : TrackedInv s.registry) :
    MembersTracked (handle_leave s cmd).registry.clients
      (handle_leave s cmd).registry.rooms := by
  obtain ⟨hs, hu, ht⟩ := h
  cases hk : find_client_index s.registry cmd.sender_pid with
  | none => rw [handle_leave_registry, hk]; exact ht
  | some k =>
    by_cases hch : (client_at s.registry k).current_channel = ""
    · rw [handle_leave_registry, hk]; simp only [hch, if_true]; exact ht
    · obtain ⟨hget, hp, _⟩ := find_client_index_some _ _ _ hk
      rw [handle_leave_clients _ _ _ hk hch, handle_leave_rooms _ _ _ hk hch]
      have := depart_then_set_tracked _ _ hs hu ht k _
        { client_at s.registry k with current_channel := "" } hget
      rw [if_pos hch, hp] at this
      exact this

theorem handle_register_tracked (s : ServerState) (cmd : CommandMessage) (now : Int)
    (h : TrackedInv s.registry) :
    MembersTracked (handle_register s cmd now).registry.clients
      (handle_register s cmd now).registry.rooms := by
  obtain ⟨_, _, ht⟩ := h
  rw [handle_register_registry]
  cases hk : find_client_index s.registry 0 with
  | none => exact ht
  | some k =>
    obtain ⟨hget, hp, _⟩ := find_client_index_some _ _ _ hk
    simp only
    apply members_tracked_set_client _ _ ht k _ _ hget
    intro room hroom hn _
    exact tracked_zero_not_member _ _ ht room hroom hn _ hp

theorem handle_join_tracked (s : ServerState) (cmd : CommandMessage)
    (h : TrackedInv s.registry) (hpid : cmd.sender_pid ≠ 0) :
    MembersTracked (handle_join s cmd).registry.clients
      (handle_join s cmd).registry.rooms := by
  obtain ⟨hs, hu, ht⟩ := h
  cases hk : find_client_index s.registry cmd.sender_pid with
  | none => rw [handle_join_registry, hk]; exact ht
  | some k =>
    cases hj : join_find_or_create s.registry cmd.channel with
    | none => rw [handle_join_registry, hk]; simp only [hj]; exact ht
    | some p =>
      obtain ⟨r1, n⟩ := p
      obtain ⟨hget, hp, _⟩ := find_client_index_some _ _ _ hk
      obtain ⟨hs1, hu1, ht1, hfn1⟩ := join_find_or_create_inv _ _ _ _ hj hs hu ht
      rw [handle_join_clients _ _ _ hk _ _ hj, handle_join_rooms _ _ _ hk _ _ hj]
      exact join_tracked _ _ n k _ cmd.channel cmd.sender_pid hs1 hu1 ht1 hfn1 hget hp hpid

theorem step_tracked_inv (s : ServerState) (e : Event) (h : TrackedInv s.registry)
    (hok : join_sender_nonzero s e) : TrackedInv (step s e).registry := by
  refine ⟨step_rooms_shape s e h.1, step_unique_names s e h.2.1, ?_⟩
  cases e with
  | command cmd now =>
    rw [step_command]
    unfold dispatch
    cases hc : cmd.command with
    | CMD_REGISTER => exact handle_register_tracked s cmd now h
    | CMD_JOIN => exact handle_join_tracked s cmd h (hok hc)
    | CMD_MSG => simp only [handle_msg_registry]; exact h.2.2
    | CMD_DM => simp only [handle_dm_registry]; exact h.2.2
    | CMD_WHO => simp only [handle_who_registry]; exact h.2.2
    | CMD_LEAVE => exact handle_leave_tracked s cmd h
    | CMD_QUIT => exact remove_client_tracked s _ h
  | sweep now =>
    rw [step_sweep]
    have hall : TrackedInv (monitor_clients s now).registry := by
      refine monitor_preserves TrackedInv ?_ s now h
      intro s1 pid _ h1
      exact ⟨remove_client_rooms_ind RoomsShape
          (fun rooms ch pid hr => rooms_depart_shape rooms ch pid hr) s1 pid h1.1,
        remove_client_rooms_ind UniqueNames
          (fun rooms ch pid hr => rooms_depart_unique rooms ch pid hr) s1 pid h1.2.1,
        remove_client_tracked s1 pid h1⟩
    exact hall.2.2

theorem init_rooms_eq :
    init_server_state.registry.rooms =
      [{ zero_room with channel_name := "#general" }, zero_room, zero_room, zero_room,
        zero_room] := by
  decide

theorem init_unique_names : UniqueNames init_server_state.registry.rooms := by
  have key : ∀ (k : Nat) (x : RoomEntry),
      init_server_state.registry.rooms[k]? = some x → x.channel_name ≠ "" → k = 0 := by
    intro k x hx hxn
    rw [init_rooms_eq] at hx
    match k, hx with
    | 0, _ => rfl
    | 1, hx | 2, hx | 3, hx | 4, hx =>
      simp at hx
      exact absurd (by rw [← hx]; rfl) hxn
    | k + 5, hx => simp at hx
  intro i j a b ha hb hne heq
  rw [key i a ha hne, key j b hb (heq ▸ hne)]

theorem init_tracked_inv : TrackedInv init_server_state.registry := by
  refine ⟨init_rooms_shape, init_unique_names, ?_⟩
  unfold MembersTracked
  decide

/-- C5, as amended. In every state reachable from initialisation by handler calls and
monitor sweeps in which every JOIN carries a channel name of at most 31 bytes and no JOIN
carries the handle 0, no copy has run past a field and the member list of every named room
contains no handle twice and only handles of occupied client entries. -/
theorem members_valid_reachable (events : List Event)
    (h : trace_ok (fits_and join_sender_nonzero) init_server_state events) :
    (run init_server_state events).registry.overflowed = false ∧
      MembersValid (run init_server_state events).registry := by
  refine ⟨run_init_overflowed events (trace_ok_fits_and _ events _ h).1, ?_⟩
  have hinv := run_preserves TrackedInv join_sender_nonzero step_tracked_inv events
    init_server_state init_tracked_inv (trace_ok_fits_and _ events _ h).2
  intro room hroom hn
  obtain ⟨hnd, hw⟩ := hinv.2.2 room hroom hn
  refine ⟨hnd, fun m hm => ?_⟩
  obtain ⟨c, hc, hc1, hc2, _⟩ := hw m hm
  exact ⟨c, hc, hc2, hc1⟩

/-- The amended C5 on the sample trace. -/
theorem members_valid_reachable_witness :
    trace_ok (fits_and join_sender_nonzero) init_server_state sample_trace ∧
      (run init_server_state sample_trace).registry.overflowed = false ∧
      MembersValid (run init_server_state sample_trace).registry :=
  ⟨by decide, members_valid_reachable sample_trace (by decide)⟩

/-- C5 fails as stated: a JOIN carrying handle 0 puts 0 into the member list of
`#general`, and no occupied client entry has that handle. -/
theorem join_zero_breaks_members :
    ¬ MembersValid (run init_server_state
      [ .command (sample_cmd .CMD_JOIN 0 "#general") 0 ]).registry := by
  decide

/-! ## Current channels are backed by rooms -/

theorem nodup_length_lt (l pids : List Int) (pid : Int) (hnd : l.Nodup)
    (hsub : ∀ m ∈ l, m ∈ pids) (hp : pid ∈ pids) (hnot : pid ∉ l) :
    l.length < pids.length := by
  have hsub' : l ⊆ pids.erase pid := fun m hm =>
    (List.mem_erase_of_ne (ne_of_mem_of_not_mem hm hnot)).mpr (hsub m hm)
  have h1 := (hnd.subperm hsub').length_le
  rw [List.length_erase_of_mem hp] at h1
  have h2 : 0 < pids.length := List.length_pos_of_mem hp
  omega

theorem rooms_depart_keeps (rooms : List RoomEntry) (ch : String) (pid : Int)
    (hs : RoomsShape rooms) (R : RoomEntry) (hR : R ∈ rooms) (m : Int)
    (hm : m ∈ R.member_list) (hne : m ≠ pid) :
    ∃ R' ∈ rooms_depart rooms ch pid, R'.channel_name = R.channel_name ∧
      m ∈ R'.member_list := by
  obtain ⟨j, hj⟩ := List.mem_iff_getElem?.mp hR
  cases hf : first_index (fun room : RoomEntry => room.channel_name = ch) rooms with
  | none =>
    rw [rooms_depart_of_none _ _ _ hf]
    exact ⟨R, hR, rfl, hm⟩
  | some idx =>
    obtain ⟨⟨a, ha, _⟩, _⟩ := first_index_some _ _ _ hf
    rw [rooms_depart_of_some _ _ _ _ _ ha hf]
    by_cases hji : j = idx
    · rw [hji, ha] at hj
      have haR : a = R := Option.some.inj hj
      rw [haR]
      have hlt : idx < rooms.length := (List.getElem?_eq_some.mp ha).1
      have hlist := room_after_remove_member_list R pid (shape_count_le rooms hs R hR)
      have hin : m ∈ (room_after_remove R pid).member_list := by
        rw [hlist]; exact (List.mem_erase_of_ne hne).mpr hm
      refine ⟨room_after_remove R pid,
        List.mem_iff_getElem?.mpr ⟨idx, List.getElem?_set_self hlt⟩, ?_, hin⟩
      rw [room_after_remove_name]
      split_ifs with hc
      · exfalso
        rw [room_after_remove_of_cleared _ _ hc] at hin
        simp [zero_room, RoomEntry.member_list] at hin
      · rfl
    · refine ⟨R, List.mem_iff_getElem?.mpr ⟨j, ?_⟩, rfl, hm⟩
      rw [List.getElem?_set_ne (fun h => hji h.symm)]
      exact hj

theorem rooms_add_keeps (rooms : List RoomEntry) (n : Nat) (pid : Int)
    (hs : RoomsShape rooms) (R : RoomEntry) (hR : R ∈ rooms) (m : Int)
    (hm : m ∈ R.member_list) :
    ∃ R' ∈ rooms_add rooms n pid, R'.channel_name = R.channel_name ∧
      m ∈ R'.member_list := by
  obtain ⟨j, hj⟩ := List.mem_iff_getElem?.mp hR
  unfold rooms_add
  by_cases hjn : j = n
  · have hlt : n < rooms.length := hjn ▸ (List.getElem?_eq_some.mp hj).1
    rw [hjn] at hj
    rw [getD_of_getElem? _ _ _ hj]
    refine ⟨room_add R pid, List.mem_iff_getElem?.mpr ⟨n, List.getElem?_set_self hlt⟩,
      room_add_name _ _, ?_⟩
    rw [room_add_member_list _ _ (hs R hR).1]
    split_ifs
    · exact hm
    · exact List.mem_append_left _ hm
  · refine ⟨R, List.mem_iff_getElem?.mpr ⟨j, ?_⟩, rfl, hm⟩
    rw [List.getElem?_set_ne (fun h => hjn h.symm)]
    exact hj

theorem rooms_create_keeps (rooms : List RoomEntry) (n : Nat) (ch : String) (a : RoomEntry)
    (ha : rooms[n]? = some a) (han : a.channel_name = "") (R : RoomEntry) (hR : R ∈ rooms)
    (hRn : R.channel_name ≠ "") : R ∈ rooms_create rooms n ch := by
  obtain ⟨j, hj⟩ := List.mem_iff_getElem?.mp hR
  unfold rooms_create
  refine List.mem_iff_getElem?.mpr ⟨j, ?_⟩
  have hjn : n ≠ j := by
    intro h
    rw [← h, ha] at hj
    exact hRn ((Option.some.inj hj) ▸ han)
  rw [List.getElem?_set_ne hjn]
  exact hj

/-- Overwriting slot `k` by an entry that is unoccupied or in no channel, after the
handle of slot `k` has left room `ch`. -/
theorem depart_then_set_backed (clients : List ClientEntry) (rooms : List RoomEntry)
    (ch : String) (hs : RoomsShape rooms) (hup : UniquePids clients)
    (hb : ChannelsBacked clients rooms) (k : Nat) (c e : ClientEntry)
    (hc : clients[k]? = some c) (he : e.pid = 0 ∨ e.current_channel = "") :
    ChannelsBacked (clients.set k e) (rooms_depart rooms ch c.pid) ∧
      ChannelsBacked (clients.set k e) rooms := by
  have key : ∀ x ∈ clients.set k e, x.pid ≠ 0 → x.current_channel ≠ "" →
      x ∈ clients ∧ x.pid ≠ c.pid := by
    intro x hx hx0 hxc
    obtain ⟨i, hi⟩ := List.mem_iff_getElem?.mp hx
    rcases getElem?_set_cases _ _ _ _ _ hi with ⟨_, h2⟩ | ⟨h1, h2⟩
    · rcases he with he | he
      · exact absurd (h2 ▸ he) hx0
      · exact absurd (h2 ▸ he) hxc
    · refine ⟨List.mem_iff_getElem?.mpr ⟨i, h2⟩, ?_⟩
      intro heq
      exact h1 (hup i k x c h2 hc hx0 heq)
  constructor
  · intro x hx hx0 hxc
    obtain ⟨hxm, hxp⟩ := key x hx hx0 hxc
    obtain ⟨R, hR, hRn, hRm⟩ := hb x hxm hx0 hxc
    obtain ⟨R', hR', hRn', hRm'⟩ := rooms_depart_keeps rooms ch c.pid hs R hR x.pid hRm hxp
    exact ⟨R', hR', hRn'.trans hRn, hRm'⟩
  · intro x hx hx0 hxc
    exact hb x (key x hx hx0 hxc).1 hx0 hxc

/-- The JOIN step proper keeps every current channel backed. -/
theorem join_backed (clients : List ClientEntry) (rooms1 : List RoomEntry) (n k : Nat)
    (c : ClientEntry) (ch : String) (pid : Int) (hlen : clients.length = MAX_CLIENTS)
    (hs : RoomsShape rooms1) (hup : UniquePids clients)
    (ht : MembersTracked clients rooms1) (hb : ChannelsBacked clients rooms1)
    (hfn : FirstNamed rooms1 ch n) (hc : clients[k]? = some c) (hp : c.pid = pid) :
    ChannelsBacked (clients.set k { c with current_channel := ch })
      (rooms_add
        (if c.current_channel ≠ "" ∧ c.current_channel ≠ ch then
          rooms_depart rooms1 c.current_channel pid
        else rooms1) n pid) := by
  subst hp
  have hmid : ∃ rooms2 : List RoomEntry,
      (if c.current_channel ≠ "" ∧ c.current_channel ≠ ch then
          rooms_depart rooms1 c.current_channel c.pid else rooms1) = rooms2 ∧
      RoomsShape rooms2 ∧ MembersTracked clients rooms2 ∧ rooms2[n]? = rooms1[n]? ∧
      (∀ R ∈ rooms1, ∀ m ∈ R.member_list, m ≠ c.pid →
        ∃ R' ∈ rooms2, R'.channel_name = R.channel_name ∧ m ∈ R'.member_list) := by
    obtain ⟨⟨a, ha, hpa⟩, _⟩ := hfn
    split_ifs with hcond
    · exact ⟨_, rfl, rooms_depart_shape _ _ _ hs, rooms_depart_tracked _ _ _ _ hs ht,
        rooms_depart_getElem?_other _ _ _ _ _ a ha hpa hcond.2,
        fun R hR m hm hne => rooms_depart_keeps rooms1 _ _ hs R hR m hm hne⟩
    · exact ⟨_, rfl, hs, ht, rfl, fun R hR m hm _ => ⟨R, hR, rfl, hm⟩⟩
  obtain ⟨rooms2, hrw, hs2, ht2, hn2, hkeep⟩ := hmid
  rw [hrw]
  obtain ⟨⟨a, ha, hpa⟩, _⟩ := hfn
  rw [← hn2] at ha
  have hnlt : n < rooms2.length := (List.getElem?_eq_some.mp ha).1
  have hamem : a ∈ rooms2 := List.mem_iff_getElem?.mpr ⟨n, ha⟩
  intro x hx hx0 hxc
  obtain ⟨i, hi⟩ := List.mem_iff_getElem?.mp hx
  rcases getElem?_set_cases _ _ _ _ _ hi with ⟨_, h2⟩ | ⟨h1, h2⟩
  · -- the joining client
    rw [h2] at hx0 hxc ⊢
    have hchne : ch ≠ "" := hxc
    refine ⟨room_add a c.pid, ?_, by rw [room_add_name]; exact hpa, ?_⟩
    · unfold rooms_add
      rw [getD_of_getElem? _ _ _ ha]
      exact List.mem_iff_getElem?.mpr ⟨n, List.getElem?_set_self hnlt⟩
    · show c.pid ∈ (room_add a c.pid).member_list
      rw [room_add_member_list _ _ (hs2 a hamem).1]
      split_ifs with hfull
      · by_cases hin : c.pid ∈ a.member_list
        · exact hin
        · exfalso
          have hnd := (ht2 a hamem (by rw [hpa]; exact hchne)).1
          have hlt := nodup_length_lt a.member_list (clients.map (·.pid)) c.pid hnd
            (fun m hm => by
              obtain ⟨y, hy, hy1, _, _⟩ :=
                (ht2 a hamem (by rw [hpa]; exact hchne)).2 m hm
              exact List.mem_map.mpr ⟨y, hy, hy1⟩)
            (List.mem_map.mpr ⟨c, List.mem_iff_getElem?.mpr ⟨k, hc⟩, rfl⟩) hin
          have hlen2 : a.member_list.length = a.member_count := by
            simp only [RoomEntry.member_list, List.length_take]
            have := (hs2 a hamem).1
            have := (hs2 a hamem).2
            omega
          rw [List.length_map, hlen, hlen2] at hlt
          rcases hfull with h | h
          · exact hin h
          · exact h hlt
      · exact List.mem_append_right _ (List.mem_singleton.mpr rfl)
  · -- any other client
    have hxm : x ∈ clients := List.mem_iff_getElem?.mpr ⟨i, h2⟩
    have hxp : x.pid ≠ c.pid := fun heq => h1 (hup i k x c h2 hc hx0 heq)
    obtain ⟨R, hR, hRn, hRm⟩ := hb x hxm hx0 hxc
    obtain ⟨R', hR', hRn', hRm'⟩ := hkeep R hR x.pid hRm hxp
    obtain ⟨R'', hR'', hRn'', hRm''⟩ := rooms_add_keeps rooms2 n c.pid hs2 R' hR' x.pid hRm'
    exact ⟨R'', hR'', hRn''.trans (hRn'.trans hRn), hRm''⟩

theorem step_clients_length (s : ServerState) (e : Event) :
    (step s e).registry.clients.length = s.registry.clients.length := by
  have hrem : ∀ (s : ServerState) (pid : Int),
      (remove_client s pid).registry.clients.length = s.registry.clients.length := by
    intro s pid
    cases hk : find_client_index s.registry pid with
    | none => rw [remove_client_registry, hk]
    | some k => rw [remove_client_clients _ _ _ hk, List.length_set]
  cases e with
  | command cmd now =>
    rw [step_command]
    unfold dispatch
    cases cmd.command with
    | CMD_REGISTER =>
      simp only [handle_register_registry]
      cases find_client_index s.registry 0 with
      | none => rfl
      | some k => simp only [List.length_set]
    | CMD_JOIN =>
      simp only
      cases hk : find_client_index s.registry cmd.sender_pid with
      | none => rw [handle_join_registry, hk]
      | some k =>
        cases hj : join_find_or_create s.registry cmd.channel with
        | none => rw [handle_join_registry, hk]; simp only [hj]
        | some p =>
          obtain ⟨r1, n⟩ := p
          rw [handle_join_clients _ _ _ hk _ _ hj, List.length_set]
    | CMD_MSG => simp only [handle_msg_registry]
    | CMD_DM => simp only [handle_dm_registry]
    | CMD_WHO => simp only [handle_who_registry]
    | CMD_LEAVE =>
      simp only
      cases hk : find_client_index s.registry cmd.sender_pid with
      | none => rw [handle_leave_registry, hk]
      | some k =>
        by_cases hch : (client_at s.registry k).current_channel = ""
        · rw [handle_leave_registry, hk]; simp only [hch, if_true]
        · rw [handle_leave_clients _ _ _ hk hch, List.length_set]
    | CMD_QUIT => exact hrem s _
  | sweep now =>
    rw [step_sweep]
    exact monitor_preserves
      (fun r => r.clients.length = s.registry.clients.length)
      (fun s1 pid _ h1 => (hrem s1 pid).trans h1) s now rfl

theorem remove_client_backed (s : ServerState) (pid : Int) (h : BackedInv s.registry) :
    ChannelsBacked (remove_client s pid).registry.clients
      (remove_client s pid).registry.rooms := by
  obtain ⟨_, hup, ⟨hs, _, _⟩, hb⟩ := h
  cases hk : find_client_index s.registry pid with
  | none => rw [remove_client_registry, hk]; exact hb
  | some k =>
    obtain ⟨hget, hp, _⟩ := find_client_index_some _ _ _ hk
    rw [remove_client_clients _ _ _ hk, remove_client_rooms _ _ _ hk]
    have := depart_then_set_backed _ _ (client_at s.registry k).current_channel hs hup hb k _
      zero_client hget (Or.inl rfl)
    rw [hp] at this
    split_ifs
    · exact this.1
    · exact this.2

theorem remove_client_backed_inv (s : ServerState) (pid : Int) (h : BackedInv s.registry) :
    BackedInv (remove_client s pid).registry := by
  refine ⟨?_, remove_client_unique s pid h.2.1, ⟨?_, ?_, remove_client_tracked s pid h.2.2.1⟩,
    remove_client_backed s pid h⟩
  · cases hk : find_client_index s.registry pid with
    | none => rw [remove_client_registry, hk]; exact h.1
    | some k => rw [remove_client_clients _ _ _ hk, List.length_set]; exact h.1
  · exact remove_client_rooms_ind RoomsShape
      (fun rooms ch pid hr => rooms_depart_shape rooms ch pid hr) s pid h.2.2.1.1
  · exact remove_client_rooms_ind UniqueNames
      (fun rooms ch pid hr => rooms_depart_unique rooms ch pid hr) s pid h.2.2.1.2.1

theorem step_backed (s : ServerState) (e : Event) (h : BackedInv s.registry) :
    join_sender_nonzero s e →
    ChannelsBacked (step s e).registry.clients (step s e).registry.rooms := by
  intro hok
  obtain ⟨hlen, hup, ⟨hs, hu, ht⟩, hb⟩ := h
  cases e with
  | command cmd now =>
    rw [step_command]
    unfold dispatch
    cases hcm : cmd.command with
    | CMD_REGISTER =>
      simp only [handle_register_registry]
      cases hk : find_client_index s.registry 0 with
      | none => exact hb
      | some k =>
        obtain ⟨hget, _, _⟩ := find_client_index_some _ _ _ hk
        exact (depart_then_set_backed _ _ "" hs hup hb k _ _ hget (Or.inr rfl)).2
    | CMD_JOIN =>
      simp only
      cases hk : find_client_index s.registry cmd.sender_pid with
      | none => rw [handle_join_registry, hk]; exact hb
      | some k =>
        cases hj : join_find_or_create s.registry cmd.channel with
        | none => rw [handle_join_registry, hk]; simp only [hj]; exact hb
        | some p =>
          obtain ⟨r1, n⟩ := p
          obtain ⟨hget, hp, _⟩ := find_client_index_some _ _ _ hk
          obtain ⟨hs1, _, ht1, hfn1⟩ := join_find_or_create_inv _ _ _ _ hj hs hu ht
          have hb1 : ChannelsBacked s.registry.clients r1.rooms := by
            rcases join_find_or_create_some _ _ _ _ hj with ⟨_, h2⟩ | ⟨_, h2, _, h4⟩
            · rw [h2]; exact hb
            · rw [h4]
              obtain ⟨hga, hna, _⟩ := find_room_index_some _ _ _ h2
              intro x hx hx0 hxc
              obtain ⟨R, hR, hRn, hRm⟩ := hb x hx hx0 hxc
              exact ⟨R, rooms_create_keeps _ _ _ _ hga hna R hR (hRn ▸ hxc), hRn, hRm⟩
          rw [handle_join_clients _ _ _ hk _ _ hj, handle_join_rooms _ _ _ hk _ _ hj]
          exact join_backed _ _ n k _ cmd.channel cmd.sender_pid hlen hs1 hup ht1 hb1 hfn1
            hget hp
    | CMD_MSG => simp only [handle_msg_registry]; exact hb
    | CMD_DM => simp only [handle_dm_registry]; exact hb
    | CMD_WHO => simp only [handle_who_registry]; exact hb
    | CMD_LEAVE =>
      simp only
      cases hk : find_client_index s.registry cmd.sender_pid with
      | none => rw [handle_leave_registry, hk]; exact hb
      | some k =>
        by_cases hch : (client_at s.registry k).current_channel = ""
        · rw [handle_leave_registry, hk]; simp only [hch, if_true]; exact hb
        · obtain ⟨hget, hp, _⟩ := find_client_index_some _ _ _ hk
          rw [handle_leave_clients _ _ _ hk hch, handle_leave_rooms _ _ _ hk hch]
          have := depart_then_set_backed _ _ (client_at s.registry k).current_channel hs hup
            hb k _ { client_at s.registry k with current_channel := "" } hget (Or.inr rfl)
          rw [hp] at this
          exact this.1
    | CMD_QUIT => exact remove_client_backed s _ ⟨hlen, hup, ⟨hs, hu, ht⟩, hb⟩
  | sweep now =>
    rw [step_sweep]
    exact (monitor_preserves BackedInv (fun s1 pid _ h1 => remove_client_backed_inv s1 pid h1)
      s now ⟨hlen, hup, ⟨hs, hu, ht⟩, hb⟩).2.2.2

theorem step_backed_inv (s : ServerState) (e : Event) (h : BackedInv s.registry)
    (hok : fresh_and_nonzero s e) : BackedInv (step s e).registry :=
  ⟨(step_clients_length s e).trans h.1, step_unique_handles s e h.2.1 hok.1,
    step_tracked_inv s e h.2.2.1 hok.2, step_backed s e h hok.2⟩

theorem init_backed_inv : BackedInv init_server_state.registry := by
  refine ⟨by decide, init_unique_handles, init_tracked_inv, ?_⟩
  unfold ChannelsBacked
  decide

/-- C2, as amended. In every state reachable from initialisation by handler calls and
monitor sweeps in which every JOIN carries a channel name of at most 31 bytes, no REGISTER
carries a handle that is registered at that moment and no JOIN carries the handle 0, no
copy has run past a field and every occupied client entry whose current channel is a
non-empty name `C` has a room named `C` whose member list contains the client's handle. -/
theorem channels_backed_reachable (events : List Event)
    (h : trace_ok (fits_and fresh_and_nonzero) init_server_state events) :
    (run init_server_state events).registry.overflowed = false ∧
      CurrentChannelsBacked (run init_server_state events).registry :=
  ⟨run_init_overflowed events (trace_ok_fits_and _ events _ h).1,
    (run_preserves BackedInv fresh_and_nonzero step_backed_inv events init_server_state
      init_backed_inv (trace_ok_fits_and _ events _ h).2).2.2.2⟩

/-- The amended C2 on the sample trace. -/
theorem channels_backed_reachable_witness :
    trace_ok (fits_and fresh_and_nonzero) init_server_state sample_trace ∧
      (run init_server_state sample_trace).registry.overflowed = false ∧
      CurrentChannelsBacked (run init_server_state sample_trace).registry :=
  ⟨by decide, channels_backed_reachable sample_trace (by decide)⟩

/-- C2 fails as stated: handle 5 registers twice, the first entry quits, the second joins
`#a`, 5 registers and joins `#a` once more through the freed first slot and quits; the
second entry still names `#a`, which no longer exists. -/
theorem duplicate_register_dangling_channel :
    ¬ CurrentChannelsBacked (run init_server_state
      [ .command (sample_cmd .CMD_REGISTER 5 "") 0,
        .command (sample_cmd .CMD_REGISTER 5 "") 0,
        .command (sample_cmd .CMD_QUIT 5 "") 0,
        .command (sample_cmd .CMD_JOIN 5 "#a") 0,
        .command (sample_cmd .CMD_REGISTER 5 "") 0,
        .command (sample_cmd .CMD_JOIN 5 "#a") 0,
        .command (sample_cmd .CMD_QUIT 5 "") 0 ]).registry := by
  decide

/-! ## JOIN followed by LEAVE -/

theorem first_index_append_singleton (l : List Int) (a : Int) (h : a ∉ l) :
    first_index (fun m : Int => m = a) (l ++ [a]) = some l.length := by
  induction l with
  | nil => simp [first_index]
  | cons b bs ih =>
    have hb : ¬ b = a := fun he => h (he ▸ List.mem_cons_self _ _)
    have hbs : a ∉ bs := fun hm => h (List.mem_cons_of_mem _ hm)
    have ih' := ih hbs
    show (if b = a then some 0 else
      (first_index (fun m : Int => m = a) (bs ++ [a])).map (· + 1)) = _
    rw [if_neg hb, ih']
    rfl

theorem room_restored_member_list (a : RoomEntry) (pid : Int) :
    (room_restored a pid).member_list = a.member_list := by
  unfold room_restored
  split_ifs with h
  · simp [zero_room, RoomEntry.member_list, h.1]
  · simp only [RoomEntry.member_list]
    by_cases hlt : a.member_count < a.members.length
    · apply List.ext_getElem?
      intro i
      simp only [List.getElem?_take]
      split_ifs with hi
      · rw [List.getElem?_set_ne (by omega)]
      · rfl
    · rw [List.set_eq_of_length_le (by omega)]

theorem room_add_then_remove (a : RoomEntry) (pid : Int) (hnot : pid ∉ a.member_list)
    (hcount : a.member_count < MAX_CLIENTS) (hlen : a.members.length = MAX_CLIENTS) :
    room_after_remove (room_add a pid) pid = room_restored a pid ∧
      (room_cleared (room_add a pid) pid ↔
        (a.member_count = 0 ∧ a.channel_name ≠ "#general")) := by
  have hml := room_add_member_list a pid hlen
  rw [if_neg (by tauto)] at hml
  have hnew := room_add_of_new a pid hnot hcount
  have hlen2 : a.member_list.length = a.member_count := by
    simp only [RoomEntry.member_list, List.length_take]; omega
  have hfi : first_index (fun m : Int => m = pid) (room_add a pid).member_list =
      some a.member_count := by
    rw [hml, first_index_append_singleton _ _ hnot, hlen2]
  have hin : pid ∈ (room_add a pid).member_list := by rw [hml]; simp
  have hcl : room_cleared (room_add a pid) pid ↔
      (a.member_count = 0 ∧ a.channel_name ≠ "#general") := by
    unfold room_cleared
    rw [room_add_name]
    constructor
    · rintro ⟨_, h2, h3⟩
      rw [hnew] at h2
      exact ⟨by simpa using h2, h3⟩
    · rintro ⟨h2, h3⟩
      refine ⟨hin, ?_, h3⟩
      rw [hnew]; simp [h2]
  refine ⟨?_, hcl⟩
  unfold room_restored
  by_cases hc : a.member_count = 0 ∧ a.channel_name ≠ "#general"
  · rw [if_pos hc]
    exact room_after_remove_of_cleared _ _ (hcl.mpr hc)
  · rw [if_neg hc]
    obtain ⟨i, hi, heq⟩ := room_after_remove_of_mem _ _ hin (fun h => hc (hcl.mp h))
    rw [hfi] at hi
    have hia : a.member_count = i := Option.some.inj hi
    rw [heq, hnew, ← hia]
    simp [shift_members]

/-- Room table after adding a non-member to room `n` and letting it leave again. -/
theorem rooms_add_then_depart (rooms2 : List RoomEntry) (n : Nat) (a : RoomEntry) (pid : Int)
    (ch : String) (ha : rooms2[n]? = some a) (hfn : FirstNamed rooms2 ch n)
    (hnot : pid ∉ a.member_list) (hcount : a.member_count < MAX_CLIENTS)
    (hlen : a.members.length = MAX_CLIENTS) :
    rooms_depart (rooms_add rooms2 n pid) ch pid = rooms2.set n (room_restored a pid) := by
  have hnlt : n < rooms2.length := (List.getElem?_eq_some.mp ha).1
  have hfn' := rooms_add_first_named rooms2 ch pid n hfn
  have hget : (rooms_add rooms2 n pid)[n]? = some (room_add a pid) := by
    unfold rooms_add
    rw [getD_of_getElem? _ _ _ ha]
    exact List.getElem?_set_self hnlt
  rw [rooms_depart_of_some _ _ _ n _ hget ((first_named_iff _ _ _).mpr hfn'),
    (room_add_then_remove a pid hnot hcount hlen).1]
  unfold rooms_add
  rw [List.set_set]

theorem handle_join_room_count (s : ServerState) (cmd : CommandMessage) (k : Nat)
    (hk : find_client_index s.registry cmd.sender_pid = some k) (r1 : GlobalRegistry) (n : Nat)
    (hj : join_find_or_create s.registry cmd.channel = some (r1, n)) :
    (handle_join s cmd).registry.room_count =
      r1.room_count -
        (if join_clears_old r1 (client_at s.registry k).current_channel cmd.channel
            cmd.sender_pid then 1 else 0) := by
  rw [handle_join_registry, hk]
  simp only [hj]
  by_cases hcond : (client_at s.registry k).current_channel ≠ "" ∧
      (client_at s.registry k).current_channel ≠ cmd.channel
  · rw [if_pos hcond]
    show (depart r1 _ _).room_count = _
    rw [depart_room_count]
    cases hf : find_room_index r1 (client_at s.registry k).current_channel with
    | none =>
      have hno : ¬ join_clears_old r1 (client_at s.registry k).current_channel cmd.channel
          cmd.sender_pid := by
        unfold join_clears_old
        rw [hf]
        exact fun h => h.2.2
      rw [if_neg hno]
    | some o =>
      simp only
      by_cases hc : room_cleared (room_at r1 o) cmd.sender_pid
      · have hyes : join_clears_old r1 (client_at s.registry k).current_channel cmd.channel
            cmd.sender_pid := by
          unfold join_clears_old
          rw [hf]
          exact ⟨hcond.1, hcond.2, hc⟩
        rw [if_pos hc, if_pos hyes]
      · have hno : ¬ join_clears_old r1 (client_at s.registry k).current_channel cmd.channel
            cmd.sender_pid := by
          unfold join_clears_old
          rw [hf]
          exact fun h => hc h.2.2
        rw [if_neg hc, if_neg hno]
  · have hno : ¬ join_clears_old r1 (client_at s.registry k).current_channel cmd.channel
        cmd.sender_pid := fun h => hcond ⟨h.1, h.2.1⟩
    rw [if_neg hcond, if_neg hno]
    show r1.room_count = _
    simp

theorem handle_leave_room_count (s : ServerState) (cmd : CommandMessage) (k : Nat)
    (hk : find_client_index s.registry cmd.sender_pid = some k)
    (hch : (client_at s.registry k).current_channel ≠ "") (n : Nat)
    (hn : find_room_index s.registry (client_at s.registry k).current_channel = some n) :
    (handle_leave s cmd).registry.room_count =
      s.registry.room_count -
        (if room_cleared (room_at s.registry n) cmd.sender_pid then 1 else 0) := by
  rw [handle_leave_registry, hk]
  simp only [hch, if_false]
  rw [depart_room_count, hn]

/-- A room created in an unnamed slot does not disturb the lookup of another name. -/
theorem create_keeps_lookup (r : GlobalRegistry) (n : Nat) (ch old : String)
    (hn : find_room_index r "" = some n) (hold : old ≠ "") (hne : old ≠ ch) :
    let r1 : GlobalRegistry :=
      { r with rooms := rooms_create r.rooms n ch, room_count := r.room_count + 1,
               overflowed := r.overflowed || strcpy_overruns ch MAX_CHANNEL }
    find_room_index r1 old = find_room_index r old ∧
      ∀ o, find_room_index r old = some o → room_at r1 o = room_at r o := by
  obtain ⟨hget, hname, _⟩ := find_room_index_some r "" n hn
  intro r1
  constructor
  · unfold find_room_index
    show first_index _ (rooms_create r.rooms n ch) = _
    unfold rooms_create
    apply first_index_set_of_iff _ _ _ _ _ hget
    constructor
    · intro h; exact absurd h.symm hne
    · intro h; exact absurd (hname ▸ h).symm hold
  · intro o ho
    obtain ⟨hgo, hno, _⟩ := find_room_index_some r old o ho
    have hon : n ≠ o := by
      intro h
      rw [h] at hname
      exact hold (hno ▸ hname)
    apply room_at_of_getElem?
    show (rooms_create r.rooms n ch)[o]? = _
    unfold rooms_create
    rw [List.getElem?_set_ne hon]
    exact hgo

/-- C6, as amended. In a registry with the array sizes of the C types, member counts within
`MAX_CLIENTS`, duplicate-free member lists made of existing handles, no empty non-default
room and an existing `#general`: when a client found in the table JOINs a non-empty channel
`ch` of at most 31 bytes (it fits the 32-byte name fields with its terminator) of which it
is not a member, the JOIN succeeds, and the client then LEAVEs, then its current channel is
empty; a room `ch` that existed before the JOIN is at the same slot with the same member
list; a room `ch` the JOIN created does not exist any more; `room_count` is the value
before the JOIN, less one when the JOIN emptied and cleared the client's previous room; and
no copy of the name ran past its field. -/
theorem join_then_leave (s : ServerState) (cmd leave : CommandMessage) (k : Nat)
    (hlen : s.registry.clients.length = MAX_CLIENTS)
    (hs : RoomsShape s.registry.rooms)
    (hv : MembersValid s.registry)
    (hne : NoEmptyRoom s.registry.rooms)
    (hdef : ∃ room ∈ s.registry.rooms, room.channel_name = "#general")
    (hk : find_client_index s.registry cmd.sender_pid = some k)
    (hl : leave.sender_pid = cmd.sender_pid)
    (hch : cmd.channel ≠ "")
    (hnot : ∀ room ∈ s.registry.rooms, room.channel_name = cmd.channel →
      cmd.sender_pid ∉ room.member_list)
    (hjoin : join_find_or_create s.registry cmd.channel ≠ none)
    (hfit : cmd.channel.length < MAX_CHANNEL) :
    (client_at (handle_leave (handle_join s cmd) leave).registry k).current_channel = "" ∧
    (∀ idx, find_room_index s.registry cmd.channel = some idx →
      find_room_index (handle_leave (handle_join s cmd) leave).registry cmd.channel =
          some idx ∧
        (room_at (handle_leave (handle_join s cmd) leave).registry idx).member_list =
          (room_at s.registry idx).member_list) ∧
    (find_room_index s.registry cmd.channel = none →
      find_room_index (handle_leave (handle_join s cmd) leave).registry cmd.channel = none) ∧
    (handle_leave (handle_join s cmd) leave).registry.room_count =
      s.registry.room_count -
        (if join_clears_old s.registry (client_at s.registry k).current_channel cmd.channel
            cmd.sender_pid then 1 else 0) ∧
    (handle_leave (handle_join s cmd) leave).registry.overflowed = s.registry.overflowed := by
  cases hj : join_find_or_create s.registry cmd.channel with
  | none => exact absurd hj hjoin
  | some p =>
  obtain ⟨r1, n⟩ := p
  obtain ⟨hgetk, hpk, hklt⟩ := find_client_index_some _ _ _ hk
  obtain ⟨hfn1, hty1⟩ := join_find_or_create_first_named _ _ _ _ hj (rooms_shape_typed _ hs)
  obtain ⟨⟨a, ha1, hpa⟩, _⟩ := id hfn1
  -- the room table before the handle is added
  have hmid : ∃ rooms2 : List RoomEntry,
      (if (client_at s.registry k).current_channel ≠ "" ∧
          (client_at s.registry k).current_channel ≠ cmd.channel then
        rooms_depart r1.rooms (client_at s.registry k).current_channel cmd.sender_pid
       else r1.rooms) = rooms2 ∧
      FirstNamed rooms2 cmd.channel n ∧ rooms2[n]? = some a ∧
      (∀ (j : Nat) (b : RoomEntry), rooms2[j]? = some b → b.channel_name = cmd.channel →
        ∃ b1, r1.rooms[j]? = some b1 ∧ b1.channel_name = cmd.channel) := by
    split_ifs with hcond
    · obtain ⟨h1, h2⟩ := rooms_depart_first_named r1.rooms cmd.channel _ cmd.sender_pid n hch
        hcond.2 hfn1
      refine ⟨_, rfl, h1, h2.trans ha1, ?_⟩
      intro j b hb hbn
      rcases rooms_depart_getElem? _ _ _ _ _ hb with h3 | ⟨y, hy, _, hby, _⟩
      · exact ⟨b, h3, hbn⟩
      · refine ⟨y, hy, ?_⟩
        rw [hby, room_after_remove_name] at hbn
        split_ifs at hbn
        · exact absurd hbn.symm hch
        · exact hbn
    · exact ⟨_, rfl, hfn1, ha1, fun j b hb hbn => ⟨b, hb, hbn⟩⟩
  obtain ⟨rooms2, hrw, hfn2, ha2, honly⟩ := hmid
  have hnlt : n < rooms2.length := (List.getElem?_eq_some.mp ha2).1
  -- what the JOIN found at slot `n`
  have hslot : (find_room_index s.registry cmd.channel = some n ∧ r1 = s.registry ∧
        a = room_at s.registry n) ∨
      (find_room_index s.registry cmd.channel = none ∧
        find_room_index s.registry "" = some n ∧
        r1 = { s.registry with rooms := rooms_create s.registry.rooms n cmd.channel,
                               room_count := s.registry.room_count + 1,
                               overflowed := s.registry.overflowed ||
                                 strcpy_overruns cmd.channel MAX_CHANNEL } ∧
        a.member_count = 0) := by
    rcases join_find_or_create_some _ _ _ _ hj with ⟨h1, h2⟩ | ⟨h1, h2, _, h4⟩
    · left
      refine ⟨h1, h2, ?_⟩
      rw [h2] at ha1
      exact (room_at_of_getElem? _ _ _ ha1).symm
    · right
      refine ⟨h1, h2, h4, ?_⟩
      rw [h4] at ha1
      have hlt := (find_room_index_some _ _ _ h2).2.2
      have : (rooms_create s.registry.rooms n cmd.channel)[n]? = some a := ha1
      unfold rooms_create at this
      rw [List.getElem?_set_self hlt] at this
      rw [← Option.some.inj this]
  have hamem1 : a ∈ r1.rooms := List.mem_iff_getElem?.mpr ⟨n, ha1⟩
  have halen : a.members.length = MAX_CLIENTS := hty1 a hamem1
  have hanot : cmd.sender_pid ∉ a.member_list := by
    rcases hslot with ⟨h1, _, h3⟩ | ⟨_, _, _, h4⟩
    · obtain ⟨hg, hnm, _⟩ := find_room_index_some _ _ _ h1
      rw [h3]
      exact hnot _ (List.mem_iff_getElem?.mpr ⟨n, hg⟩) hnm
    · simp [RoomEntry.member_list, h4]
  have hacount : a.member_count < MAX_CLIENTS := by
    rcases hslot with ⟨h1, _, h3⟩ | ⟨_, _, _, h4⟩
    · obtain ⟨hg, hnm, _⟩ := find_room_index_some _ _ _ h1
      have hmem : room_at s.registry n ∈ s.registry.rooms := List.mem_iff_getElem?.mpr ⟨n, hg⟩
      obtain ⟨hnd, hw⟩ := hv _ hmem (by rw [hnm]; exact hch)
      rw [← h3] at hnd hw hmem
      have hlt := nodup_length_lt a.member_list (s.registry.clients.map (·.pid))
        cmd.sender_pid hnd
        (fun m hm => by
          obtain ⟨y, hy, _, hy1⟩ := hw m hm
          exact List.mem_map.mpr ⟨y, hy, hy1⟩)
        (List.mem_map.mpr ⟨_, List.mem_iff_getElem?.mpr ⟨k, hgetk⟩, hpk⟩) hanot
      have hlen2 : a.member_list.length = a.member_count := by
        simp only [RoomEntry.member_list, List.length_take]
        have := (hs a hmem).2
        omega
      rw [List.length_map, hlen, hlen2] at hlt
      exact hlt
    · rw [h4]; decide
  -- the state after the JOIN
  have hclJ := handle_join_clients s cmd k hk r1 n hj
  have hroomsJ : (handle_join s cmd).registry.rooms = rooms_add rooms2 n cmd.sender_pid := by
    rw [handle_join_rooms s cmd k hk r1 n hj, hrw]
  have hkJ : find_client_index (handle_join s cmd).registry leave.sender_pid = some k := by
    rw [hl]
    unfold find_client_index
    rw [hclJ]
    exact (first_index_set_of_iff (fun c : ClientEntry => c.pid = cmd.sender_pid)
      s.registry.clients k { client_at s.registry k with current_channel := cmd.channel }
      (client_at s.registry k) hgetk Iff.rfl).trans hk
  have hcatJ : client_at (handle_join s cmd).registry k =
      { client_at s.registry k with current_channel := cmd.channel } := by
    apply client_at_of_getElem?
    rw [hclJ]
    exact List.getElem?_set_self hklt
  have hccJ : (client_at (handle_join s cmd).registry k).current_channel = cmd.channel := by
    rw [hcatJ]
  have hccJne : (client_at (handle_join s cmd).registry k).current_channel ≠ "" := by
    rw [hccJ]; exact hch
  have hfindJ : find_room_index (handle_join s cmd).registry cmd.channel = some n := by
    unfold find_room_index
    rw [hroomsJ]
    exact (first_named_iff _ _ _).mpr (rooms_add_first_named _ _ _ _ hfn2)
  have hratJ : room_at (handle_join s cmd).registry n = room_add a cmd.sender_pid := by
    apply room_at_of_getElem?
    rw [hroomsJ]
    unfold rooms_add
    rw [getD_of_getElem? _ _ _ ha2]
    exact List.getElem?_set_self hnlt
  -- the state after the LEAVE
  have hroomsL : (handle_leave (handle_join s cmd) leave).registry.rooms =
      rooms2.set n (room_restored a cmd.sender_pid) := by
    rw [handle_leave_rooms _ _ k hkJ hccJne, hccJ, hroomsJ, hl]
    exact rooms_add_then_depart rooms2 n a cmd.sender_pid cmd.channel ha2 hfn2 hanot hacount
      halen
  have hclL := handle_leave_clients (handle_join s cmd) leave k hkJ hccJne
  have hcountL := handle_leave_room_count (handle_join s cmd) leave k hkJ hccJne n
    (by rw [hccJ]; exact hfindJ)
  rw [hl, hratJ, handle_join_room_count s cmd k hk r1 n hj] at hcountL
  have hclear := (room_add_then_remove a cmd.sender_pid hanot hacount halen).2
  rw [hpa] at hclear
  have hgen : (find_room_index s.registry cmd.channel = none) → cmd.channel ≠ "#general" := by
    intro hnone hg
    obtain ⟨room, hroom, hrn⟩ := hdef
    exact (find_room_index_none _ _).mp hnone room hroom (hrn.trans hg.symm)
  refine ⟨?_, ?_, ?_, ?_, ?_⟩
  rotate_right
  · -- no overrun
    rw [handle_leave_overflowed, handle_join_overflowed s cmd hfit]
  · -- current channel
    have : client_at (handle_leave (handle_join s cmd) leave).registry k =
        { client_at (handle_join s cmd).registry k with current_channel := "" } := by
      apply client_at_of_getElem?
      rw [hclL]
      apply List.getElem?_set_self
      rw [hclJ, List.length_set]
      exact hklt
    rw [this]
  · -- a room that existed
    intro idx hidx
    rcases hslot with ⟨h1, _, h3⟩ | ⟨h1, _, _, _⟩
    · rw [h1] at hidx
      have hin : idx = n := (Option.some.inj hidx).symm
      subst hin
      obtain ⟨hg, hnm, _⟩ := find_room_index_some _ _ _ h1
      have hkeep : ¬ (a.member_count = 0 ∧ a.channel_name ≠ "#general") := by
        rintro ⟨h0, hg2⟩
        rw [h3] at h0 hg2
        exact hne _ (List.mem_iff_getElem?.mpr ⟨idx, hg⟩) (by rw [hnm]; exact hch) hg2 h0
      have hrest : room_restored a cmd.sender_pid =
          { a with members := a.members.set a.member_count cmd.sender_pid } := by
        unfold room_restored
        rw [if_neg hkeep]
      constructor
      · unfold find_room_index
        rw [hroomsL]
        apply (first_named_iff _ _ _).mpr
        refine ⟨⟨_, List.getElem?_set_self hnlt, ?_⟩, ?_⟩
        · rw [hrest]; exact hpa
        · intro j b hjn hb
          rw [List.getElem?_set_ne (by omega)] at hb
          exact hfn2.2 j b hjn hb
      · have : room_at (handle_leave (handle_join s cmd) leave).registry idx =
            room_restored a cmd.sender_pid := by
          apply room_at_of_getElem?
          rw [hroomsL]
          exact List.getElem?_set_self hnlt
        rw [this, room_restored_member_list, h3]
    · rw [h1] at hidx
      exact absurd hidx (by simp)
  · -- a room the JOIN created
    intro hnone
    rcases hslot with ⟨h1, _, _⟩ | ⟨_, h2, h4, h5⟩
    · rw [h1] at hnone
      exact absurd hnone (by simp)
    · have hrest : room_restored a cmd.sender_pid = zero_room := by
        unfold room_restored
        rw [if_pos ⟨h5, by rw [hpa]; exact hgen hnone⟩]
      apply (find_room_index_none _ _).mpr
      intro room hroom
      rw [hroomsL, hrest] at hroom
      obtain ⟨j, hjr⟩ := List.mem_iff_getElem?.mp hroom
      rcases getElem?_set_cases _ _ _ _ _ hjr with ⟨_, h7⟩ | ⟨h6, h7⟩
      · rw [h7]
        exact fun h => hch h.symm
      · intro hname
        obtain ⟨b1, hb1, hb1n⟩ := honly j room h7 hname
        rw [h4] at hb1
        have hb1' : (rooms_create s.registry.rooms n cmd.channel)[j]? = some b1 := hb1
        unfold rooms_create at hb1'
        rw [List.getElem?_set_ne (fun h => h6 h.symm)] at hb1'
        exact (find_room_index_none _ _).mp hnone b1
          (List.mem_iff_getElem?.mpr ⟨j, hb1'⟩) hb1n
  · -- room_count
    rw [hcountL]
    rcases hslot with ⟨h1, h2, h3⟩ | ⟨h1, h2, h4, h5⟩
    · obtain ⟨hg, hnm, _⟩ := find_room_index_some _ _ _ h1
      have hkeep : ¬ room_cleared (room_add a cmd.sender_pid) cmd.sender_pid := by
        intro hc
        obtain ⟨h0, hg2⟩ := hclear.mp hc
        rw [h3] at h0
        exact hne _ (List.mem_iff_getElem?.mpr ⟨n, hg⟩) (by rw [hnm]; exact hch)
          (by rw [hnm]; exact hg2) h0
      rw [if_neg hkeep, h2]
      simp
    · have hcl : room_cleared (room_add a cmd.sender_pid) cmd.sender_pid :=
        hclear.mpr ⟨h5, hgen h1⟩
      rw [if_pos hcl]
      have hsame : join_clears_old r1 (client_at s.registry k).current_channel cmd.channel
            cmd.sender_pid ↔
          join_clears_old s.registry (client_at s.registry k).current_channel cmd.channel
            cmd.sender_pid := by
        unfold join_clears_old
        constructor
        · rintro ⟨c1, c2, c3⟩
          obtain ⟨e1, e2⟩ := create_keeps_lookup s.registry n cmd.channel _ h2 c1 c2
          refine ⟨c1, c2, ?_⟩
          rw [h4, e1] at c3
          cases hf : find_room_index s.registry (client_at s.registry k).current_channel with
          | none => rw [hf] at c3; exact c3
          | some o =>
            rw [hf] at c3
            simp only at c3 ⊢
            rw [← e2 o hf]
            exact c3
        · rintro ⟨c1, c2, c3⟩
          obtain ⟨e1, e2⟩ := create_keeps_lookup s.registry n cmd.channel _ h2 c1 c2
          refine ⟨c1, c2, ?_⟩
          rw [h4, e1]
          cases hf : find_room_index s.registry (client_at s.registry k).current_channel with
          | none => rw [hf] at c3; exact c3
          | some o =>
            rw [hf] at c3
            simp only at c3 ⊢
            rw [e2 o hf]
            exact c3
      have hrc : r1.room_count = s.registry.room_count + 1 := by rw [h4]
      rw [hrc]
      by_cases hold : join_clears_old s.registry (client_at s.registry k).current_channel
          cmd.channel cmd.sender_pid
      · rw [if_pos (hsame.mpr hold), if_pos hold]; omega
      · rw [if_neg (fun h => hold (hsame.mp h)), if_neg hold]; omega

/-- C3 on the room `#a` of the sample state, reached with names that fit: it is named, not
the default room, and has one member. -/
theorem no_empty_room_reachable_witness :
    trace_ok channel_fits init_server_state sample_events_one ∧
      room_at sample_state_one.registry 1 ∈ sample_state_one.registry.rooms ∧
      (room_at sample_state_one.registry 1).channel_name = "#a" ∧
      (room_at sample_state_one.registry 1).member_count ≠ 0 :=
  ⟨by decide, by decide, by decide,
    (no_empty_room_reachable.1 sample_events_one (by decide)).2
      (room_at sample_state_one.registry 1) (by decide) (by decide) (by decide)⟩

/-- The amended C6 for handle 5 joining and leaving `#a`, where handle 6 already is. -/
theorem join_then_leave_witness :
    (client_at (handle_leave (handle_join sample_state_one (sample_cmd .CMD_JOIN 5 "#a"))
      (sample_cmd .CMD_LEAVE 5 "")).registry 0).current_channel = "" ∧
    (∀ idx, find_room_index sample_state_one.registry "#a" = some idx →
      find_room_index (handle_leave (handle_join sample_state_one
          (sample_cmd .CMD_JOIN 5 "#a")) (sample_cmd .CMD_LEAVE 5 "")).registry "#a" =
          some idx ∧
        (room_at (handle_leave (handle_join sample_state_one
          (sample_cmd .CMD_JOIN 5 "#a")) (sample_cmd .CMD_LEAVE 5 "")).registry
            idx).member_list =
          (room_at sample_state_one.registry idx).member_list) ∧
    (find_room_index sample_state_one.registry "#a" = none →
      find_room_index (handle_leave (handle_join sample_state_one
        (sample_cmd .CMD_JOIN 5 "#a")) (sample_cmd .CMD_LEAVE 5 "")).registry "#a" = none) ∧
    (handle_leave (handle_join sample_state_one (sample_cmd .CMD_JOIN 5 "#a"))
      (sample_cmd .CMD_LEAVE 5 "")).registry.room_count =
      sample_state_one.registry.room_count -
        (if join_clears_old sample_state_one.registry
            (client_at sample_state_one.registry 0).current_channel "#a" 5 then 1 else 0) ∧
    (handle_leave (handle_join sample_state_one (sample_cmd .CMD_JOIN 5 "#a"))
      (sample_cmd .CMD_LEAVE 5 "")).registry.overflowed =
      sample_state_one.registry.overflowed :=
  join_then_leave sample_state_one (sample_cmd .CMD_JOIN 5 "#a") (sample_cmd .CMD_LEAVE 5 "") 0
    (by decide) (by decide) (by decide) (by decide) (by decide) (by decide) (by decide)
    (by decide) (by decide) (by decide) (by decide)

/-- C6 fails as stated: handle 5, alone in `#a`, joins the new channel `#b` and leaves it;
`#a` was cleared by the JOIN, so `room_count` ends at 1 where it was 2. -/
theorem join_leave_room_count_not_restored :
    find_client_index sample_state_two.registry 5 = some 0 ∧
    find_room_index sample_state_two.registry "#b" = none ∧
    join_find_or_create sample_state_two.registry "#b" ≠ none ∧
    sample_state_two.registry.room_count = 2 ∧
    (handle_leave (handle_join sample_state_two (sample_cmd .CMD_JOIN 5 "#b"))
      (sample_cmd .CMD_LEAVE 5 "")).registry.room_count = 1 := by
  decide

/-- C7 for handle 5 joining `#a` twice, and the overrun when handle 5, just registered,
joins a channel whose name has 32 bytes. -/
theorem join_twice_same_registry_witness :
    ((handle_join (handle_join sample_state_one (sample_cmd .CMD_JOIN 5 "#a"))
        (sample_cmd .CMD_JOIN 5 "#a")).registry =
      (handle_join sample_state_one (sample_cmd .CMD_JOIN 5 "#a")).registry) ∧
    (sample_name 32).length = 32 ∧
    (handle_join sample_state_five
      (sample_cmd .CMD_JOIN 5 (sample_name 32))).registry.overflowed = true :=
  ⟨((join_twice_same_registry sample_state_one (sample_cmd .CMD_JOIN 5 "#a") (by decide)
      (by decide)).1 (by decide)).1,
    by decide,
    (join_twice_same_registry sample_state_five (sample_cmd .CMD_JOIN 5 (sample_name 32))
      (by decide) (by decide)).2 (by decide) 0 (by decide) (by decide)⟩

/-- The amended C9 for a JOIN from the unknown handle 77. -/
theorem unknown_sender_dropped_witness :
    ((sample_cmd .CMD_JOIN 77 "#a").command ≠ .CMD_REGISTER →
      (sample_cmd .CMD_JOIN 77 "#a").command ≠ .CMD_QUIT →
      dispatch sample_state_one (sample_cmd .CMD_JOIN 77 "#a") 9 = sample_state_one) ∧
    ((sample_cmd .CMD_JOIN 77 "#a").command = .CMD_QUIT →
      dispatch sample_state_one (sample_cmd .CMD_JOIN 77 "#a") 9 =
        add_job sample_state_one
          (server_unicast (sample_cmd .CMD_JOIN 77 "#a").reply_qid
            "You have been disconnected. Goodbye.")) :=
  unknown_sender_dropped sample_state_one (sample_cmd .CMD_JOIN 77 "#a") 9 (by decide)

/-! ## The default channel -/

theorem rooms_depart_general (rooms : List RoomEntry) (ch : String) (pid : Int)
    (h : GeneralAtZero rooms) : GeneralAtZero (rooms_depart rooms ch pid) := by
  obtain ⟨R, hR, hn⟩ := h
  cases hf : first_index (fun room : RoomEntry => room.channel_name = ch) rooms with
  | none => rw [rooms_depart_of_none _ _ _ hf]; exact ⟨R, hR, hn⟩
  | some idx =>
    obtain ⟨⟨a, ha, _⟩, _⟩ := first_index_some _ _ _ hf
    rw [rooms_depart_of_some _ _ _ _ _ ha hf]
    by_cases h0 : idx = 0
    · rw [h0] at ha ⊢
      rw [hR] at ha
      have haR : R = a := Option.some.inj ha
      refine ⟨room_after_remove a pid,
        List.getElem?_set_self (List.getElem?_eq_some.mp hR).1, ?_⟩
      rw [room_after_remove_name, if_neg (fun hc => hc.2.2 (haR ▸ hn)), ← haR]
      exact hn
    · exact ⟨R, by rw [List.getElem?_set_ne h0]; exact hR, hn⟩

theorem rooms_add_general (rooms : List RoomEntry) (n : Nat) (pid : Int)
    (h : GeneralAtZero rooms) : GeneralAtZero (rooms_add rooms n pid) := by
  obtain ⟨R, hR, hn⟩ := h
  unfold rooms_add
  by_cases h0 : n = 0
  · rw [h0, getD_of_getElem? _ _ _ hR]
    exact ⟨room_add R pid, List.getElem?_set_self (List.getElem?_eq_some.mp hR).1,
      by rw [room_add_name]; exact hn⟩
  · exact ⟨R, by rw [List.getElem?_set_ne h0]; exact hR, hn⟩

theorem rooms_create_general (rooms : List RoomEntry) (n : Nat) (ch : String)
    (hn : first_index (fun room : RoomEntry => room.channel_name = "") rooms = some n)
    (h : GeneralAtZero rooms) : GeneralAtZero (rooms_create rooms n ch) := by
  obtain ⟨R, hR, hname⟩ := h
  obtain ⟨⟨a, ha, hpa⟩, _⟩ := first_index_some _ _ _ hn
  unfold rooms_create
  have h0 : n ≠ 0 := by
    intro h0
    rw [h0, hR] at ha
    have : R = a := Option.some.inj ha
    rw [← this, hname] at hpa
    exact absurd hpa (by decide)
  exact ⟨R, by rw [List.getElem?_set_ne h0]; exact hR, hname⟩

theorem step_general (s : ServerState) (e : Event) (h : GeneralAtZero s.registry.rooms) :
    GeneralAtZero (step s e).registry.rooms :=
  step_rooms_ind GeneralAtZero (fun _ => GeneralAtZero)
    (fun _ _ hr => hr)
    (fun n ch rooms hr _ hn => rooms_create_general rooms n ch hn hr)
    (fun _ rooms ch pid hq => rooms_depart_general rooms ch pid hq)
    (fun rooms ch pid hr => rooms_depart_general rooms ch pid hr)
    (fun n rooms pid hq => rooms_add_general rooms n pid hq) s e h

/-- C20. Over every sequence of handler calls and monitor sweeps from initialisation whose
JOINs carry channel names of at most 31 bytes, no copy runs past a field and slot 0 of the
room table holds a room named `#general`: no handler and no eviction clears or renames it,
whatever its member list. The claim also covers longer names, and there the code breaks it:
with all ten client slots registered, a JOIN by the client in slot 9 whose channel string
runs to 44 bytes is copied by `strcpy` (main.c:374) past the 32-byte `current_channel` of
the last client entry, over its `last_active` and over `client_count`, and the terminator
lands on the first byte of `rooms[0].channel_name`: the slot of `#general` is unnamed. -/
theorem general_room_reachable :
    (∀ events : List Event, trace_ok channel_fits init_server_state events →
      (run init_server_state events).registry.overflowed = false ∧
        ∃ room, (run init_server_state events).registry.rooms[0]? = some room ∧
          room.channel_name = "#general") ∧
    (find_client_index (run init_server_state sample_events_last_slot.dropLast).registry 10 =
        some 9 ∧
      (run init_server_state sample_events_last_slot).registry.overflowed = true) :=
  ⟨fun events h => ⟨run_init_overflowed events h,
      run_unconditional (fun r => GeneralAtZero r.rooms) step_general events
        init_server_state
        ⟨init_server_state.registry.rooms.getD 0 zero_room, by decide, by decide⟩⟩,
    by decide, by decide⟩

/-- C20 on the sample trace, whose names fit: `#general` is still in slot 0 after the
QUIT of its last visitor and the sweep. -/
theorem general_room_reachable_witness :
    trace_ok channel_fits init_server_state sample_trace ∧
      ∃ room, (run init_server_state sample_trace).registry.rooms[0]? = some room ∧
        room.channel_name = "#general" :=
  ⟨by decide, (general_room_reachable.1 sample_trace (by decide)).2⟩

/-! ## Capacity errors -/

/-- C14. When every client slot is occupied, REGISTER changes nothing but the job queue,
to which it appends exactly one job: the unicast `Error: Server is full. Connection
rejected.` with label `SERVER`, addressed to the requester's reply mailbox. -/
theorem register_when_full (s : ServerState) (cmd : CommandMessage) (now : Int)
    (hfull : ∀ c ∈ s.registry.clients, c.pid ≠ 0) :
    handle_register s cmd now =
      add_job s (server_unicast cmd.reply_qid "Error: Server is full. Connection rejected.") := by
  unfold handle_register
  rw [(find_client_index_none _ _).mpr hfull]

/-- C15. When every room slot is named and none carries the requested name, a JOIN by a
client found in the table changes nothing but the job queue, to which it appends exactly
one job: the unicast `Error: Cannot join/create channel, room limit reached.` to the
sender. -/
theorem join_when_rooms_full (s : ServerState) (cmd : CommandMessage) (k : Nat)
    (hk : find_client_index s.registry cmd.sender_pid = some k)
    (hfull : ∀ room ∈ s.registry.rooms, room.channel_name ≠ "")
    (hnew : ∀ room ∈ s.registry.rooms, room.channel_name ≠ cmd.channel) :
    handle_join s cmd =
      add_job s (server_unicast cmd.reply_qid
        "Error: Cannot join/create channel, room limit reached.") := by
  unfold handle_join
  rw [hk]
  simp only
  have hj : join_find_or_create s.registry cmd.channel = none := by
    unfold join_find_or_create
    rw [(find_room_index_none _ _).mpr hnew, (find_room_index_none _ _).mpr hfull]
  rw [hj]

/-- C14 with the ten slots held by the handles 1 to 10 and a REGISTER from handle 11. -/
theorem register_when_full_witness :
    (∀ c ∈ sample_state_full.registry.clients, c.pid ≠ 0) ∧
      handle_register sample_state_full (sample_cmd .CMD_REGISTER 11 "") 7 =
        add_job sample_state_full
          (server_unicast (sample_cmd .CMD_REGISTER 11 "").reply_qid
            "Error: Server is full. Connection rejected.") :=
  ⟨by decide, register_when_full sample_state_full (sample_cmd .CMD_REGISTER 11 "") 7
    (by decide)⟩

/-- C15 with five named rooms and handle 1, member of `#a`, asking for `#e`. -/
theorem join_when_rooms_full_witness :
    find_client_index sample_state_rooms_full.registry 1 = some 0 ∧
      (client_at sample_state_rooms_full.registry 0).current_channel = "#a" ∧
      handle_join sample_state_rooms_full (sample_cmd .CMD_JOIN 1 "#e") =
        add_job sample_state_rooms_full
          (server_unicast (sample_cmd .CMD_JOIN 1 "#e").reply_qid
            "Error: Cannot join/create channel, room limit reached.") :=
  ⟨by decide, by decide,
    join_when_rooms_full sample_state_rooms_full (sample_cmd .CMD_JOIN 1 "#e") 0
      (by decide) (by decide) (by decide)⟩

/-- C12 as stated fails: handle 5 is alone in `#a` and sends JOIN `#a` again; the handler
enqueues the confirmation and then a broadcast job announcing the join to `#a`. -/
theorem join_current_channel_broadcasts :
    find_client_index sample_state_two.registry 5 = some 0 ∧
      (client_at sample_state_two.registry 0).current_channel = "#a" ∧
      (handle_join sample_state_two (sample_cmd .CMD_JOIN 5 "#a")).job_queue =
        sample_state_two.job_queue ++
          [ server_unicast 1005 "You have joined #a. Total members: 1",
            { type := .CMD_MSG, sender_name := "SERVER", target_channel := "#a",
              target_qid := 0, message := "User 5 has joined the channel." } ] := by
  decide

/-! ## The client's input lines -/

/-- C11 fails on one-word texts. For every client handle and mailbox id, the input line
`MSG hello` produces no control message at all (the sender prints the retry notice), and
`MSG hello world` produces one MSG control message whose text is `world`: the first word
after the command is scanned into the parameter field, which `MSG` never sends. -/
theorem msg_line_first_word_lost (client_pid reply_qid : Int) :
    sender_thread_line client_pid reply_qid "MSG hello" = .rejected ∧
      sender_thread_line client_pid reply_qid "MSG hello world" =
        .sent { command := .CMD_MSG, sender_pid := client_pid, reply_qid := reply_qid,
                channel := "", target := "", text := "world" } := by
  constructor <;> rfl

/-! ## Labels and texts on the wire -/

theorem strncpy_length_le (src : String) (n : Nat) : (strncpy src n).length ≤ n := by
  show (src.data.take n).length ≤ n
  rw [List.length_take]
  exact Nat.min_le_left _ _

theorem strncpy_of_length_le (src : String) (n : Nat) (h : src.length ≤ n) :
    strncpy src n = src := by
  show (⟨src.data.take n⟩ : String) = src
  rw [List.take_of_length_le h]

theorem send_reply_attempt (target_qid : Int) (sender text : String) (result : SendResult) :
    (send_reply target_qid sender text result).1 =
      { target_qid := target_qid,
        reply := { sender := strncpy sender 31, text := strncpy text 255 } } := rfl

theorem broadcast_members_sender (r : GlobalRegistry) (sender_name message : String)
    (results : Nat → SendResult) (members : List Int) :
    ∀ (i : Nat), ∀ a ∈ broadcast_members r sender_name message results members i,
      a.1.reply.sender = strncpy sender_name 31 := by
  induction members with
  | nil => intro i a ha; simp [broadcast_members] at ha
  | cons m rest ih =>
    intro i a ha
    rw [broadcast_members, List.mem_append] at ha
    rcases ha with ha | ha
    · cases hf : find_client_index r m with
      | none => rw [hf] at ha; simp at ha
      | some idx =>
        rw [hf] at ha
        have : a = send_reply (client_at r idx).reply_qid sender_name message (results i) := by
          simpa using ha
        rw [this, send_reply_attempt]
    · exact ih (i + 1) a ha

theorem process_job_sender (r : GlobalRegistry) (job : Job) (results : Nat → SendResult) :
    ∀ a ∈ process_job r job results, a.1.reply.sender = strncpy job.sender_name 31 := by
  intro a ha
  unfold process_job at ha
  split_ifs at ha with h1 h2
  · cases hf : find_room_index r job.target_channel with
    | none => rw [hf] at ha; simp at ha
    | some idx =>
      rw [hf] at ha
      exact broadcast_members_sender r _ _ results _ 0 a ha
  · have : a = send_reply job.target_qid job.sender_name job.message (results 0) := by
      simpa using ha
    rw [this, send_reply_attempt]
  · simp at ha

/-- C13 fails for long channel names. When the channel name and the decimal handle together
exceed 23 characters, MSG does enqueue one broadcast job for the channel with the label
`[C] User h`, but every delivery the worker makes for that job carries only the first 31
characters of the label, which differ from the label. -/
theorem msg_label_truncated (s : ServerState) (cmd : CommandMessage) (k : Nat)
    (hk : find_client_index s.registry cmd.sender_pid = some k)
    (hcc : (client_at s.registry k).current_channel ≠ "")
    (hlong : 23 < (client_at s.registry k).current_channel.length +
      (fmt_int cmd.sender_pid).length) :
    ∃ job : Job,
      handle_msg s cmd = add_job s job ∧
      job.type = .CMD_MSG ∧
      job.target_channel = (client_at s.registry k).current_channel ∧
      job.message = strncpy cmd.text MAX_TEXT_SIZE ∧
      job.sender_name =
        "[" ++ (client_at s.registry k).current_channel ++ "] User " ++
          fmt_int cmd.sender_pid ∧
      ∀ (r : GlobalRegistry) (results : Nat → SendResult),
        ∀ a ∈ process_job r job results,
          a.1.reply.sender = strncpy job.sender_name 31 ∧
            a.1.reply.sender ≠ job.sender_name := by
  refine ⟨{ type := .CMD_MSG,
            sender_name := "[" ++ (client_at s.registry k).current_channel ++ "] User " ++
              fmt_int cmd.sender_pid,
            target_channel := (client_at s.registry k).current_channel,
            target_qid := 0,
            message := strncpy cmd.text MAX_TEXT_SIZE }, ?_, rfl, rfl, rfl, rfl, ?_⟩
  · unfold handle_msg
    rw [hk]
    simp only
    rw [if_neg hcc]
  · intro r results a ha
    have h1 := process_job_sender r _ results a ha
    refine ⟨h1, ?_⟩
    intro h2
    have hlen := strncpy_length_le
      ("[" ++ (client_at s.registry k).current_channel ++ "] User " ++
        fmt_int cmd.sender_pid) 31
    rw [← h1, h2] at hlen
    simp only [String.length_append] at hlen
    have e1 : "[".length = 1 := rfl
    have e2 : "] User ".length = 7 := rfl
    rw [e1, e2] at hlen
    omega

/-- C13 on handle 12345 in the channel with the 31-character name: the one delivery of the
job carries a 31-character label that stops inside the channel name. -/
theorem msg_label_truncated_witness :
    process_job sample_state_long.registry
        { type := .CMD_MSG, sender_name := "[" ++ sample_long_channel ++ "] User 12345",
          target_channel := sample_long_channel, target_qid := 0, message := "hi" }
        (fun _ => .sent) =
      [({ target_qid := 13345,
          reply := { sender := "[#aaaaaaaaaaaaaaaaaaaaaaaaaaaaa", text := "hi" } }, [])] ∧
    ∃ job : Job,
      handle_msg sample_state_long sample_msg_long = add_job sample_state_long job ∧
      job.type = .CMD_MSG ∧
      job.target_channel = (client_at sample_state_long.registry 0).current_channel ∧
      job.message = strncpy sample_msg_long.text MAX_TEXT_SIZE ∧
      job.sender_name =
        "[" ++ (client_at sample_state_long.registry 0).current_channel ++ "] User " ++
          fmt_int sample_msg_long.sender_pid ∧
      ∀ (r : GlobalRegistry) (results : Nat → SendResult),
        ∀ a ∈ process_job r job results,
          a.1.reply.sender = strncpy job.sender_name 31 ∧
            a.1.reply.sender ≠ job.sender_name :=
  ⟨by decide,
    msg_label_truncated sample_state_long sample_msg_long 0 (by decide) (by decide)
      (by decide)⟩

/-! ## The worker's deliveries -/

theorem backed_inv_of_trace (events : List Event)
    (h : trace_ok fresh_and_nonzero init_server_state events) :
    BackedInv (run init_server_state events).registry :=
  run_preserves BackedInv fresh_and_nonzero step_backed_inv events init_server_state
    init_backed_inv h

theorem broadcast_members_pairwise (r : GlobalRegistry) (sender_name message : String)
    (results : Nat → SendResult) (P : Int → SendAttempt → Prop) (members : List Int) :
    ∀ (i : Nat), (∀ m ∈ members, find_client_index r m ≠ none) →
      (∀ m ∈ members, ∀ (idx : Nat) (res : SendResult), find_client_index r m = some idx →
        P m (send_reply (client_at r idx).reply_qid sender_name message res).1) →
      List.Forall₂ P members
        ((broadcast_members r sender_name message results members i).map Prod.fst) := by
  induction members with
  | nil => intro i _ _; simp [broadcast_members]
  | cons m rest ih =>
    intro i hm hP
    cases hf : find_client_index r m with
    | none => exact absurd hf (hm m (List.mem_cons_self _ _))
    | some idx =>
      rw [broadcast_members, hf]
      simp only [List.singleton_append, List.map_cons]
      exact List.Forall₂.cons (hP m (List.mem_cons_self _ _) idx _ hf)
        (ih (i + 1) (fun x hx => hm x (List.mem_cons_of_mem _ hx))
          (fun x hx => hP x (List.mem_cons_of_mem _ hx)))

/-- C17, as amended. Let the job at the head of the queue be a broadcast for a channel `C`,
whatever its label and text, in a registry with unique handles, unique room names and member
lists made of occupied handles. One worker step takes the job off the queue and leaves the
registry as it is. If no room is named `C` it makes no delivery attempt; otherwise its
attempts correspond one to one, in order, to the member list of room `C`: each carries the
first 31 bytes of the label and the first 255 bytes of the text of the job (the whole label
and text when they are that short) and goes to the reply mailbox of the client entry holding
that member's handle, whoever originated the message. -/
theorem broadcast_job_deliveries (s : ServerState) (job : Job) (rest : List Job)
    (results : Nat → SendResult)
    (hq : s.job_queue = job :: rest)
    (htype : job.type = .CMD_MSG)
    (hch : job.target_channel ≠ "")
    (hU : UniqueHandles s.registry)
    (hN : UniqueNames s.registry.rooms)
    (hM : MembersValid s.registry) :
    ∃ attempts : List (SendAttempt × List Warning),
      broadcaster_step s results =
        some ({ registry := s.registry, job_queue := rest }, attempts) ∧
      ((∀ room ∈ s.registry.rooms, room.channel_name ≠ job.target_channel) →
        attempts = []) ∧
      ∀ room ∈ s.registry.rooms, room.channel_name = job.target_channel →
        List.Forall₂
          (fun (pid : Int) (a : SendAttempt) =>
            a.reply = { sender := strncpy job.sender_name (MAX_USERNAME - 1),
                        text := strncpy job.message (MAX_TEXT_SIZE - 1) } ∧
            (job.sender_name.length ≤ MAX_USERNAME - 1 →
              job.message.length ≤ MAX_TEXT_SIZE - 1 →
              a.reply = { sender := job.sender_name, text := job.message }) ∧
            (∃ c ∈ s.registry.clients, c.pid = pid ∧ a.target_qid = c.reply_qid) ∧
            ∀ c ∈ s.registry.clients, c.pid = pid → a.target_qid = c.reply_qid)
          room.member_list (attempts.map Prod.fst) := by
  refine ⟨process_job s.registry job results, ?_, ?_, ?_⟩
  · unfold broadcaster_step get_job
    rw [hq]
  · intro hnone
    unfold process_job
    rw [if_pos htype, (find_room_index_none _ _).mpr hnone]
  · intro room hroom hname
    obtain ⟨j, hj⟩ := List.mem_iff_getElem?.mp hroom
    unfold process_job
    rw [if_pos htype]
    cases hf : find_room_index s.registry job.target_channel with
    | none => exact absurd hname ((find_room_index_none _ _).mp hf room hroom)
    | some idx =>
      obtain ⟨hget, hnm, _⟩ := find_room_index_some _ _ _ hf
      have hij : idx = j :=
        hN idx j _ room hget hj (by rw [hnm]; exact hch) (by rw [hnm, hname])
      have hroom_eq : room_at s.registry idx = room := by
        have h2 := hget
        rw [hij, hj] at h2
        rw [hij]
        exact (Option.some.inj h2).symm
      simp only
      rw [hroom_eq]
      have hv := hM room hroom (by rw [hname]; exact hch)
      refine broadcast_members_pairwise s.registry _ _ results _ room.member_list 0 ?_ ?_
      · intro m hm
        obtain ⟨c, hc, _, hcm⟩ := hv.2 m hm
        intro hnone
        exact (find_client_index_none _ _).mp hnone c hc hcm
      · intro m hm k res hk
        obtain ⟨hgetk, hpk, _⟩ := find_client_index_some _ _ _ hk
        obtain ⟨c0, _, hc0, hc0m⟩ := hv.2 m hm
        have h0 : m ≠ 0 := fun h => hc0 (hc0m.trans h)
        refine ⟨?_, ?_,
          ⟨client_at s.registry k, List.mem_iff_getElem?.mpr ⟨k, hgetk⟩, hpk, rfl⟩, ?_⟩
        · rw [send_reply_attempt]
          rfl
        · intro hlabel htext
          have h31 : job.sender_name.length ≤ 31 := hlabel
          have h255 : job.message.length ≤ 255 := htext
          rw [send_reply_attempt]
          simp only
          rw [strncpy_of_length_le _ _ h31, strncpy_of_length_le _ _ h255]
        · intro c hc hcp
          obtain ⟨i, hi⟩ := List.mem_iff_getElem?.mp hc
          have hki : k = i :=
            hU k i _ c hgetk hi (by rw [hpk]; exact h0) (by rw [hpk, hcp])
          rw [hki, hi] at hgetk
          rw [send_reply_attempt, hki, ← Option.some.inj hgetk]

/-- C17 on handles 5 and 6 in `#a` and the job of `MSG hi` from 5: two deliveries, to the
mailboxes 1005 and 1006, the sender's first. -/
theorem broadcast_job_deliveries_witness :
    broadcaster_step sample_state_three (fun _ => .sent) =
      some ({ registry := sample_state_three.registry,
              job_queue := [server_unicast 1005 "later"] },
        [ ({ target_qid := 1005, reply := { sender := "[#a] User 5", text := "hi" } }, []),
          ({ target_qid := 1006, reply := { sender := "[#a] User 5", text := "hi" } }, []) ]) ∧
    ∃ attempts : List (SendAttempt × List Warning),
      broadcaster_step sample_state_three (fun _ => .sent) =
        some ({ registry := sample_state_three.registry,
                job_queue := [server_unicast 1005 "later"] }, attempts) ∧
      ((∀ room ∈ sample_state_three.registry.rooms,
          room.channel_name ≠ sample_job_msg.target_channel) → attempts = []) ∧
      ∀ room ∈ sample_state_three.registry.rooms,
        room.channel_name = sample_job_msg.target_channel →
        List.Forall₂
          (fun (pid : Int) (a : SendAttempt) =>
            a.reply = { sender := strncpy sample_job_msg.sender_name (MAX_USERNAME - 1),
                        text := strncpy sample_job_msg.message (MAX_TEXT_SIZE - 1) } ∧
            (sample_job_msg.sender_name.length ≤ MAX_USERNAME - 1 →
              sample_job_msg.message.length ≤ MAX_TEXT_SIZE - 1 →
              a.reply = { sender := sample_job_msg.sender_name,
                          text := sample_job_msg.message }) ∧
            (∃ c ∈ sample_state_three.registry.clients,
              c.pid = pid ∧ a.target_qid = c.reply_qid) ∧
            ∀ c ∈ sample_state_three.registry.clients, c.pid = pid →
              a.target_qid = c.reply_qid)
          room.member_list (attempts.map Prod.fst) :=
  ⟨by decide,
    broadcast_job_deliveries sample_state_three sample_job_msg [server_unicast 1005 "later"]
      (fun _ => .sent) rfl (by decide) (by decide)
      (backed_inv_of_trace sample_events_three (by decide)).2.1
      (backed_inv_of_trace sample_events_three (by decide)).2.2.1.2.1
      (by decide)⟩

/-- C17 fails as stated: handle 12345 is alone in the channel with the 31-character name and
the broadcast job of its `MSG hi` is at the head of the queue. The job's label is
`[C] User 12345`, 44 characters; the one delivery the worker makes carries the first 31 of
them, not the job's label. -/
theorem broadcast_delivery_cuts_label :
    handle_msg sample_state_long sample_msg_long = add_job sample_state_long sample_job_long ∧
    sample_job_long.sender_name.length = 44 ∧
    broadcaster_step { registry := sample_state_long.registry, job_queue := [sample_job_long] }
        (fun _ => .sent) =
      some ({ registry := sample_state_long.registry, job_queue := [] },
        [ ({ target_qid := 13345,
             reply := { sender := "[#aaaaaaaaaaaaaaaaaaaaaaaaaaaaa", text := "hi" } }, []) ]) ∧
    "[#aaaaaaaaaaaaaaaaaaaaaaaaaaaaa" ≠ sample_job_long.sender_name := by
  decide

/-! ## Decimal handles: `%d` followed by `atoi` -/

theorem digitChar_digit : ∀ d : Nat, d < 10 →
    (Nat.digitChar d).isDigit = true ∧ (Nat.digitChar d).toNat - 48 = d ∧
      is_space (Nat.digitChar d) = false ∧ Nat.digitChar d ≠ '-' ∧ Nat.digitChar d ≠ '+' := by
  decide

theorem digits_value_toDigitsCore : ∀ (fuel n : Nat) (ds : List Char), n < fuel →
    ∃ k : Nat, ∀ acc : Nat,
      digits_value (Nat.toDigitsCore 10 fuel n ds) acc = digits_value ds (acc * 10 ^ k + n) := by
  intro fuel
  induction fuel with
  | zero => intro n ds h; omega
  | succ fuel ih =>
    intro n ds h
    have hd := digitChar_digit (n % 10) (Nat.mod_lt _ (by decide))
    by_cases h0 : n / 10 = 0
    · refine ⟨1, fun acc => ?_⟩
      rw [Nat.toDigitsCore]
      simp only [h0, if_true]
      rw [digits_value, if_pos hd.1, hd.2.1]
      congr 1
      omega
    · obtain ⟨k, hk⟩ := ih (n / 10) (Nat.digitChar (n % 10) :: ds) (by omega)
      refine ⟨k + 1, fun acc => ?_⟩
      rw [Nat.toDigitsCore]
      simp only [h0, if_false]
      rw [hk, digits_value, if_pos hd.1, hd.2.1]
      congr 1
      rw [pow_succ]
      have := Nat.div_add_mod n 10
      ring_nf
      ring_nf at this
      omega

theorem toDigitsCore_head : ∀ (fuel n : Nat) (ds : List Char), n < fuel →
    ∃ (d : Nat) (rest : List Char), d < 10 ∧
      Nat.toDigitsCore 10 fuel n ds = Nat.digitChar d :: rest := by
  intro fuel
  induction fuel with
  | zero => intro n ds h; omega
  | succ fuel ih =>
    intro n ds h
    by_cases h0 : n / 10 = 0
    · refine ⟨n % 10, ds, Nat.mod_lt _ (by decide), ?_⟩
      rw [Nat.toDigitsCore]
      simp only [h0, if_true]
    · obtain ⟨d, rest, hd, hr⟩ := ih (n / 10) (Nat.digitChar (n % 10) :: ds) (by omega)
      refine ⟨d, rest, hd, ?_⟩
      rw [Nat.toDigitsCore]
      simp only [h0, if_false]
      exact hr

theorem to_int32_clamp (v : Int) (h1 : -(2 ^ 31) ≤ v) (h2 : v < 2 ^ 31) :
    to_int32 (clamp_long v) = v := by
  unfold clamp_long to_int32
  rw [if_neg (by omega), if_neg (by omega)]
  rw [Int.emod_eq_of_lt (by omega) (by omega)]
  omega

theorem atoi_repr_nat (n : Nat) (h : (n : Int) < 2 ^ 31) :
    atoi (Nat.repr n) = n := by
  obtain ⟨d, rest, hd, hr⟩ := toDigitsCore_head (n + 1) n [] (Nat.lt_succ_self n)
  obtain ⟨k, hk⟩ := digits_value_toDigitsCore (n + 1) n [] (Nat.lt_succ_self n)
  have hc := digitChar_digit d hd
  have hdata : (Nat.repr n).data = Nat.digitChar d :: rest := hr
  have hval : digits_value (Nat.digitChar d :: rest) 0 = n := by
    rw [← hr, hk 0]
    simp [digits_value]
  unfold atoi
  rw [hdata, List.dropWhile_cons_of_neg (by rw [hc.2.2.1]; decide)]
  split
  · rename_i heq; exact absurd (List.cons.inj heq).1 hc.2.2.2.1
  · rename_i heq; exact absurd (List.cons.inj heq).1 hc.2.2.2.2
  · rw [hval]
    exact to_int32_clamp _ (by omega) h

theorem atoi_neg_repr_nat (n : Nat) (h : (n : Int) ≤ 2 ^ 31) :
    atoi ("-" ++ Nat.repr n) = -(n : Int) := by
  obtain ⟨k, hk⟩ := digits_value_toDigitsCore (n + 1) n [] (Nat.lt_succ_self n)
  have hval : digits_value (Nat.repr n).data 0 = n := by
    show digits_value (Nat.toDigitsCore 10 (n + 1) n []) 0 = n
    rw [hk 0]
    simp [digits_value]
  have hdata : ("-" ++ Nat.repr n).data = '-' :: (Nat.repr n).data := rfl
  unfold atoi
  rw [hdata, List.dropWhile_cons_of_neg (by decide)]
  simp only
  rw [hval]
  exact to_int32_clamp _ (by omega) (by omega)

/-- Reading back with `atoi` the output of `%d` for a 32-bit value gives the value. -/
theorem atoi_fmt_int (v : Int) (h1 : -(2 ^ 31) ≤ v) (h2 : v < 2 ^ 31) :
    atoi (fmt_int v) = v := by
  cases v with
  | ofNat n => exact atoi_repr_nat n h2
  | negSucc n =>
    have : atoi ("-" ++ Nat.repr (n + 1)) = -((n + 1 : Nat) : Int) :=
      atoi_neg_repr_nat (n + 1) (by
        have : Int.negSucc n = -((n : Int) + 1) := rfl
        push_cast
        omega)
    exact this

/-! ## Direct messages -/

/-- C19. When the sender is found in the table and the target string is the decimal form of
a 32-bit handle `B` that is found in the table, DM changes nothing in the registry and
appends exactly two jobs: first the unicast to the reply mailbox of the entry holding `B`,
with the label `(DM from A)` and the text of the DM, then the unicast `DM sent to B.` with
label `SERVER` to the reply mailbox named in the command. -/
theorem dm_to_registered (s : ServerState) (cmd : CommandMessage) (a t : Nat) (B : Int)
    (hA : find_client_index s.registry cmd.sender_pid = some a)
    (hB : find_client_index s.registry B = some t)
    (h1 : -(2 ^ 31) ≤ B) (h2 : B < 2 ^ 31)
    (htarget : cmd.target = fmt_int B)
    (htext : cmd.text.length ≤ MAX_TEXT_SIZE) :
    s.registry.clients[t]? = some (client_at s.registry t) ∧
    (client_at s.registry t).pid = B ∧
    handle_dm s cmd =
      { registry := s.registry,
        job_queue := s.job_queue ++
          [ { type := .CMD_DM,
              sender_name := "(DM from " ++ fmt_int cmd.sender_pid ++ ")",
              target_channel := "",
              target_qid := (client_at s.registry t).reply_qid,
              message := cmd.text },
            { type := .CMD_DM,
              sender_name := "SERVER",
              target_channel := "",
              target_qid := cmd.reply_qid,
              message := "DM sent to " ++ fmt_int B ++ "." } ] } := by
  obtain ⟨hget, hpid, _⟩ := find_client_index_some _ _ _ hB
  refine ⟨hget, hpid, ?_⟩
  unfold handle_dm
  rw [hA]
  simp only
  rw [htarget, atoi_fmt_int B h1 h2, hB]
  simp only [add_job, server_unicast, List.append_assoc, List.singleton_append,
    strncpy_of_length_le _ _ htext]

/-- C19 on handle 5 sending `DM 6 ping` with 5 and 6 registered. -/
theorem dm_to_registered_witness :
    handle_dm sample_state_one sample_dm =
      { registry := sample_state_one.registry,
        job_queue := sample_state_one.job_queue ++
          [ { type := .CMD_DM, sender_name := "(DM from 5)", target_channel := "",
              target_qid := 1006, message := "ping" },
            { type := .CMD_DM, sender_name := "SERVER", target_channel := "",
              target_qid := 1005, message := "DM sent to 6." } ] } ∧
    sample_state_one.registry.clients[1]? = some (client_at sample_state_one.registry 1) ∧
    (client_at sample_state_one.registry 1).pid = 6 ∧
    handle_dm sample_state_one sample_dm =
      { registry := sample_state_one.registry,
        job_queue := sample_state_one.job_queue ++
          [ { type := .CMD_DM,
              sender_name := "(DM from " ++ fmt_int sample_dm.sender_pid ++ ")",
              target_channel := "",
              target_qid := (client_at sample_state_one.registry 1).reply_qid,
              message := sample_dm.text },
            { type := .CMD_DM,
              sender_name := "SERVER",
              target_channel := "",
              target_qid := sample_dm.reply_qid,
              message := "DM sent to " ++ fmt_int 6 ++ "." } ] } :=
  ⟨by decide,
    dm_to_registered sample_state_one sample_dm 0 1 6 (by decide) (by decide) (by decide)
      (by decide) (by decide) (by decide)⟩

/-! ## The member line of WHO -/

theorem intercalate_go_append (x s : String) (l : List String) :
    ∀ y : String, String.intercalate.go (x ++ y) s l = x ++ String.intercalate.go y s l := by
  induction l with
  | nil => intro y; rfl
  | cons c r ih =>
    intro y
    rw [String.intercalate.go, String.intercalate.go, String.append_assoc,
      String.append_assoc, ih, String.append_assoc]

theorem intercalate_cons_cons (s a b : String) (rest : List String) :
    s.intercalate (a :: b :: rest) = a ++ s ++ s.intercalate (b :: rest) := by
  show String.intercalate.go a s (b :: rest) = a ++ s ++ String.intercalate.go b s rest
  rw [String.intercalate.go, String.append_assoc, String.append_assoc,
    intercalate_go_append, intercalate_go_append]

theorem snprintf_step_fits (b text : String) (rem : Int) (h : (text.length : Int) < rem) :
    snprintf_step (b, rem) text = (b ++ text, rem - text.length) := by
  unfold snprintf_step
  have hpos : ¬ rem ≤ 0 := by omega
  simp only [if_neg hpos]
  have hle : text.data.length ≤ (rem - 1).toNat := by
    have : (text.length : Int) ≤ rem - 1 := by omega
    have h3 := Int.toNat_le_toNat this
    simpa using h3
  rw [List.take_of_length_le hle]

theorem fmt_int_length (v : Int) (h1 : -(2 ^ 31) ≤ v) (h2 : v < 2 ^ 31) :
    (fmt_int v).length ≤ 11 := by
  cases v with
  | ofNat n =>
    have : (Nat.repr n).length ≤ 10 :=
      Nat.repr_length n 10 (by decide) (by
        have : (n : Int) < 2 ^ 31 := h2
        omega)
    exact Nat.le_succ_of_le this
  | negSucc n =>
    have hrepr : (Nat.repr (n + 1)).length ≤ 10 :=
      Nat.repr_length (n + 1) 10 (by decide) (by
        have : Int.negSucc n = -((n : Int) + 1) := rfl
        omega)
    show ("-" ++ Nat.repr (n + 1)).length ≤ 11
    rw [String.length_append]
    have : "-".length = 1 := rfl
    omega

theorem fmt_int_count_length (n : Nat) (h : n ≤ MAX_CLIENTS) :
    (fmt_int (n : Int)).length ≤ 2 :=
  Nat.repr_length n 2 (by decide) (by unfold MAX_CLIENTS at h; omega)

theorem who_loop_all (count : Nat) : ∀ (pids : List Int) (i : Nat) (b : String) (rem : Int),
    i + pids.length = count →
    (∀ m ∈ pids, (fmt_int m).length ≤ 11) →
    13 * (pids.length : Int) + 1 < rem →
    (who_loop count pids i (b, rem)).1 = b ++ ", ".intercalate (pids.map fmt_int) ∧
      1 < (who_loop count pids i (b, rem)).2 ∧
      (who_loop count pids i (b, rem)).2 =
        rem - ((", ".intercalate (pids.map fmt_int)).length : Int) := by
  intro pids
  induction pids with
  | nil =>
    intro i b rem _ _ hrem
    simp only [who_loop, List.map_nil, String.intercalate]
    refine ⟨by simp, by simpa using hrem, by simp⟩
  | cons pid rest ih =>
    intro i b rem hi hlen hrem
    have hp := hlen pid (List.mem_cons_self _ _)
    have hsep : (if i + 1 < count then ", " else "").length ≤ 2 := by
      split_ifs
      · exact Nat.le_refl 2
      · exact Nat.zero_le 2
    have htl : (fmt_int pid ++ (if i + 1 < count then ", " else "")).length ≤ 13 := by
      rw [String.length_append]; omega
    simp only [List.length_cons, Nat.cast_add, Nat.cast_one] at hrem
    have hfit : ((fmt_int pid ++ (if i + 1 < count then ", " else "")).length : Int) < rem := by
      omega
    rw [who_loop, snprintf_step_fits _ _ _ hfit]
    have hgo : ¬ (rem - ((fmt_int pid ++ (if i + 1 < count then ", " else "")).length : Int)
        ≤ 1) := by omega
    simp only [if_neg hgo]
    have hih := ih (i + 1) (b ++ (fmt_int pid ++ (if i + 1 < count then ", " else "")))
      (rem - ((fmt_int pid ++ (if i + 1 < count then ", " else "")).length : Int))
      (by simp only [List.length_cons] at hi; omega)
      (fun m hm => hlen m (List.mem_cons_of_mem _ hm))
      (by omega)
    have htext : fmt_int pid ++ (if i + 1 < count then ", " else "") ++
        ", ".intercalate (rest.map fmt_int) =
        ", ".intercalate ((pid :: rest).map fmt_int) := by
      cases rest with
      | nil =>
        have : ¬ i + 1 < count := by simp only [List.length_cons, List.length_nil] at hi; omega
        rw [if_neg this]
        simp [String.intercalate, String.intercalate.go]
      | cons r rs =>
        have : i + 1 < count := by simp only [List.length_cons] at hi; omega
        rw [if_pos this]
        simp only [List.map_cons]
        rw [intercalate_cons_cons]
    refine ⟨?_, hih.2.1, ?_⟩
    · rw [hih.1, String.append_assoc, htext]
    · rw [hih.2.2, ← htext]
      simp only [String.length_append]
      push_cast
      omega

theorem who_line_eq (channel : String) (room : RoomEntry)
    (hch : channel.length < MAX_CHANNEL)
    (hshape : room.members.length = MAX_CLIENTS ∧ room.member_count ≤ MAX_CLIENTS)
    (hrange : ∀ m ∈ room.member_list, -(2 ^ 31) ≤ m ∧ m < 2 ^ 31) :
    room.member_list.length = room.member_count ∧
    who_line channel room =
      "Members of " ++ channel ++ " (" ++ fmt_int (room.member_count : Int) ++ "): " ++
        ", ".intercalate (room.member_list.map fmt_int) := by
  have hlen : room.member_list.length = room.member_count := by
    unfold RoomEntry.member_list
    rw [List.length_take]
    omega
  refine ⟨hlen, ?_⟩
  have hn := fmt_int_count_length room.member_count hshape.2
  have hhead : ("Members of " ++ channel ++ " (" ++ fmt_int (room.member_count : Int) ++
      "): ").length ≤ 49 := by
    simp only [String.length_append]
    have e1 : "Members of ".length = 11 := rfl
    have e2 : " (".length = 2 := rfl
    have e3 : "): ".length = 3 := rfl
    unfold MAX_CHANNEL at hch
    omega
  have hcnt : room.member_list.length ≤ 10 := by
    rw [hlen]; exact hshape.2
  unfold who_line
  simp only
  rw [snprintf_step_fits _ _ _ (by unfold MAX_TEXT_SIZE; push_cast; omega)]
  obtain ⟨h1, h2, h3⟩ := who_loop_all room.member_count room.member_list 0
    ("" ++ ("Members of " ++ channel ++ " (" ++ fmt_int (room.member_count : Int) ++ "): "))
    ((MAX_TEXT_SIZE : Int) - (("Members of " ++ channel ++ " (" ++
      fmt_int (room.member_count : Int) ++ "): ").length : Int))
    (by omega)
    (fun m hm => fmt_int_length m (hrange m hm).1 (hrange m hm).2)
    (by unfold MAX_TEXT_SIZE; push_cast; omega)
  rw [strncpy_of_length_le, h1, String.empty_append]
  rw [h1, String.empty_append, String.length_append]
  rw [h3] at h2
  unfold MAX_TEXT_SIZE at h2 ⊢
  push_cast at h2
  omega

theorem rooms_depart_nodup (rooms : List RoomEntry) (ch : String) (pid : Int)
    (hs : RoomsShape rooms) (h : NodupNamed rooms) : NodupNamed (rooms_depart rooms ch pid) := by
  intro b hb hbn
  obtain ⟨j, hj⟩ := List.mem_iff_getElem?.mp hb
  rcases rooms_depart_getElem? _ _ _ _ _ hj with h1 | ⟨a, ha, _, hba, _⟩
  · exact h b (List.mem_iff_getElem?.mpr ⟨j, h1⟩) hbn
  · have hamem : a ∈ rooms := List.mem_iff_getElem?.mpr ⟨j, ha⟩
    rw [hba, room_after_remove_name] at hbn
    have han : a.channel_name ≠ "" := by
      split_ifs at hbn
      · exact absurd rfl hbn
      · exact hbn
    rw [hba, room_after_remove_member_list _ _ (shape_count_le rooms hs a hamem)]
    exact List.Nodup.erase pid (h a hamem han)

theorem rooms_depart_absent_self (rooms : List RoomEntry) (ch : String) (pid : Int)
    (hs : RoomsShape rooms) (hu : UniqueNames rooms) (h : NodupNamed rooms) (hch : ch ≠ "") :
    Absent (rooms_depart rooms ch pid) ch pid := by
  intro b hb hbn
  obtain ⟨j, hj⟩ := List.mem_iff_getElem?.mp hb
  cases hf : first_index (fun room : RoomEntry => room.channel_name = ch) rooms with
  | none =>
    rw [rooms_depart_of_none _ _ _ hf] at hj
    exact absurd hbn ((first_index_eq_none_iff _ _).mp hf b (List.mem_iff_getElem?.mpr ⟨j, hj⟩))
  | some idx =>
    obtain ⟨⟨a, ha, hpa⟩, _⟩ := first_index_some _ _ _ hf
    have hamem : a ∈ rooms := List.mem_iff_getElem?.mpr ⟨idx, ha⟩
    rw [rooms_depart_of_some _ _ _ _ _ ha hf] at hj
    rcases getElem?_set_cases _ _ _ _ _ hj with ⟨_, h2⟩ | ⟨h1, h2⟩
    · rw [h2, room_after_remove_member_list _ _ (shape_count_le rooms hs a hamem)]
      have hnd := h a hamem (by rw [hpa]; exact hch)
      intro hin
      exact ((List.Nodup.mem_erase_iff hnd).mp hin).1 rfl
    · exfalso
      apply h1
      exact hu j idx b a h2 ha (by rw [hbn]; exact hch) (by rw [hbn, hpa])

theorem rooms_depart_absent_other (rooms : List RoomEntry) (ch ch1 : String) (pid pid1 : Int)
    (hs : RoomsShape rooms) (hch1 : ch1 ≠ "") (h : Absent rooms ch1 pid1) :
    Absent (rooms_depart rooms ch pid) ch1 pid1 := by
  intro b hb hbn
  obtain ⟨j, hj⟩ := List.mem_iff_getElem?.mp hb
  rcases rooms_depart_getElem? _ _ _ _ _ hj with h1 | ⟨a, ha, _, hba, _⟩
  · exact h b (List.mem_iff_getElem?.mpr ⟨j, h1⟩) hbn
  · have hamem : a ∈ rooms := List.mem_iff_getElem?.mpr ⟨j, ha⟩
    rw [hba, room_after_remove_name] at hbn
    have han : a.channel_name = ch1 := by
      split_ifs at hbn
      · exact absurd hbn.symm hch1
      · exact hbn
    rw [hba, room_after_remove_member_list _ _ (shape_count_le rooms hs a hamem)]
    intro hin
    exact h a hamem han (List.mem_of_mem_erase hin)

theorem find_client_index_of_unique (r : GlobalRegistry) (hU : UniqueHandles r) (i : Nat)
    (c : ClientEntry) (hc : r.clients[i]? = some c) (h0 : c.pid ≠ 0) :
    find_client_index r c.pid = some i := by
  refine first_index_unique _ _ i c hc rfl ?_
  intro j b hj hb hbp
  have : j = i := hU j i b c hb hc (by rw [hbp]; exact h0) hbp
  omega

theorem remove_client_job_queue (s : ServerState) (pid : Int) (k : Nat) (idx : Nat)
    (hk : find_client_index s.registry pid = some k)
    (hroom : (client_at s.registry k).current_channel ≠ "" →
      find_room_index s.registry (client_at s.registry k).current_channel = some idx) :
    (remove_client s pid).job_queue =
      s.job_queue ++
        (if (client_at s.registry k).current_channel ≠ "" then
          [server_broadcast (client_at s.registry k).current_channel
            ("User " ++ fmt_int pid ++ " has left the chat.")]
         else []) := by
  unfold remove_client
  rw [hk]
  simp only
  by_cases hch : (client_at s.registry k).current_channel ≠ ""
  · rw [if_pos hch, if_pos hch, hroom hch]
    rfl
  · rw [if_neg hch, if_neg hch, List.append_nil]

theorem remove_client_client_count (s : ServerState) (pid : Int) (k : Nat)
    (hk : find_client_index s.registry pid = some k) :
    (remove_client s pid).registry.client_count = s.registry.client_count - 1 := by
  rw [remove_client_registry, hk]
  simp only
  split_ifs
  · rw [depart_client_count]
  · rfl

/-- Effect of one eviction on a registry satisfying `SweepInv`. -/
theorem evict_step (s : ServerState) (i : Nat) (c : ClientEntry) (job : Job)
    (hc : s.registry.clients[i]? = some c) (h0 : c.pid ≠ 0) (hinv : SweepInv s.registry) :
    (remove_client (add_job s job) c.pid).registry.clients =
        s.registry.clients.set i zero_client ∧
    (remove_client (add_job s job) c.pid).registry.client_count =
        s.registry.client_count - 1 ∧
    (remove_client (add_job s job) c.pid).registry.rooms =
        (if c.current_channel ≠ "" then
          rooms_depart s.registry.rooms c.current_channel c.pid
         else s.registry.rooms) ∧
    (remove_client (add_job s job) c.pid).job_queue =
        s.job_queue ++ job ::
          (if c.current_channel ≠ "" then
            [server_broadcast c.current_channel
              ("User " ++ fmt_int c.pid ++ " has left the chat.")]
           else []) ∧
    SweepInv (remove_client (add_job s job) c.pid).registry := by
  obtain ⟨hlen, hU, hS, hN, hD, hB⟩ := hinv
  have hfind : find_client_index (add_job s job).registry c.pid = some i :=
    find_client_index_of_unique s.registry hU i c hc h0
  have hat : client_at (add_job s job).registry i = c := client_at_of_getElem? s.registry i c hc
  have hclients := remove_client_clients (add_job s job) c.pid i hfind
  have hrooms := remove_client_rooms (add_job s job) c.pid i hfind
  rw [hat] at hrooms
  have hcmem : c ∈ s.registry.clients := List.mem_iff_getElem?.mpr ⟨i, hc⟩
  have hex : c.current_channel ≠ "" →
      ∃ idx, find_room_index s.registry c.current_channel = some idx := by
    intro hch
    obtain ⟨room, hroom, hname, _⟩ := hB c hcmem h0 hch
    cases hf : find_room_index s.registry c.current_channel with
    | none => exact absurd hname ((find_room_index_none _ _).mp hf room hroom)
    | some idx => exact ⟨idx, rfl⟩
  have hjobs : (remove_client (add_job s job) c.pid).job_queue =
      s.job_queue ++ job ::
        (if c.current_channel ≠ "" then
          [server_broadcast c.current_channel
            ("User " ++ fmt_int c.pid ++ " has left the chat.")]
         else []) := by
    by_cases hch : c.current_channel ≠ ""
    · obtain ⟨idx, hidx⟩ := hex hch
      rw [remove_client_job_queue (add_job s job) c.pid i idx hfind
        (fun _ => by rw [hat]; exact hidx), hat]
      simp [add_job]
    · rw [remove_client_job_queue (add_job s job) c.pid i 0 hfind
        (fun h => by rw [hat] at h; exact absurd h hch), hat]
      simp [add_job]
  refine ⟨hclients, remove_client_client_count (add_job s job) c.pid i hfind, hrooms, hjobs,
    ?_⟩
  have hback := depart_then_set_backed s.registry.clients s.registry.rooms c.current_channel
    hS hU hB i c zero_client hc (Or.inl rfl)
  refine ⟨?_, remove_client_unique (add_job s job) c.pid hU, ?_, ?_, ?_, ?_⟩
  · rw [hclients, List.length_set]; exact hlen
  · rw [hrooms]; split_ifs
    · exact rooms_depart_shape _ _ _ hS
    · exact hS
  · rw [hrooms]; split_ifs
    · exact rooms_depart_unique _ _ _ hN
    · exact hN
  · rw [hrooms]; split_ifs
    · exact rooms_depart_nodup _ _ _ hS hD
    · exact hD
  · rw [hrooms, hclients]; split_ifs
    · exact hback.1
    · exact hback.2

theorem sweep_upto_succ (s : ServerState) (now : Int) (i : Nat) :
    sweep_upto s now (i + 1) = monitor_slot now (sweep_upto s now i) i := by
  unfold sweep_upto
  rw [List.range_succ, List.foldl_append]
  rfl

theorem take_succ_of_getElem? {α : Type} (l : List α) (i : Nat) (a : α)
    (h : l[i]? = some a) : l.take (i + 1) = l.take i ++ [a] := by
  rw [List.take_succ, h]
  rfl

/-- State of the sweep after the slots below `i`, in terms of the state before the sweep. -/
theorem sweep_upto_spec (s : ServerState) (now : Int) (hinv : SweepInv s.registry) :
    ∀ i : Nat, i ≤ s.registry.clients.length →
      SweepInv (sweep_upto s now i).registry ∧
      (∀ j : Nat, (sweep_upto s now i).registry.clients[j]? =
        if j < i then
          (s.registry.clients[j]?).map (fun c => if evicted now c then zero_client else c)
        else s.registry.clients[j]?) ∧
      (sweep_upto s now i).registry.client_count =
        s.registry.client_count -
          ((s.registry.clients.take i).countP (fun c => decide (evicted now c)) : Nat) ∧
      (sweep_upto s now i).job_queue =
        s.job_queue ++ (s.registry.clients.take i).flatMap (eviction_jobs now) ∧
      (∀ c ∈ s.registry.clients.take i, evicted now c → c.current_channel ≠ "" →
        Absent (sweep_upto s now i).registry.rooms c.current_channel c.pid) := by
  intro i
  induction i with
  | zero =>
    intro _
    refine ⟨hinv, fun j => ?_, ?_, ?_, ?_⟩
    · simp [sweep_upto]
    · simp [sweep_upto]
    · simp [sweep_upto]
    · intro c hc; simp at hc
  | succ i ih =>
    intro hi
    obtain ⟨hI, hcl, hcnt, hjq, habs⟩ := ih (by omega)
    have hlt : i < s.registry.clients.length := by omega
    have hci : s.registry.clients[i]? = some (s.registry.clients[i]) :=
      List.getElem?_eq_getElem hlt
    generalize hcdef : s.registry.clients[i] = c at hci
    have hci1 : (sweep_upto s now i).registry.clients[i]? = some c := by
      rw [hcl i, if_neg (Nat.lt_irrefl i)]; exact hci
    have hat : client_at (sweep_upto s now i).registry i = c :=
      client_at_of_getElem? _ i c hci1
    have htake := take_succ_of_getElem? s.registry.clients i c hci
    rw [sweep_upto_succ]
    by_cases hev : evicted now c
    · have hstep : monitor_slot now (sweep_upto s now i) i =
          remove_client (add_job (sweep_upto s now i)
            (server_unicast c.reply_qid "You have been disconnected due to inactivity."))
            c.pid := by
        unfold monitor_slot
        simp only
        rw [hat]
        exact if_pos hev
      rw [hstep]
      obtain ⟨e1, e2, e3, e4, e5⟩ := evict_step (sweep_upto s now i) i c
        (server_unicast c.reply_qid "You have been disconnected due to inactivity.")
        hci1 hev.1 hI
      refine ⟨e5, fun j => ?_, ?_, ?_, ?_⟩
      · rw [e1]
        by_cases hji : j = i
        · subst hji
          rw [List.getElem?_set_self (by rw [hI.1, ← hinv.1]; exact hlt),
            if_pos (Nat.lt_succ_self j), hci]
          simp [hev]
        · rw [List.getElem?_set_ne (Ne.symm hji), hcl j]
          by_cases hj : j < i
          · rw [if_pos hj, if_pos (by omega)]
          · rw [if_neg hj, if_neg (by omega)]
      · rw [e2, hcnt, htake, List.countP_append]
        simp [hev]
        omega
      · rw [e4, hjq, htake, List.flatMap_append]
        simp [eviction_jobs, hev]
      · intro x hx hxe hxc
        rw [htake, List.mem_append] at hx
        rw [e3]
        rcases hx with hx | hx
        · have hprev := habs x hx hxe hxc
          split_ifs
          · exact rooms_depart_absent_other _ _ _ _ _ hI.2.2.1 hxc hprev
          · exact hprev
        · have hxc' : x = c := by simpa using hx
          subst hxc'
          rw [if_pos hxc]
          exact rooms_depart_absent_self _ _ _ hI.2.2.1 hI.2.2.2.1 hI.2.2.2.2.1 hxc
    · have hstep : monitor_slot now (sweep_upto s now i) i = sweep_upto s now i := by
        unfold monitor_slot
        simp only
        rw [hat]
        exact if_neg hev
      rw [hstep]
      refine ⟨hI, fun j => ?_, ?_, ?_, ?_⟩
      · rw [hcl j]
        by_cases hji : j = i
        · subst hji
          rw [if_neg (Nat.lt_irrefl j), if_pos (Nat.lt_succ_self j), hci]
          simp [hev]
        · by_cases hj : j < i
          · rw [if_pos hj, if_pos (by omega)]
          · rw [if_neg hj, if_neg (by omega)]
      · rw [hcnt, htake, List.countP_append]
        simp [hev]
      · rw [hjq, htake, List.flatMap_append]
        simp [eviction_jobs, hev]
      · intro x hx hxe hxc
        rw [htake, List.mem_append] at hx
        rcases hx with hx | hx
        · exact habs x hx hxe hxc
        · have hxc' : x = c := by simpa using hx
          subst hxc'
          exact absurd hxe hev

theorem monitor_clients_eq_sweep_upto (s : ServerState) (now : Int) :
    monitor_clients s now = sweep_upto s now MAX_CLIENTS := rfl

/-- C16. In a registry with `MAX_CLIENTS` client slots, unique handles, unique room names,
member arrays and counts of the declared sizes, duplicate-free member lists and every
current channel backed by its room, one sweep at time `now` (1) zeroes exactly the slots of
the occupied entries with `now - last_active > 120` and leaves every other slot as it was,
so that an entry idle for exactly 120 is kept; (2) lowers `client_count` by the number of
those entries; (3) leaves no evicted handle in the member list of a room named after its
channel; (4) appends to the job queue, in slot order, for each evicted entry the notice
`You have been disconnected due to inactivity.` addressed to its reply mailbox, directly
followed by the departure broadcast to its channel when it was in one, and nothing else;
(5) keeps every remaining client in the member list of its current channel. -/
theorem monitor_sweep_evicts (s : ServerState) (now : Int)
    (hlen : s.registry.clients.length = MAX_CLIENTS)
    (hU : UniqueHandles s.registry)
    (hS : RoomsShape s.registry.rooms)
    (hN : UniqueNames s.registry.rooms)
    (hV : MembersValid s.registry)
    (hB : CurrentChannelsBacked s.registry) :
    (monitor_clients s now).registry.clients =
      s.registry.clients.map
        (fun c => if c.pid ≠ 0 ∧ now - c.last_active > INACTIVITY_TIMEOUT then zero_client
          else c) ∧
    (monitor_clients s now).registry.client_count =
      s.registry.client_count -
        (s.registry.clients.countP
          (fun c => decide (c.pid ≠ 0 ∧ now - c.last_active > INACTIVITY_TIMEOUT)) : Nat) ∧
    (∀ c ∈ s.registry.clients, c.pid ≠ 0 → now - c.last_active > INACTIVITY_TIMEOUT →
      c.current_channel ≠ "" →
      ∀ room ∈ (monitor_clients s now).registry.rooms,
        room.channel_name = c.current_channel → c.pid ∉ room.member_list) ∧
    (monitor_clients s now).job_queue =
      s.job_queue ++ s.registry.clients.flatMap (eviction_jobs now) ∧
    CurrentChannelsBacked (monitor_clients s now).registry := by
  have hinv : SweepInv s.registry :=
    ⟨hlen, hU, hS, hN, fun room hr hn => (hV room hr hn).1, hB⟩
  obtain ⟨hI, hcl, hcnt, hjq, habs⟩ :=
    sweep_upto_spec s now hinv MAX_CLIENTS (by rw [hlen])
  have htake : s.registry.clients.take MAX_CLIENTS = s.registry.clients :=
    List.take_of_length_le (by rw [hlen])
  rw [htake] at hcnt hjq habs
  rw [monitor_clients_eq_sweep_upto]
  refine ⟨?_, hcnt, ?_, hjq, hI.2.2.2.2.2⟩
  · apply List.ext_getElem?
    intro j
    rw [hcl j, List.getElem?_map]
    by_cases hj : j < MAX_CLIENTS
    · rw [if_pos hj]
      rfl
    · rw [if_neg hj, List.getElem?_eq_none (by rw [hlen]; omega)]
      rfl
  · intro c hc h0 hidle hch
    exact habs c hc ⟨h0, hidle⟩ hch

/-- C16 on handles 5 and 6 in `#a`, last active at 0 and 100, swept at time 220: handle 5
is evicted, handle 6, idle for exactly 120, is kept. -/
theorem monitor_sweep_evicts_witness :
    (monitor_clients sample_state_sweep 220).registry.clients =
      [ zero_client,
        { pid := 6, reply_qid := 1006, current_channel := "#a", last_active := 100 },
        zero_client, zero_client, zero_client, zero_client, zero_client, zero_client,
        zero_client, zero_client ] ∧
    (room_at (monitor_clients sample_state_sweep 220).registry 1).member_list = [6] ∧
    (monitor_clients sample_state_sweep 220).job_queue =
      sample_state_sweep.job_queue ++
        [ server_unicast 1005 "You have been disconnected due to inactivity.",
          server_broadcast "#a" "User 5 has left the chat." ] ∧
    (monitor_clients sample_state_sweep 220).job_queue =
      sample_state_sweep.job_queue ++
        sample_state_sweep.registry.clients.flatMap (eviction_jobs 220) :=
  ⟨by decide, by decide, by decide,
    (monitor_sweep_evicts sample_state_sweep 220 (by decide)
      (backed_inv_of_trace sample_events_sweep (by decide)).2.1
      (by decide)
      (backed_inv_of_trace sample_events_sweep (by decide)).2.2.1.2.1
      (by decide) (by decide)).2.2.2.1⟩

/-! ## Commands outside a channel -/

/-- C22. When the sender is found in the table and its current channel is empty, MSG and
LEAVE each return the state with exactly one job appended, a unicast error with label
`SERVER` to the reply mailbox named in the command: no broadcast is enqueued and the
registry is unchanged. -/
theorem msg_leave_outside_channel (s : ServerState) (cmd : CommandMessage) (k : Nat)
    (hk : find_client_index s.registry cmd.sender_pid = some k)
    (hcc : (client_at s.registry k).current_channel = "") :
    handle_msg s cmd =
      add_job s (server_unicast cmd.reply_qid
        "Error: You are not in a channel. Use JOIN <#channel>.") ∧
    handle_leave s cmd =
      add_job s (server_unicast cmd.reply_qid "Error: You are not currently in any channel.") := by
  constructor
  · unfold handle_msg
    rw [hk]
    simp only
    rw [if_pos hcc]
  · unfold handle_leave
    rw [hk]
    simp only
    rw [if_pos hcc]

/-- C22 on handle 5, registered and in no channel. -/
theorem msg_leave_outside_channel_witness :
    (server_unicast (sample_cmd .CMD_MSG 5 "").reply_qid
        "Error: You are not in a channel. Use JOIN <#channel>.").type = .CMD_DM ∧
    handle_msg sample_state_one (sample_cmd .CMD_MSG 5 "") =
      add_job sample_state_one (server_unicast (sample_cmd .CMD_MSG 5 "").reply_qid
        "Error: You are not in a channel. Use JOIN <#channel>.") ∧
    handle_leave sample_state_one (sample_cmd .CMD_MSG 5 "") =
      add_job sample_state_one (server_unicast (sample_cmd .CMD_MSG 5 "").reply_qid
        "Error: You are not currently in any channel.") :=
  ⟨by decide,
    msg_leave_outside_channel sample_state_one (sample_cmd .CMD_MSG 5 "") 0 (by decide)
      (by decide)⟩

/-! ## Isolation of deliveries -/

theorem broadcast_members_attempts (r : GlobalRegistry) (sender_name message : String)
    (results1 results2 : Nat → SendResult) (members : List Int) :
    ∀ i : Nat,
      (broadcast_members r sender_name message results1 members i).map Prod.fst =
        (broadcast_members r sender_name message results2 members i).map Prod.fst := by
  induction members with
  | nil => intro i; rfl
  | cons m rest ih =>
    intro i
    rw [broadcast_members, broadcast_members, List.map_append, List.map_append, ih (i + 1)]
    cases find_client_index r m with
    | none => rfl
    | some idx => rfl

/-- C25. The delivery attempts the worker makes for a job (mailbox, label and text, in
order) are the same under any two assignments of send results to the attempts: the outcome
of one send never changes which later sends are attempted. -/
theorem attempts_independent_of_results (r : GlobalRegistry) (job : Job)
    (results1 results2 : Nat → SendResult) :
    (process_job r job results1).map Prod.fst = (process_job r job results2).map Prod.fst := by
  unfold process_job
  split_ifs
  · cases find_room_index r job.target_channel with
    | none => rfl
    | some idx => exact broadcast_members_attempts r _ _ results1 results2 _ 0
  · rfl
  · rfl

/-! ## Bounds of the member arrays -/

/-- C26. Over every sequence of handler calls and monitor sweeps from initialisation whose
JOINs carry channel names of at most 31 bytes, no copy runs past a field and every room slot
has a `members` array of `MAX_CLIENTS` cells and a `member_count` of at most `MAX_CLIENTS`,
hence within the array. The claim also covers longer names, and there the code breaks it:
after REGISTER 5, a JOIN by 5 whose channel string runs to 152 bytes is copied by `strcpy`
(main.c:340) past the 32-byte `channel_name` of the created room and through the whole next
slot up to its `member_count`, which receives bytes 148 to 151 of the string (0x63636363
for a string of `c`), far above `MAX_CLIENTS`. -/
theorem member_count_bounded :
    (∀ events : List Event, trace_ok channel_fits init_server_state events →
      (run init_server_state events).registry.overflowed = false ∧
        ∀ room ∈ (run init_server_state events).registry.rooms,
          room.members.length = MAX_CLIENTS ∧ room.member_count ≤ MAX_CLIENTS ∧
            room.member_count ≤ room.members.length) ∧
    (run init_server_state (sample_events_long 152)).registry.overflowed = true := by
  refine ⟨fun events hfit => ⟨run_init_overflowed events hfit, ?_⟩,
    sample_events_long_overflowed 152 (by decide)⟩
  intro room hroom
  have h := run_unconditional (fun r => RoomsShape r.rooms) step_rooms_shape events
    init_server_state init_rooms_shape room hroom
  exact ⟨h.1, h.2, by rw [h.1]; exact h.2⟩

/-- C26 on the room `#a` of the sample state, reached with names that fit. -/
theorem member_count_bounded_witness :
    trace_ok channel_fits init_server_state sample_events_one ∧
      room_at sample_state_one.registry 1 ∈ sample_state_one.registry.rooms ∧
      (room_at sample_state_one.registry 1).members.length = MAX_CLIENTS ∧
      (room_at sample_state_one.registry 1).member_count ≤ MAX_CLIENTS ∧
      (room_at sample_state_one.registry 1).member_count ≤
        (room_at sample_state_one.registry 1).members.length :=
  ⟨by decide, by decide,
    (member_count_bounded.1 sample_events_one (by decide)).2
      (room_at sample_state_one.registry 1) (by decide)⟩

/-! ## Read-only handlers -/

/-- C27. For every state and every control message, the registry after `handle_msg`,
`handle_dm` and `handle_who` (client table, room table and both counters) is the registry
before: these handlers change nothing but the job queue. -/
theorem read_only_handlers_keep_registry (s : ServerState) (cmd : CommandMessage) :
    (handle_msg s cmd).registry = s.registry ∧
      (handle_dm s cmd).registry = s.registry ∧
      (handle_who s cmd).registry = s.registry :=
  ⟨handle_msg_registry s cmd, handle_dm_registry s cmd, handle_who_registry s cmd⟩

/-! ## Order of the jobs of JOIN -/

theorem join_leave_old_job_queue (s : ServerState) (cmd : CommandMessage) (old : String) :
    (join_leave_old s cmd old).job_queue =
      s.job_queue ++
        (if old ≠ "" ∧ old ≠ cmd.channel ∧ find_room_index s.registry old ≠ none then
          [server_broadcast old
            ("User " ++ fmt_int cmd.sender_pid ++ " left the channel (Joined " ++
              cmd.channel ++ ").")]
         else []) := by
  unfold join_leave_old
  by_cases h : old ≠ "" ∧ old ≠ cmd.channel
  · rw [if_pos h]
    cases hf : find_room_index s.registry old with
    | none =>
      rw [if_neg (fun hc => hc.2.2 rfl), List.append_nil]
    | some idx =>
      rw [if_pos ⟨h.1, h.2, by simp⟩]
      rfl
  · rw [if_neg h, if_neg (fun hc => h ⟨hc.1, hc.2.1⟩), List.append_nil]

theorem join_find_or_create_lookup_old (r r1 : GlobalRegistry) (ch old : String) (n : Nat)
    (hj : join_find_or_create r ch = some (r1, n)) (hold : old ≠ "") (hne : old ≠ ch) :
    find_room_index r1 old = find_room_index r old := by
  rcases join_find_or_create_some r ch r1 n hj with ⟨_, h1⟩ | ⟨_, hn, _, h1⟩
  · rw [h1]
  · rw [h1]
    exact (create_keeps_lookup r n ch old hn hold hne).1

theorem join_find_or_create_first (r r1 : GlobalRegistry) (ch : String) (n : Nat)
    (hj : join_find_or_create r ch = some (r1, n)) : FirstNamed r1.rooms ch n := by
  rcases join_find_or_create_some r ch r1 n hj with ⟨hf, h1⟩ | ⟨hnone, hn, _, h1⟩
  · rw [h1]
    exact (first_named_iff _ _ _).mp hf
  · rw [h1]
    exact rooms_create_first_named r.rooms ch n hnone (first_index_lt _ _ _ hn)

/-- After a JOIN that found or created its room at slot `n`, the lookup of the channel name
gives `n`, for a non-empty name and also for a JOIN that names the current channel. -/
theorem handle_join_lookup (s : ServerState) (cmd : CommandMessage) (k : Nat)
    (hk : find_client_index s.registry cmd.sender_pid = some k)
    (r1 : GlobalRegistry) (n : Nat)
    (hj : join_find_or_create s.registry cmd.channel = some (r1, n))
    (h : cmd.channel ≠ "" ∨ (client_at s.registry k).current_channel = cmd.channel) :
    find_room_index (handle_join s cmd).registry cmd.channel = some n := by
  have hfn := join_find_or_create_first _ _ _ _ hj
  have hrooms := handle_join_rooms s cmd k hk r1 n hj
  unfold find_room_index
  rw [hrooms, first_named_iff]
  apply rooms_add_first_named
  split_ifs with hc
  · rcases h with hch | hcc
    · exact (rooms_depart_first_named _ _ _ _ _ hch hc.2 hfn).1
    · exact absurd hcc hc.2
  · exact hfn

/-- The jobs a JOIN appends once its room is found or created at slot `n`: the departure
broadcast to the old channel when there is one, it differs from the new one and names a
room; the confirmation with the member count of slot `n` after the handler; the join
broadcast. -/
theorem handle_join_job_queue (s : ServerState) (cmd : CommandMessage) (k : Nat)
    (hk : find_client_index s.registry cmd.sender_pid = some k)
    (r1 : GlobalRegistry) (n : Nat)
    (hj : join_find_or_create s.registry cmd.channel = some (r1, n)) :
    (handle_join s cmd).job_queue =
      s.job_queue ++
        (if (client_at s.registry k).current_channel ≠ "" ∧
            (client_at s.registry k).current_channel ≠ cmd.channel ∧
            (∃ room ∈ s.registry.rooms,
              room.channel_name = (client_at s.registry k).current_channel) then
          [server_broadcast (client_at s.registry k).current_channel
            ("User " ++ fmt_int cmd.sender_pid ++ " left the channel (Joined " ++
              cmd.channel ++ ").")]
         else []) ++
        [ server_unicast cmd.reply_qid
            ("You have joined " ++ cmd.channel ++ ". Total members: " ++
              fmt_int ((room_at (handle_join s cmd).registry n).member_count : Int)),
          server_broadcast cmd.channel
            ("User " ++ fmt_int cmd.sender_pid ++ " has joined the channel.") ] := by
  have hq : (handle_join s cmd).job_queue =
      (join_leave_old { s with registry := r1 } cmd
        (client_at s.registry k).current_channel).job_queue ++
        [ server_unicast cmd.reply_qid
            ("You have joined " ++ cmd.channel ++ ". Total members: " ++
              fmt_int ((room_at (handle_join s cmd).registry n).member_count : Int)),
          server_broadcast cmd.channel
            ("User " ++ fmt_int cmd.sender_pid ++ " has joined the channel.") ] := by
    unfold handle_join
    rw [hk]
    simp only [hj, add_job, List.append_assoc, List.singleton_append]
  rw [hq, join_leave_old_job_queue]
  congr 2
  by_cases h1 : (client_at s.registry k).current_channel ≠ "" ∧
      (client_at s.registry k).current_channel ≠ cmd.channel
  · have hlook := join_find_or_create_lookup_old _ _ _ _ _ hj h1.1 h1.2
    by_cases h2 : ∃ room ∈ s.registry.rooms,
        room.channel_name = (client_at s.registry k).current_channel
    · have h3 : find_room_index r1 (client_at s.registry k).current_channel ≠ none := by
        rw [hlook]
        intro hnone
        obtain ⟨room, hroom, hname⟩ := h2
        exact (find_room_index_none _ _).mp hnone room hroom hname
      rw [if_pos ⟨h1.1, h1.2, h3⟩, if_pos ⟨h1.1, h1.2, h2⟩]
    · have h3 : ¬ find_room_index r1 (client_at s.registry k).current_channel ≠ none := by
        rw [hlook]
        intro hne
        apply hne
        rw [find_room_index_none]
        intro room hroom hname
        exact h2 ⟨room, hroom, hname⟩
      rw [if_neg (fun hc => h3 hc.2.2), if_neg (fun hc => h2 hc.2.2)]
  · rw [if_neg (fun hc => h1 ⟨hc.1, hc.2.1⟩), if_neg (fun hc => h1 ⟨hc.1, hc.2.1⟩)]

/-- The target room can be neither found nor created exactly when no room has the name and
there is no unnamed slot or `room_count` has reached `MAX_CHANNELS`. -/
theorem join_find_or_create_none (r : GlobalRegistry) (ch : String) :
    join_find_or_create r ch = none ↔
      find_room_index r ch = none ∧
        (find_room_index r "" = none ∨ (MAX_CHANNELS : Int) ≤ r.room_count) := by
  unfold join_find_or_create
  cases h1 : find_room_index r ch with
  | some n => simp
  | none =>
    cases h2 : find_room_index r "" with
    | none => simp
    | some m =>
      simp only
      by_cases h3 : r.room_count < MAX_CHANNELS
      · rw [if_pos h3]
        constructor
        · intro h; exact absurd h (Option.some_ne_none _)
        · rintro ⟨_, h | h⟩
          · exact absurd h (Option.some_ne_none _)
          · exact absurd h3 (not_lt.mpr h)
      · rw [if_neg h3]
        exact ⟨fun _ => ⟨trivial, Or.inr (not_lt.mp h3)⟩, fun _ => rfl⟩

/-- C21. For a JOIN of a non-empty channel name `B` by a sender found in the table, when
the room is found or created. When `B` has at most 31 bytes, no copy runs past a field and
the handler appends to the job queue, in this order: the broadcast
`User h left the channel (Joined B).` to the old channel `A`, exactly when the client's
current channel `A` is non-empty, differs from `B` and names a room of the table; the
unicast `You have joined B. Total members: n` to the reply mailbox named in the command,
where `n` is the member count, after the handler, of the room that the lookup finds for `B`;
and the broadcast `User h has joined the channel.` to `B`. When `B` has 32 bytes or more,
`strcpy` writes it past the 32-byte `current_channel` of the client and past the 32-byte
`target_channel` of the join job (main.c:374, 388): from 36 bytes on the tail of the name
lies in the `message` field of the job, where the announcement is then formatted over it, so
the queued job is not a broadcast to `B`. -/
theorem join_jobs_in_order (s : ServerState) (cmd : CommandMessage) (k : Nat)
    (hk : find_client_index s.registry cmd.sender_pid = some k)
    (hch : cmd.channel ≠ "")
    (hjoin : join_find_or_create s.registry cmd.channel ≠ none) :
    (cmd.channel.length < MAX_CHANNEL →
      (handle_join s cmd).registry.overflowed = s.registry.overflowed ∧
      ∃ idx : Nat,
        find_room_index (handle_join s cmd).registry cmd.channel = some idx ∧
        (handle_join s cmd).job_queue =
          s.job_queue ++
            (if (client_at s.registry k).current_channel ≠ "" ∧
                (client_at s.registry k).current_channel ≠ cmd.channel ∧
                (∃ room ∈ s.registry.rooms,
                  room.channel_name = (client_at s.registry k).current_channel) then
              [server_broadcast (client_at s.registry k).current_channel
                ("User " ++ fmt_int cmd.sender_pid ++ " left the channel (Joined " ++
                  cmd.channel ++ ").")]
             else []) ++
            [ server_unicast cmd.reply_qid
                ("You have joined " ++ cmd.channel ++ ". Total members: " ++
                  fmt_int ((room_at (handle_join s cmd).registry idx).member_count : Int)),
              server_broadcast cmd.channel
                ("User " ++ fmt_int cmd.sender_pid ++ " has joined the channel.") ]) ∧
    (MAX_CHANNEL ≤ cmd.channel.length →
      (handle_join s cmd).registry.overflowed = true) := by
  refine ⟨fun hfit => ⟨handle_join_overflowed s cmd hfit, ?_⟩,
    fun hlong => handle_join_overflows s cmd k hk hjoin hlong⟩
  cases hj : join_find_or_create s.registry cmd.channel with
  | none => exact absurd hj hjoin
  | some p =>
    obtain ⟨r1, n⟩ := p
    exact ⟨n, handle_join_lookup s cmd k hk r1 n hj (Or.inl hch),
      handle_join_job_queue s cmd k hk r1 n hj⟩

/-- C21 on the echo scenario (handle 5 registers, joins `#r` and sends `hello`: the queue
holds the welcome, the confirmation, the join broadcast and the message, in this order), on
handle 5 moving from `#a` to `#b`, and on handle 5 joining a channel whose name runs to 36
bytes, where the copy overruns. -/
theorem join_jobs_in_order_witness :
    (run init_server_state sample_events_echo).job_queue =
      [ server_unicast 1005 "Welcome User 5! Use JOIN <#channel> or WHO <#channel>.",
        server_unicast 1005 "You have joined #r. Total members: 1",
        server_broadcast "#r" "User 5 has joined the channel.",
        { type := .CMD_MSG, sender_name := "[#r] User 5", target_channel := "#r",
          target_qid := 0, message := "hello" } ] ∧
    (handle_join sample_state_two (sample_cmd .CMD_JOIN 5 "#b")).job_queue =
      sample_state_two.job_queue ++
        [ server_broadcast "#a" "User 5 left the channel (Joined #b).",
          server_unicast 1005 "You have joined #b. Total members: 1",
          server_broadcast "#b" "User 5 has joined the channel." ] ∧
    (∃ idx : Nat,
      find_room_index (handle_join sample_state_two (sample_cmd .CMD_JOIN 5 "#b")).registry
        (sample_cmd .CMD_JOIN 5 "#b").channel = some idx ∧
      (handle_join sample_state_two (sample_cmd .CMD_JOIN 5 "#b")).job_queue =
        sample_state_two.job_queue ++
          (if (client_at sample_state_two.registry 0).current_channel ≠ "" ∧
              (client_at sample_state_two.registry 0).current_channel ≠
                (sample_cmd .CMD_JOIN 5 "#b").channel ∧
              (∃ room ∈ sample_state_two.registry.rooms,
                room.channel_name = (client_at sample_state_two.registry 0).current_channel) then
            [server_broadcast (client_at sample_state_two.registry 0).current_channel
              ("User " ++ fmt_int (sample_cmd .CMD_JOIN 5 "#b").sender_pid ++
                " left the channel (Joined " ++ (sample_cmd .CMD_JOIN 5 "#b").channel ++ ").")]
           else []) ++
          [ server_unicast (sample_cmd .CMD_JOIN 5 "#b").reply_qid
              ("You have joined " ++ (sample_cmd .CMD_JOIN 5 "#b").channel ++
                ". Total members: " ++
                fmt_int ((room_at (handle_join sample_state_two
                  (sample_cmd .CMD_JOIN 5 "#b")).registry idx).member_count : Int)),
            server_broadcast (sample_cmd .CMD_JOIN 5 "#b").channel
              ("User " ++ fmt_int (sample_cmd .CMD_JOIN 5 "#b").sender_pid ++
                " has joined the channel.") ]) ∧
    (handle_join sample_state_five
      (sample_cmd .CMD_JOIN 5 (sample_name 36))).registry.overflowed = true :=
  ⟨by decide, by decide,
    ((join_jobs_in_order sample_state_two (sample_cmd .CMD_JOIN 5 "#b") 0 (by decide)
      (by decide) (by decide)).1 (by decide)).2,
    (join_jobs_in_order sample_state_five (sample_cmd .CMD_JOIN 5 (sample_name 36)) 0
      (by decide) (by decide) (by decide)).2 (by decide)⟩

/-! ## JOIN of the current channel -/

/-- C12, as amended. For a client found in the table whose current channel is `C`, a name
of at most 31 bytes (the bound of the 32-byte field that holds it), a JOIN naming `C`
enqueues no departure broadcast. When no room is named `C` and no room can be created (no
unnamed slot, or `room_count` at `MAX_CHANNELS`), the handler changes nothing but the queue,
to which it appends the room-limit error unicast alone. In every other case it writes past
no field and appends exactly two jobs: the confirmation unicast
`You have joined C. Total members: n` to the sender, where `n` is the member count, after
the handler, of the room the lookup finds for `C`, and then one broadcast, the join
announcement `User h has joined the channel.` addressed to `C`. -/
theorem join_current_channel_jobs (s : ServerState) (cmd : CommandMessage) (k : Nat)
    (hk : find_client_index s.registry cmd.sender_pid = some k)
    (hcc : (client_at s.registry k).current_channel = cmd.channel)
    (hfit : cmd.channel.length < MAX_CHANNEL) :
    (find_room_index s.registry cmd.channel = none →
      (find_room_index s.registry "" = none ∨
        (MAX_CHANNELS : Int) ≤ s.registry.room_count) →
      handle_join s cmd =
        add_job s (server_unicast cmd.reply_qid
          "Error: Cannot join/create channel, room limit reached.")) ∧
    ((find_room_index s.registry cmd.channel ≠ none ∨
        (find_room_index s.registry "" ≠ none ∧
          s.registry.room_count < (MAX_CHANNELS : Int))) →
      (handle_join s cmd).registry.overflowed = s.registry.overflowed ∧
      ∃ idx : Nat,
        find_room_index (handle_join s cmd).registry cmd.channel = some idx ∧
        (handle_join s cmd).job_queue =
          s.job_queue ++
            [ server_unicast cmd.reply_qid
                ("You have joined " ++ cmd.channel ++ ". Total members: " ++
                  fmt_int ((room_at (handle_join s cmd).registry idx).member_count : Int)),
              server_broadcast cmd.channel
                ("User " ++ fmt_int cmd.sender_pid ++ " has joined the channel.") ]) := by
  constructor
  · intro h1 h2
    have hj := (join_find_or_create_none s.registry cmd.channel).mpr ⟨h1, h2⟩
    unfold handle_join
    rw [hk]
    simp only [hj]
  · intro hcan
    refine ⟨handle_join_overflowed s cmd hfit, ?_⟩
    cases hj : join_find_or_create s.registry cmd.channel with
    | none =>
      obtain ⟨h1, h2⟩ := (join_find_or_create_none s.registry cmd.channel).mp hj
      rcases hcan with h3 | ⟨h3, h4⟩
      · exact absurd h1 h3
      · rcases h2 with h2 | h2
        · exact absurd h2 h3
        · exact absurd h4 (not_lt.mpr h2)
    | some p =>
      obtain ⟨r1, n⟩ := p
      refine ⟨n, handle_join_lookup s cmd k hk r1 n hj (Or.inr hcc), ?_⟩
      rw [handle_join_job_queue s cmd k hk r1 n hj, if_neg (fun hc => hc.2.1 hcc),
        List.append_nil]

/-- The amended C12 on handle 5 re-joining `#a`, where it is alone: the confirmation
reports one member and the join announcement follows. -/
theorem join_current_channel_jobs_witness :
    (handle_join sample_state_two (sample_cmd .CMD_JOIN 5 "#a")).registry.overflowed =
      sample_state_two.registry.overflowed ∧
    ∃ idx : Nat,
      find_room_index (handle_join sample_state_two (sample_cmd .CMD_JOIN 5 "#a")).registry
        (sample_cmd .CMD_JOIN 5 "#a").channel = some idx ∧
      (handle_join sample_state_two (sample_cmd .CMD_JOIN 5 "#a")).job_queue =
        sample_state_two.job_queue ++
          [ server_unicast (sample_cmd .CMD_JOIN 5 "#a").reply_qid
              ("You have joined " ++ (sample_cmd .CMD_JOIN 5 "#a").channel ++
                ". Total members: " ++
                fmt_int ((room_at (handle_join sample_state_two
                  (sample_cmd .CMD_JOIN 5 "#a")).registry idx).member_count : Int)),
            server_broadcast (sample_cmd .CMD_JOIN 5 "#a").channel
              ("User " ++ fmt_int (sample_cmd .CMD_JOIN 5 "#a").sender_pid ++
                " has joined the channel.") ] :=
  (join_current_channel_jobs sample_state_two (sample_cmd .CMD_JOIN 5 "#a") 0
    (by decide) (by decide) (by decide)).2 (by decide)

/-! ## The WHO line fits its buffer -/

theorem who_loop_remaining (count : Nat) : ∀ (pids : List Int) (i : Nat) (b : String)
    (rem : Int),
    (∀ m ∈ pids, (fmt_int m).length ≤ 11) →
    13 * (pids.length : Int) + 1 < rem →
    1 < (who_loop count pids i (b, rem)).2 ∧
      ((who_loop count pids i (b, rem)).1.length : Int) + (who_loop count pids i (b, rem)).2 =
        (b.length : Int) + rem := by
  intro pids
  induction pids with
  | nil =>
    intro i b rem _ hrem
    exact ⟨by simpa [who_loop] using hrem, by simp [who_loop]⟩
  | cons pid rest ih =>
    intro i b rem hlen hrem
    have hp := hlen pid (List.mem_cons_self _ _)
    have hsep : (if i + 1 < count then ", " else "").length ≤ 2 := by
      split_ifs
      · exact Nat.le_refl 2
      · exact Nat.zero_le 2
    have htl : (fmt_int pid ++ (if i + 1 < count then ", " else "")).length ≤ 13 := by
      rw [String.length_append]; omega
    simp only [List.length_cons, Nat.cast_add, Nat.cast_one] at hrem
    have hfit : ((fmt_int pid ++ (if i + 1 < count then ", " else "")).length : Int) < rem := by
      omega
    rw [who_loop, snprintf_step_fits _ _ _ hfit]
    have hgo : ¬ (rem - ((fmt_int pid ++ (if i + 1 < count then ", " else "")).length : Int)
        ≤ 1) := by omega
    simp only [if_neg hgo]
    have hih := ih (i + 1) (b ++ (fmt_int pid ++ (if i + 1 < count then ", " else "")))
      (rem - ((fmt_int pid ++ (if i + 1 < count then ", " else "")).length : Int))
      (fun m hm => hlen m (List.mem_cons_of_mem _ hm))
      (by omega)
    refine ⟨hih.1, ?_⟩
    rw [hih.2, String.length_append]
    push_cast
    omega

theorem who_loop_append (count : Nat) (l2 : List Int) : ∀ (l1 : List Int) (i : Nat)
    (buf : String × Int), 1 < (who_loop count l1 i buf).2 →
    who_loop count (l1 ++ l2) i buf =
      who_loop count l2 (i + l1.length) (who_loop count l1 i buf) := by
  intro l1
  induction l1 with
  | nil => intro i buf _; rfl
  | cons pid rest ih =>
    intro i buf h
    rw [who_loop] at h
    rw [List.cons_append, who_loop, who_loop]
    by_cases hb : (snprintf_step buf
        (fmt_int pid ++ (if i + 1 < count then ", " else ""))).2 ≤ 1
    · simp only [if_pos hb] at h
      omega
    · simp only [if_neg hb] at h ⊢
      rw [ih (i + 1) _ h, List.length_cons]
      congr 1
      omega

/-- C29. For a channel name of at most 31 characters and a room slot with a member array of
`MAX_CLIENTS` cells, a count within it and 32-bit handles: after the header and after each
of the `member_count` iterations of the loop of `handle_who`, `remaining` is greater than 1
(so the exit `remaining <= 1` is never taken) and the number of bytes written plus
`remaining` is `MAX_TEXT_SIZE` (so the write position stays inside the buffer), the rest of
the loop continuing from there; the buffer ends with the header followed by every member,
and the line copied into the job is that text, shorter than `MAX_TEXT_SIZE`. -/
theorem who_line_fits (channel : String) (room : RoomEntry)
    (hch : channel.length < MAX_CHANNEL)
    (hshape : room.members.length = MAX_CLIENTS ∧ room.member_count ≤ MAX_CLIENTS)
    (hrange : ∀ m ∈ room.member_list, -(2 ^ 31) ≤ m ∧ m < 2 ^ 31) :
    (∀ k : Nat, k ≤ room.member_count →
      1 < (who_loop room.member_count (room.member_list.take k) 0
            (snprintf_step ("", (MAX_TEXT_SIZE : Int))
              ("Members of " ++ channel ++ " (" ++ fmt_int room.member_count ++ "): "))).2 ∧
      ((who_loop room.member_count (room.member_list.take k) 0
            (snprintf_step ("", (MAX_TEXT_SIZE : Int))
              ("Members of " ++ channel ++ " (" ++ fmt_int room.member_count ++
                "): "))).1.length : Int) +
          (who_loop room.member_count (room.member_list.take k) 0
            (snprintf_step ("", (MAX_TEXT_SIZE : Int))
              ("Members of " ++ channel ++ " (" ++ fmt_int room.member_count ++ "): "))).2 =
        MAX_TEXT_SIZE ∧
      who_loop room.member_count room.member_list 0
          (snprintf_step ("", (MAX_TEXT_SIZE : Int))
            ("Members of " ++ channel ++ " (" ++ fmt_int room.member_count ++ "): ")) =
        who_loop room.member_count (room.member_list.drop k) k
          (who_loop room.member_count (room.member_list.take k) 0
            (snprintf_step ("", (MAX_TEXT_SIZE : Int))
              ("Members of " ++ channel ++ " (" ++ fmt_int room.member_count ++ "): ")))) ∧
    (who_loop room.member_count room.member_list 0
        (snprintf_step ("", (MAX_TEXT_SIZE : Int))
          ("Members of " ++ channel ++ " (" ++ fmt_int room.member_count ++ "): "))).1 =
      "Members of " ++ channel ++ " (" ++ fmt_int room.member_count ++ "): " ++
        ", ".intercalate (room.member_list.map fmt_int) ∧
    who_line channel room =
      "Members of " ++ channel ++ " (" ++ fmt_int room.member_count ++ "): " ++
        ", ".intercalate (room.member_list.map fmt_int) ∧
    (who_line channel room).length < MAX_TEXT_SIZE := by
  have hlen : room.member_list.length = room.member_count := by
    unfold RoomEntry.member_list
    rw [List.length_take]
    omega
  have hn := fmt_int_count_length room.member_count hshape.2
  have hhead : ("Members of " ++ channel ++ " (" ++ fmt_int (room.member_count : Int) ++
      "): ").length ≤ 49 := by
    simp only [String.length_append]
    have e1 : "Members of ".length = 11 := rfl
    have e2 : " (".length = 2 := rfl
    have e3 : "): ".length = 3 := rfl
    unfold MAX_CHANNEL at hch
    omega
  have hcnt : room.member_list.length ≤ 10 := by
    rw [hlen]; exact hshape.2
  have hfmt : ∀ m ∈ room.member_list, (fmt_int m).length ≤ 11 :=
    fun m hm => fmt_int_length m (hrange m hm).1 (hrange m hm).2
  have hbuf0 := snprintf_step_fits ""
    ("Members of " ++ channel ++ " (" ++ fmt_int (room.member_count : Int) ++ "): ")
    (MAX_TEXT_SIZE : Int) (by unfold MAX_TEXT_SIZE; push_cast; omega)
  have hpre : ∀ k : Nat, k ≤ room.member_count →
      1 < (who_loop room.member_count (room.member_list.take k) 0
            (snprintf_step ("", (MAX_TEXT_SIZE : Int))
              ("Members of " ++ channel ++ " (" ++ fmt_int room.member_count ++ "): "))).2 ∧
      ((who_loop room.member_count (room.member_list.take k) 0
            (snprintf_step ("", (MAX_TEXT_SIZE : Int))
              ("Members of " ++ channel ++ " (" ++ fmt_int room.member_count ++
                "): "))).1.length : Int) +
          (who_loop room.member_count (room.member_list.take k) 0
            (snprintf_step ("", (MAX_TEXT_SIZE : Int))
              ("Members of " ++ channel ++ " (" ++ fmt_int room.member_count ++ "): "))).2 =
        MAX_TEXT_SIZE := by
    intro k hk
    rw [hbuf0]
    have htk : (room.member_list.take k).length ≤ 10 := by
      rw [List.length_take]; omega
    obtain ⟨h1, h2⟩ := who_loop_remaining room.member_count (room.member_list.take k) 0
      ("" ++ ("Members of " ++ channel ++ " (" ++ fmt_int (room.member_count : Int) ++ "): "))
      ((MAX_TEXT_SIZE : Int) - (("Members of " ++ channel ++ " (" ++
        fmt_int (room.member_count : Int) ++ "): ").length : Int))
      (fun m hm => hfmt m (List.mem_of_mem_take hm))
      (by unfold MAX_TEXT_SIZE; push_cast; omega)
    refine ⟨h1, ?_⟩
    rw [h2, String.empty_append]
    omega
  obtain ⟨_, hline⟩ := who_line_eq channel room hch hshape hrange
  have hfull := hpre room.member_count (Nat.le_refl _)
  have htake : room.member_list.take room.member_count = room.member_list :=
    List.take_of_length_le (by rw [hlen])
  rw [htake] at hfull
  have htext : (who_loop room.member_count room.member_list 0
        (snprintf_step ("", (MAX_TEXT_SIZE : Int))
          ("Members of " ++ channel ++ " (" ++ fmt_int room.member_count ++ "): "))).1 =
      "Members of " ++ channel ++ " (" ++ fmt_int room.member_count ++ "): " ++
        ", ".intercalate (room.member_list.map fmt_int) := by
    rw [hbuf0]
    have h := (who_loop_all room.member_count room.member_list 0
      ("" ++ ("Members of " ++ channel ++ " (" ++ fmt_int (room.member_count : Int) ++ "): "))
      ((MAX_TEXT_SIZE : Int) - (("Members of " ++ channel ++ " (" ++
        fmt_int (room.member_count : Int) ++ "): ").length : Int))
      (by omega) hfmt (by unfold MAX_TEXT_SIZE; push_cast; omega)).1
    rw [h, String.empty_append]
  refine ⟨fun k hk => ⟨(hpre k hk).1, (hpre k hk).2, ?_⟩, htext, hline, ?_⟩
  · have happ := who_loop_append room.member_count (room.member_list.drop k)
      (room.member_list.take k) 0 _ (hpre k hk).1
    rw [List.take_append_drop, Nat.zero_add, List.length_take, hlen,
      Nat.min_eq_left hk] at happ
    exact happ
  · rw [hline, ← htext]
    have h1 := hfull.1
    have h2 := hfull.2
    generalize who_loop room.member_count room.member_list 0
      (snprintf_step ("", (MAX_TEXT_SIZE : Int))
        ("Members of " ++ channel ++ " (" ++ fmt_int room.member_count ++ "): ")) = res
      at h1 h2 ⊢
    omega

/-! ## Inductiveness of the registry invariants -/

theorem registry_invariants_spec (r : GlobalRegistry) (h : RegistryInvariants r) :
    SpecInvariants r := by
  obtain ⟨_, _, h1, h2, h3, h4, h5, h6⟩ := h
  refine ⟨h1, h2, h3, ?_, h5, h6⟩
  intro room hroom hn
  obtain ⟨hnd, hw⟩ := h4 room hroom hn
  refine ⟨hnd, fun m hm => ?_⟩
  obtain ⟨c, hc, hc1, hc2, _⟩ := hw m hm
  exact ⟨c, hc, hc2, hc1⟩

theorem step_rooms_length (s : ServerState) (e : Event)
    (h : s.registry.rooms.length = MAX_CHANNELS) :
    (step s e).registry.rooms.length = MAX_CHANNELS :=
  step_rooms_ind (fun rooms => rooms.length = MAX_CHANNELS)
    (fun _ rooms => rooms.length = MAX_CHANNELS)
    (fun _ _ hr => hr)
    (fun n ch rooms hr _ _ => by
      show (rooms_create rooms n ch).length = MAX_CHANNELS
      unfold rooms_create; rw [List.length_set]; exact hr)
    (fun _ rooms ch pid hq => by
      show (rooms_depart rooms ch pid).length = MAX_CHANNELS
      rw [rooms_depart_length]; exact hq)
    (fun rooms ch pid hr => by
      show (rooms_depart rooms ch pid).length = MAX_CHANNELS
      rw [rooms_depart_length]; exact hr)
    (fun n rooms pid hq => by
      show (rooms_add rooms n pid).length = MAX_CHANNELS
      unfold rooms_add; rw [List.length_set]; exact hq)
    s e h

/-- C28, as amended. With invariant 4 in the form that every member of a named room is an
occupied client entry whose current channel is that room, invariants 1 to 6 and the array
sizes are preserved by every handler call and every monitor sweep, provided the command's
sender handle is non-zero, a REGISTER carries a handle that no slot holds and a JOIN
carries a channel name of at most 31 bytes; the step writes past no field, and the
invariants as the specification words them follow. -/
theorem registry_invariants_inductive (s : ServerState) (e : Event)
    (h : RegistryInvariants s.registry) (hok : well_formed_input s e)
    (hfit : channel_fits s e) :
    (step s e).registry.overflowed = s.registry.overflowed ∧
      RegistryInvariants (step s e).registry ∧ SpecInvariants (step s e).registry := by
  refine ⟨step_overflowed s e hfit, ?_⟩
  have key : RegistryInvariants (step s e).registry := by
    obtain ⟨hty, hS, h1, h2, h3, h4, h5, h6⟩ := h
    have hfresh : fresh_and_nonzero s e := by
      cases e with
      | command cmd now =>
        exact ⟨fun hc c hcm _ => hok.2 hc c hcm, fun _ => hok.1⟩
      | sweep now => exact ⟨trivial, trivial⟩
    have hnz : nonzero_register_quit s e := by
      cases e with
      | command cmd now => exact fun _ => hok.1
      | sweep now => exact trivial
    have hb := step_backed_inv s e ⟨hty.1, h1, ⟨hS, h2, h4⟩, h3⟩ hfresh
    obtain ⟨hlen', h1', ⟨hS', h2', h4'⟩, h3'⟩ := hb
    have hrl := step_rooms_length s e hty.2.1
    exact ⟨⟨hlen', hrl, fun room hr => (hS' room hr).1⟩, hS', h1', h2', h3', h4',
      step_no_empty s e h5, step_counts_match s e h6 hnz⟩
  exact ⟨key, registry_invariants_spec _ key⟩

/-- C28 fails as stated. The registry `sample_state_listed` has the array sizes of the C
types and satisfies invariants 1 to 6 as worded; the QUIT of handle 5, with a non-empty
channel field, zeroes its slot and leaves 5 in the member list of `#a`: invariant 4 no
longer holds. -/
theorem spec_invariants_not_inductive :
    WellTyped sample_state_listed.registry ∧
    SpecInvariants sample_state_listed.registry ∧
    well_formed_input sample_state_listed (.command (sample_cmd .CMD_QUIT 5 "#a") 1) ∧
    (sample_cmd .CMD_QUIT 5 "#a").channel ≠ "" ∧
    ¬ MembersValid
      (step sample_state_listed (.command (sample_cmd .CMD_QUIT 5 "#a") 1)).registry ∧
    ¬ SpecInvariants
      (step sample_state_listed (.command (sample_cmd .CMD_QUIT 5 "#a") 1)).registry := by
  decide

/-- The amended C28 on the sample state (handles 5 and 6 registered, 6 in `#a`) and a JOIN
of `#a` by handle 5. -/
theorem registry_invariants_inductive_witness :
    RegistryInvariants sample_state_one.registry ∧
    well_formed_input sample_state_one (.command (sample_cmd .CMD_JOIN 5 "#a") 3) ∧
    (step sample_state_one (.command (sample_cmd .CMD_JOIN 5 "#a") 3)).registry.overflowed =
      sample_state_one.registry.overflowed ∧
    RegistryInvariants
      (step sample_state_one (.command (sample_cmd .CMD_JOIN 5 "#a") 3)).registry ∧
    SpecInvariants
      (step sample_state_one (.command (sample_cmd .CMD_JOIN 5 "#a") 3)).registry :=
  ⟨by decide, by decide,
    registry_invariants_inductive sample_state_one (.command (sample_cmd .CMD_JOIN 5 "#a") 3)
      (by decide) (by decide) (by decide)⟩

/-! ## Liveness timestamps -/

theorem slots_rel_set_right (R : ClientEntry → ClientEntry → Prop)
    (cl0 cl : List ClientEntry) (k : Nat) (e : ClientEntry) (h : SlotsRel R cl0 cl)
    (he : ∀ c, cl0[k]? = some c → R c e) : SlotsRel R cl0 (cl.set k e) := by
  intro i c c1 hc hc1
  rcases getElem?_set_cases _ _ _ _ _ hc1 with ⟨h1, h2⟩ | ⟨_, h2⟩
  · subst h1
    rw [h2]
    exact he c hc
  · exact h i c c1 hc h2

theorem slots_rel_refl (R : ClientEntry → ClientEntry → Prop) (hR : ∀ c, R c c)
    (cl : List ClientEntry) : SlotsRel R cl cl := by
  intro i c c1 hc hc1
  rw [hc] at hc1
  rw [← Option.some.inj hc1]
  exact hR c

theorem keep_slot_refl (t : Int) (c : ClientEntry) : KeepSlot t c c := Or.inl ⟨rfl, rfl⟩

theorem handle_register_keep (s : ServerState) (cmd : CommandMessage) (t : Int) :
    SlotsRel (KeepSlot t) s.registry.clients (handle_register s cmd t).registry.clients := by
  rw [handle_register_registry]
  cases hf : find_client_index s.registry 0 with
  | none => exact slots_rel_refl _ (keep_slot_refl t) _
  | some slot =>
    obtain ⟨hget, hpid, _⟩ := find_client_index_some _ _ _ hf
    refine slots_rel_set_right _ _ _ slot _ (slots_rel_refl _ (keep_slot_refl t) _) ?_
    intro c hc
    rw [hget] at hc
    rw [← Option.some.inj hc]
    exact Or.inr ⟨hpid, rfl⟩

theorem handle_join_keep (s : ServerState) (cmd : CommandMessage) (t : Int) :
    SlotsRel (KeepSlot t) s.registry.clients (handle_join s cmd).registry.clients := by
  cases hk : find_client_index s.registry cmd.sender_pid with
  | none => rw [handle_join_registry, hk]; exact slots_rel_refl _ (keep_slot_refl t) _
  | some k =>
    cases hj : join_find_or_create s.registry cmd.channel with
    | none =>
      rw [handle_join_registry, hk]
      simp only [hj]
      exact slots_rel_refl _ (keep_slot_refl t) _
    | some p =>
      obtain ⟨r1, n⟩ := p
      obtain ⟨hget, _, _⟩ := find_client_index_some _ _ _ hk
      rw [handle_join_clients _ _ _ hk _ _ hj]
      refine slots_rel_set_right _ _ _ k _ (slots_rel_refl _ (keep_slot_refl t) _) ?_
      intro c hc
      rw [hget] at hc
      rw [← Option.some.inj hc]
      exact Or.inl ⟨rfl, rfl⟩

theorem handle_leave_keep (s : ServerState) (cmd : CommandMessage) (t : Int) :
    SlotsRel (KeepSlot t) s.registry.clients (handle_leave s cmd).registry.clients := by
  cases hk : find_client_index s.registry cmd.sender_pid with
  | none => rw [handle_leave_registry, hk]; exact slots_rel_refl _ (keep_slot_refl t) _
  | some k =>
    by_cases hch : (client_at s.registry k).current_channel = ""
    · rw [handle_leave_registry, hk]
      simp only [hch, if_true]
      exact slots_rel_refl _ (keep_slot_refl t) _
    · obtain ⟨hget, _, _⟩ := find_client_index_some _ _ _ hk
      rw [handle_leave_clients _ _ _ hk hch]
      refine slots_rel_set_right _ _ _ k _ (slots_rel_refl _ (keep_slot_refl t) _) ?_
      intro c hc
      rw [hget] at hc
      rw [← Option.some.inj hc]
      exact Or.inl ⟨rfl, rfl⟩

theorem remove_client_handler_slot (t : Int) (cl0 : List ClientEntry) (s : ServerState)
    (pid : Int) (h : SlotsRel (HandlerSlot t) cl0 s.registry.clients) :
    SlotsRel (HandlerSlot t) cl0 (remove_client s pid).registry.clients := by
  cases hk : find_client_index s.registry pid with
  | none => rw [remove_client_registry, hk]; exact h
  | some k =>
    rw [remove_client_clients _ _ _ hk]
    exact slots_rel_set_right _ _ _ k _ h (fun _ _ => Or.inr rfl)

/-- A handler other than QUIT keeps every occupied slot with its `last_active`. -/
theorem dispatch_keep (s : ServerState) (cmd : CommandMessage) (t : Int)
    (hnq : cmd.command ≠ .CMD_QUIT) :
    SlotsRel (KeepSlot t) s.registry.clients (dispatch s cmd t).registry.clients :=
  dispatch_preserves (fun r => SlotsRel (KeepSlot t) s.registry.clients r.clients) s cmd t
    (slots_rel_refl _ (keep_slot_refl t) _)
    (fun _ => handle_register_keep s cmd t)
    (fun _ => handle_join_keep s cmd t)
    (fun _ => handle_leave_keep s cmd t)
    (fun hq => absurd hq hnq)

theorem slots_rel_mono (R Q : ClientEntry → ClientEntry → Prop) (h : ∀ c c1, R c c1 → Q c c1)
    (cl cl1 : List ClientEntry) (hr : SlotsRel R cl cl1) : SlotsRel Q cl cl1 :=
  fun i c c1 hc hc1 => h c c1 (hr i c c1 hc hc1)

theorem dispatch_handler_slot (s : ServerState) (cmd : CommandMessage) (t : Int) :
    SlotsRel (HandlerSlot t) s.registry.clients (dispatch s cmd t).registry.clients :=
  dispatch_preserves (fun r => SlotsRel (HandlerSlot t) s.registry.clients r.clients) s cmd t
    (slots_rel_refl _ (fun c => Or.inl (keep_slot_refl t c)) _)
    (fun _ => slots_rel_mono _ _ (fun _ _ h => Or.inl h) _ _ (handle_register_keep s cmd t))
    (fun _ => slots_rel_mono _ _ (fun _ _ h => Or.inl h) _ _ (handle_join_keep s cmd t))
    (fun _ => slots_rel_mono _ _ (fun _ _ h => Or.inl h) _ _ (handle_leave_keep s cmd t))
    (fun _ => remove_client_handler_slot t _ s cmd.sender_pid
      (slots_rel_refl _ (fun c => Or.inl (keep_slot_refl t c)) _))

theorem monitor_handler_slot (s : ServerState) (now : Int) :
    SlotsRel (HandlerSlot now) s.registry.clients (monitor_clients s now).registry.clients :=
  monitor_preserves (fun r => SlotsRel (HandlerSlot now) s.registry.clients r.clients)
    (fun s1 pid _ h => remove_client_handler_slot now _ s1 pid h) s now
    (slots_rel_refl _ (fun c => Or.inl (keep_slot_refl now c)) _)

theorem touch_clients (s : ServerState) (cmd : CommandMessage) (t : Int) :
    (touch_last_active s cmd t).registry.clients =
      match find_client_index s.registry cmd.sender_pid with
      | none => s.registry.clients
      | some k => s.registry.clients.set k { client_at s.registry k with last_active := t } := by
  unfold touch_last_active
  cases find_client_index s.registry cmd.sender_pid with
  | none => rfl
  | some k => rfl

theorem touch_slot (s : ServerState) (cmd : CommandMessage) (t : Int) :
    SlotsRel (TouchSlot t) s.registry.clients (touch_last_active s cmd t).registry.clients := by
  rw [touch_clients]
  cases hk : find_client_index s.registry cmd.sender_pid with
  | none => exact slots_rel_refl _ (fun c => ⟨rfl, Or.inl rfl⟩) _
  | some k =>
    obtain ⟨hget, _, _⟩ := find_client_index_some _ _ _ hk
    refine slots_rel_set_right _ _ _ k _ (slots_rel_refl _ (fun c => ⟨rfl, Or.inl rfl⟩) _) ?_
    intro c hc
    rw [hget] at hc
    rw [← Option.some.inj hc]
    exact ⟨rfl, Or.inr rfl⟩

theorem touch_clients_length (s : ServerState) (cmd : CommandMessage) (t : Int) :
    (touch_last_active s cmd t).registry.clients.length = s.registry.clients.length := by
  rw [touch_clients]
  cases find_client_index s.registry cmd.sender_pid with
  | none => rfl
  | some k => simp only [List.length_set]

theorem dispatch_clients_length (s : ServerState) (cmd : CommandMessage) (t : Int) :
    (dispatch s cmd t).registry.clients.length = s.registry.clients.length := by
  have h := step_clients_length s (.command cmd t)
  rw [step_command] at h
  exact h

theorem monitor_clients_length (s : ServerState) (now : Int) :
    (monitor_clients s now).registry.clients.length = s.registry.clients.length := by
  have h := step_clients_length s (.sweep now)
  rw [step_sweep] at h
  exact h

theorem slot_step_facts (T t1 t2 : Int) (c c1 c2 : ClientEntry) (h1 : T ≤ t1) (h2 : t1 ≤ t2)
    (hc : c.pid ≠ 0 → c.last_active ≤ T) (ht : TouchSlot t1 c c1) (hh : HandlerSlot t2 c1 c2) :
    (c2.pid ≠ 0 → c2.last_active ≤ t2) ∧
      (c.pid ≠ 0 → c2.pid = c.pid → c.last_active ≤ c2.last_active) := by
  obtain ⟨hp1, hl1⟩ := ht
  rcases hh with (⟨hp2, hl2⟩ | ⟨hp2, hl2⟩) | hz
  · constructor
    · intro h0
      have hc0 : c.pid ≠ 0 := by rw [← hp1, ← hp2]; exact h0
      have := hc hc0
      rcases hl1 with hl1 | hl1 <;> omega
    · intro hc0 _
      have := hc hc0
      rcases hl1 with hl1 | hl1 <;> omega
  · constructor
    · intro _; omega
    · intro hc0 _
      exact absurd (hp1 ▸ hp2) hc0
  · constructor
    · intro h0; rw [hz] at h0; exact absurd rfl h0
    · intro hc0 hpid
      rw [hz] at hpid
      exact absurd hpid.symm hc0

theorem server_step_received (s : ServerState) (cmd : CommandMessage) (t1 t2 : Int) :
    server_step s (.received cmd t1 t2) = router_step s cmd t1 t2 := rfl

theorem server_step_sweep (s : ServerState) (now : Int) :
    server_step s (.sweep now) = monitor_clients s now := rfl

theorem server_step_slots (s : ServerState) (e : ServerEvent) (T : Int)
    (hclock : clock_ok T [e]) (i : Nat) (c c2 : ClientEntry)
    (hc : s.registry.clients[i]? = some c)
    (hc2 : (server_step s e).registry.clients[i]? = some c2) :
    ∃ (t1 t2 : Int) (c1 : ClientEntry), T ≤ t1 ∧ t1 ≤ t2 ∧ t2 = last_time T [e] ∧
      TouchSlot t1 c c1 ∧ HandlerSlot t2 c1 c2 := by
  cases e with
  | received cmd t1 t2 =>
    obtain ⟨h1, h2, _⟩ := hclock
    rw [server_step_received] at hc2
    have hi : i < (touch_last_active s cmd t1).registry.clients.length := by
      rw [touch_clients_length]
      exact (List.getElem?_eq_some.mp hc).1
    refine ⟨t1, t2, (touch_last_active s cmd t1).registry.clients[i], h1, h2, rfl, ?_, ?_⟩
    · exact touch_slot s cmd t1 i c _ hc (List.getElem?_eq_getElem hi)
    · exact dispatch_handler_slot (touch_last_active s cmd t1) cmd t2 i _ c2
        (List.getElem?_eq_getElem hi) hc2
  | sweep now =>
    obtain ⟨h1, _⟩ := hclock
    rw [server_step_sweep] at hc2
    exact ⟨now, now, c, h1, Int.le_refl _, rfl, ⟨rfl, Or.inl rfl⟩,
      monitor_handler_slot s now i c c2 hc hc2⟩

theorem server_step_clients_length (s : ServerState) (e : ServerEvent) :
    (server_step s e).registry.clients.length = s.registry.clients.length := by
  cases e with
  | received cmd t1 t2 =>
    rw [server_step_received]
    unfold router_step
    rw [dispatch_clients_length, touch_clients_length]
  | sweep now =>
    rw [server_step_sweep]
    exact monitor_clients_length s now

/-- One router iteration or sweep under a clock that does not go backwards: the bound on
the stored timestamps moves to the new clock value, and no slot that keeps its non-zero
handle gets an earlier `last_active`. -/
theorem server_step_monotone (s : ServerState) (e : ServerEvent) (T : Int)
    (hB : LastActiveBounded T s.registry) (hclock : clock_ok T [e]) :
    LastActiveBounded (last_time T [e]) (server_step s e).registry ∧
      ∀ (i : Nat) (c c2 : ClientEntry), s.registry.clients[i]? = some c →
        (server_step s e).registry.clients[i]? = some c2 → c.pid ≠ 0 → c2.pid = c.pid →
        c.last_active ≤ c2.last_active := by
  constructor
  · intro c2 hc2m h0
    obtain ⟨i, hi⟩ := List.mem_iff_getElem?.mp hc2m
    have hil : i < s.registry.clients.length := by
      rw [← server_step_clients_length s e]
      exact (List.getElem?_eq_some.mp hi).1
    have hc : s.registry.clients[i]? = some (s.registry.clients[i]) :=
      List.getElem?_eq_getElem hil
    obtain ⟨t1, t2, c1, h1, h2, h3, ht, hh⟩ := server_step_slots s e T hclock i _ c2 hc hi
    rw [← h3]
    exact (slot_step_facts T t1 t2 _ c1 c2 h1 h2
      (fun hp => hB _ (List.mem_iff_getElem?.mpr ⟨i, hc⟩) hp) ht hh).1 h0
  · intro i c c2 hc hc2 h0 hpid
    obtain ⟨t1, t2, c1, h1, h2, _, ht, hh⟩ := server_step_slots s e T hclock i c c2 hc hc2
    exact (slot_step_facts T t1 t2 c c1 c2 h1 h2
      (fun hp => hB _ (List.mem_iff_getElem?.mpr ⟨i, hc⟩) hp) ht hh).2 h0 hpid

theorem clock_ok_cons (T : Int) (e : ServerEvent) (es : List ServerEvent)
    (h : clock_ok T (e :: es)) : clock_ok T [e] ∧ clock_ok (last_time T [e]) es := by
  cases e with
  | received cmd t1 t2 => exact ⟨⟨h.1, h.2.1, trivial⟩, h.2.2⟩
  | sweep now => exact ⟨⟨h.1, trivial⟩, h.2⟩

theorem last_time_cons (T : Int) (e : ServerEvent) (es : List ServerEvent) :
    last_time T (e :: es) = last_time (last_time T [e]) es := by
  cases e with
  | received cmd t1 t2 => rfl
  | sweep now => rfl

theorem server_run_bounded : ∀ (es : List ServerEvent) (s : ServerState) (T : Int),
    LastActiveBounded T s.registry → clock_ok T es →
    LastActiveBounded (last_time T es) (server_run s es).registry := by
  intro es
  induction es with
  | nil => intro s T h _; exact h
  | cons e es ih =>
    intro s T h hclock
    obtain ⟨h1, h2⟩ := clock_ok_cons T e es hclock
    rw [last_time_cons]
    exact ih (server_step s e) _ (server_step_monotone s e T h h1).1 h2

theorem clock_ok_append : ∀ (pre es : List ServerEvent) (T : Int),
    clock_ok T (pre ++ es) → clock_ok T pre ∧ clock_ok (last_time T pre) es := by
  intro pre
  induction pre with
  | nil => intro es T h; exact ⟨trivial, h⟩
  | cons e pre ih =>
    intro es T h
    cases e with
    | received cmd t1 t2 =>
      obtain ⟨h1, h2, h3⟩ := h
      obtain ⟨h4, h5⟩ := ih es t2 h3
      exact ⟨⟨h1, h2, h4⟩, h5⟩
    | sweep now =>
      obtain ⟨h1, h3⟩ := h
      obtain ⟨h4, h5⟩ := ih es now h3
      exact ⟨⟨h1, h4⟩, h5⟩

theorem server_run_append (s : ServerState) (pre es : List ServerEvent) :
    server_run s (pre ++ es) = server_run (server_run s pre) es := by
  unfold server_run
  rw [List.foldl_append]

/-- Over a stretch of events during which slot `i` holds the non-zero handle `p` after
every event, the slot's `last_active` does not decrease. -/
theorem session_monotone : ∀ (mid : List ServerEvent) (s : ServerState) (T : Int) (i : Nat)
    (p : Int), LastActiveBounded T s.registry → clock_ok T mid → p ≠ 0 →
    (∀ k : Nat, k ≤ mid.length →
      ∃ c, (server_run s (mid.take k)).registry.clients[i]? = some c ∧ c.pid = p) →
    ∀ (c c2 : ClientEntry), s.registry.clients[i]? = some c →
      (server_run s mid).registry.clients[i]? = some c2 → c.last_active ≤ c2.last_active := by
  intro mid
  induction mid with
  | nil =>
    intro s T i p _ _ _ _ c c2 hc hc2
    have : (server_run s []).registry.clients[i]? = s.registry.clients[i]? := rfl
    rw [this, hc] at hc2
    rw [Option.some.inj hc2]
  | cons e rest ih =>
    intro s T i p hB hclock hp hses c c2 hc hc2
    obtain ⟨h1, h2⟩ := clock_ok_cons T e rest hclock
    obtain ⟨c0, hc0, hp0⟩ := hses 0 (Nat.zero_le _)
    have hc0' : s.registry.clients[i]? = some c0 := hc0
    rw [hc] at hc0'
    have hcp : c.pid = p := by rw [Option.some.inj hc0']; exact hp0
    obtain ⟨c1, hc1, hp1⟩ := hses 1 (by simp)
    have hc1' : (server_step s e).registry.clients[i]? = some c1 := hc1
    obtain ⟨hB1, hmono⟩ := server_step_monotone s e T hB h1
    have hstep := hmono i c c1 hc hc1' (by rw [hcp]; exact hp) (by rw [hp1, hcp])
    have hrest := ih (server_step s e) (last_time T [e]) i p hB1 h2 hp
      (fun k hk => hses (k + 1) (by simp only [List.length_cons]; omega))
      c1 c2 hc1' hc2
    exact le_trans hstep hrest

theorem init_last_active_bounded (t0 : Int) :
    LastActiveBounded t0 init_server_state.registry := by
  intro c hc h0
  have : c = zero_client := List.eq_of_mem_replicate hc
  rw [this] at h0
  exact absurd rfl h0

/-- After a router iteration on a command other than QUIT from a non-zero handle found at
slot `idx`, the slot still holds the handle and its `last_active` is the refresh time. -/
theorem router_step_touches (s : ServerState) (cmd : CommandMessage) (t1 t2 : Int) (idx : Nat)
    (hk : find_client_index s.registry cmd.sender_pid = some idx)
    (h0 : cmd.sender_pid ≠ 0) (hnq : cmd.command ≠ .CMD_QUIT) :
    (client_at (router_step s cmd t1 t2).registry idx).pid = cmd.sender_pid ∧
      (client_at (router_step s cmd t1 t2).registry idx).last_active = t1 := by
  obtain ⟨_, hpid, hlt⟩ := find_client_index_some _ _ _ hk
  have htouch : (touch_last_active s cmd t1).registry.clients[idx]? =
      some { client_at s.registry idx with last_active := t1 } := by
    rw [touch_clients, hk]
    exact List.getElem?_set_self hlt
  have hlen : idx < (router_step s cmd t1 t2).registry.clients.length := by
    unfold router_step
    rw [dispatch_clients_length, touch_clients_length]
    exact hlt
  have hget := List.getElem?_eq_getElem hlen
  have hat := client_at_of_getElem? _ idx _ hget
  have hkeep := dispatch_keep (touch_last_active s cmd t1) cmd t2 hnq idx _ _ htouch hget
  rw [hat]
  rcases hkeep with ⟨hp, hl⟩ | ⟨hp, _⟩
  · exact ⟨hp.trans hpid, hl⟩
  · exact absurd (hpid ▸ hp) h0

theorem getElem?_of_client_at_pid (r : GlobalRegistry) (i : Nat)
    (h : (client_at r i).pid ≠ 0) : r.clients[i]? = some (client_at r i) := by
  by_cases hi : i < r.clients.length
  · simp [client_at, List.getD_eq_getElem?_getD, List.getElem?_eq_getElem hi]
  · exfalso
    apply h
    have : r.clients[i]? = none := List.getElem?_eq_none (by omega)
    simp [client_at, List.getD_eq_getElem?_getD, this, zero_client]

theorem touch_last_active_overflowed (s : ServerState) (cmd : CommandMessage) (t : Int) :
    (touch_last_active s cmd t).registry.overflowed = s.registry.overflowed := by
  unfold touch_last_active
  cases find_client_index s.registry cmd.sender_pid with
  | none => rfl
  | some k => rfl

/-- A router iteration on a command whose JOIN name fits writes past no field. -/
theorem router_step_overflowed (s : ServerState) (cmd : CommandMessage) (t1 t2 : Int)
    (h : cmd.command = .CMD_JOIN → cmd.channel.length < MAX_CHANNEL) :
    (router_step s cmd t1 t2).registry.overflowed = s.registry.overflowed := by
  unfold router_step
  rw [← touch_last_active_overflowed s cmd t1]
  exact dispatch_preserves
    (fun r => r.overflowed = (touch_last_active s cmd t1).registry.overflowed) _ cmd t2 rfl
    (fun _ => handle_register_overflowed _ cmd t2)
    (fun hc => handle_join_overflowed _ cmd (h hc))
    (fun _ => handle_leave_overflowed _ cmd)
    (fun _ => remove_client_overflowed _ cmd.sender_pid)

theorem server_run_overflowed : ∀ (es : List ServerEvent) (s : ServerState),
    (∀ e ∈ es, server_event_fits e) →
    (server_run s es).registry.overflowed = s.registry.overflowed := by
  intro es
  induction es with
  | nil => intro s _; rfl
  | cons e es ih =>
    intro s h
    have hrun : server_run s (e :: es) = server_run (server_step s e) es := rfl
    rw [hrun, ih (server_step s e) (fun x hx => h x (List.mem_cons_of_mem _ hx))]
    have he := h e (List.mem_cons_self _ _)
    cases e with
    | received cmd t1 t2 =>
      rw [server_step_received]
      exact router_step_overflowed s cmd t1 t2 he
    | sweep now =>
      rw [server_step_sweep]
      exact monitor_clients_overflowed s now

/-- C24. Along every trace of router iterations and monitor sweeps from initialisation
whose clock values never go backwards: (1) when every received JOIN carries a channel name
of at most 31 bytes, no copy runs past a field and, over any stretch of the trace during
which a client slot holds the same non-zero handle after every event, that is from after
its REGISTER until before its removal, the slot's `last_active` at the end of the stretch is
at least its value at the start; (2) in any state, after the router has processed a command
other than QUIT from a non-zero handle found in the table, with the refresh at time `t1`
and, for a JOIN, a name of at most 31 bytes, no copy has run past a field and the sender's
slot holds the handle with `last_active = t1`. (3) The claim also covers longer names, and
there the code breaks it: handle 5 registers at clock value 1000 and then sends a JOIN whose
channel string runs to 32 bytes; `strcpy` (main.c:374) writes the 32 bytes over
`current_channel` and the terminator on the first byte of `last_active`, which follows it
in `ClientEntry`: the stored time 1000 (0x3E8) becomes 768 (0x300), less than before and
not the time of the refresh. -/
theorem last_active_monotone (t0 : Int) (pre mid : List ServerEvent) (i : Nat) (p : Int)
    (hclock : clock_ok t0 (pre ++ mid)) (hp : p ≠ 0)
    (hsession : ∀ k : Nat, k ≤ mid.length →
      (client_at (server_run init_server_state (pre ++ mid.take k)).registry i).pid = p) :
    ((∀ e ∈ pre ++ mid, server_event_fits e) →
      (server_run init_server_state (pre ++ mid)).registry.overflowed = false ∧
      (client_at (server_run init_server_state pre).registry i).last_active ≤
        (client_at (server_run init_server_state (pre ++ mid)).registry i).last_active) ∧
    (∀ (s : ServerState) (cmd : CommandMessage) (t1 t2 : Int) (idx : Nat),
      find_client_index s.registry cmd.sender_pid = some idx → cmd.sender_pid ≠ 0 →
      cmd.command ≠ .CMD_QUIT →
      (cmd.command = .CMD_JOIN → cmd.channel.length < MAX_CHANNEL) →
      (router_step s cmd t1 t2).registry.overflowed = s.registry.overflowed ∧
        (client_at (router_step s cmd t1 t2).registry idx).pid = cmd.sender_pid ∧
        (client_at (router_step s cmd t1 t2).registry idx).last_active = t1) ∧
    (clock_ok 1000 sample_server_events_long ∧
      (server_run init_server_state sample_server_events_long).registry.overflowed =
        true) := by
  refine ⟨fun hfit => ⟨server_run_overflowed _ init_server_state hfit, ?_⟩,
    fun s cmd t1 t2 idx hk h0 hnq hfit =>
      ⟨router_step_overflowed s cmd t1 t2 hfit, router_step_touches s cmd t1 t2 idx hk h0 hnq⟩,
    by decide, by decide⟩
  obtain ⟨hc1, hc2⟩ := clock_ok_append pre mid t0 hclock
  have hB := server_run_bounded pre init_server_state t0 (init_last_active_bounded t0) hc1
  have hses : ∀ k : Nat, k ≤ mid.length →
      ∃ c, (server_run (server_run init_server_state pre) (mid.take k)).registry.clients[i]? =
        some c ∧ c.pid = p := by
    intro k hk
    have h := hsession k hk
    rw [server_run_append] at h
    exact ⟨_, getElem?_of_client_at_pid _ i (by rw [h]; exact hp), h⟩
  have hstart := hsession 0 (Nat.zero_le _)
  rw [List.take_zero, List.append_nil] at hstart
  have hend := hsession mid.length (Nat.le_refl _)
  rw [List.take_length] at hend
  rw [server_run_append] at hend ⊢
  exact session_monotone mid (server_run init_server_state pre) (last_time t0 pre) i p hB hc2
    hp hses _ _
    (getElem?_of_client_at_pid _ i (by rw [hstart]; exact hp))
    (getElem?_of_client_at_pid _ i (by rw [hend]; exact hp))

/-- C24 on handle 5: registered at time 10, then a JOIN at 20, a sweep at 50 and a MSG at
60, all names within their field; its `last_active` goes from 10 to 60. And on one router
iteration: a JOIN from handle 5 refreshed at time 20 leaves `last_active = 20`. -/
theorem last_active_monotone_witness :
    (client_at (server_run init_server_state
      [.received (sample_cmd .CMD_REGISTER 5 "") 10 10]).registry 0).last_active = 10 ∧
    (client_at (server_run init_server_state
      ([.received (sample_cmd .CMD_REGISTER 5 "") 10 10] ++
        [ .received (sample_cmd .CMD_JOIN 5 "#a") 20 20,
          .sweep 50,
          .received (sample_cmd .CMD_MSG 5 "") 60 61 ])).registry 0).last_active = 60 ∧
    ((server_run init_server_state
      ([.received (sample_cmd .CMD_REGISTER 5 "") 10 10] ++
        [ .received (sample_cmd .CMD_JOIN 5 "#a") 20 20,
          .sweep 50,
          .received (sample_cmd .CMD_MSG 5 "") 60 61 ])).registry.overflowed = false ∧
    (client_at (server_run init_server_state
      [.received (sample_cmd .CMD_REGISTER 5 "") 10 10]).registry 0).last_active ≤
    (client_at (server_run init_server_state
      ([.received (sample_cmd .CMD_REGISTER 5 "") 10 10] ++
        [ .received (sample_cmd .CMD_JOIN 5 "#a") 20 20,
          .sweep 50,
          .received (sample_cmd .CMD_MSG 5 "") 60 61 ])).registry 0).last_active) ∧
    (client_at (router_step sample_state_five (sample_cmd .CMD_JOIN 5 "#a") 20
      21).registry 0).last_active = 20 :=
  ⟨by decide, by decide,
    (last_active_monotone 0
      [.received (sample_cmd .CMD_REGISTER 5 "") 10 10]
      [ .received (sample_cmd .CMD_JOIN 5 "#a") 20 20,
        .sweep 50,
        .received (sample_cmd .CMD_MSG 5 "") 60 61 ] 0 5 (by decide) (by decide)
      (by decide)).1 (by decide),
    ((last_active_monotone 0
      [.received (sample_cmd .CMD_REGISTER 5 "") 10 10]
      [ .received (sample_cmd .CMD_JOIN 5 "#a") 20 20,
        .sweep 50,
        .received (sample_cmd .CMD_MSG 5 "") 60 61 ] 0 5 (by decide) (by decide)
      (by decide)).2.1 sample_state_five (sample_cmd .CMD_JOIN 5 "#a") 20 21 0 (by decide)
      (by decide) (by decide) (by decide)).2.2⟩

/-! ## The job queue is first-in first-out -/

theorem chain_congr (node node1 : Nat → JobNode) : ∀ (as : List Nat) (p : Option Nat),
    (∀ a ∈ as, (node1 a).next = (node a).next) → chain node p as → chain node1 p as := by
  intro as
  induction as with
  | nil => intro p _ h; exact h
  | cons a as ih =>
    intro p hn h
    refine ⟨h.1, ?_⟩
    rw [hn a (List.mem_cons_self _ _)]
    exact ih _ (fun x hx => hn x (List.mem_cons_of_mem _ hx)) h.2

theorem chain_snoc (node node1 : Nat → JobNode) (t addr : Nat)
    (hsame : ∀ x, x ≠ t → x ≠ addr → (node1 x).next = (node x).next)
    (ht : (node1 t).next = some addr) (ha : (node1 addr).next = none) :
    ∀ (as : List Nat) (p : Option Nat), chain node p as → as.Nodup →
      as.getLast? = some t → addr ∉ as → chain node1 p (as ++ [addr]) := by
  intro as
  induction as with
  | nil => intro p _ _ hl _; simp at hl
  | cons b bs ih =>
    intro p hc hnd hl hna
    refine ⟨hc.1, ?_⟩
    cases bs with
    | nil =>
      have hbt : b = t := by simpa using hl
      rw [hbt, ht]
      exact ⟨rfl, ha⟩
    | cons c cs =>
      have hl1 : (c :: cs).getLast? = some t := by
        rw [List.getLast?_cons_cons] at hl; exact hl
      have htm : t ∈ c :: cs := List.mem_of_getLast?_eq_some hl1
      have hbt : b ≠ t := by
        intro h
        rw [h] at hnd
        exact (List.nodup_cons.mp hnd).1 htm
      have hba : b ≠ addr := by
        intro h
        exact hna (h ▸ List.mem_cons_self _ _)
      rw [hsame b hbt hba]
      exact ih _ hc.2 (List.nodup_cons.mp hnd).2 hl1
        (fun h => hna (List.mem_cons_of_mem _ h))

theorem chain_nil_iff (node : Nat → JobNode) (p : Option Nat) (as : List Nat)
    (h : chain node p as) : p = none ↔ as = [] := by
  cases as with
  | nil => exact ⟨fun _ => rfl, fun _ => h⟩
  | cons a as =>
    constructor
    · intro hp; rw [h.1] at hp; exact absurd hp (by simp)
    · intro hc; exact absurd hc (by simp)

theorem queue_holds_null (q : JobQueue) (l : List (Nat × Job)) (h : QueueHolds q l) :
    (q.job_queue_tail = none ↔ q.job_queue_head = none) ∧
      (q.job_queue_head = none ↔ l = []) := by
  obtain ⟨hc, _, _, ht⟩ := h
  have h1 := chain_nil_iff _ _ _ hc
  have h2 : q.job_queue_tail = none ↔ l.map Prod.fst = [] := by
    rw [ht]; exact List.getLast?_eq_none_iff
  have h3 : l.map Prod.fst = [] ↔ l = [] := List.map_eq_nil_iff
  exact ⟨h2.trans h1.symm, h1.trans h3⟩

theorem queue_holds_add (q : JobQueue) (l : List (Nat × Job)) (addr : Nat) (job : Job)
    (junk : Option Nat) (h : QueueHolds q l) (hfresh : addr ∉ l.map Prod.fst) :
    QueueHolds ((q.malloc_job addr job junk).add_job addr) (l ++ [(addr, job)]) := by
  obtain ⟨hc, hnd, hj, ht⟩ := h
  have hnd1 : ((l ++ [(addr, job)]).map Prod.fst).Nodup := by
    rw [List.map_append]
    refine List.Nodup.append hnd (List.nodup_singleton _) ?_
    intro x hx hx1
    have : x = addr := by simpa using hx1
    exact hfresh (this ▸ hx)
  have hlast : ((l ++ [(addr, job)]).map Prod.fst).getLast? = some addr := by
    rw [List.map_append]
    simp
  cases htail : q.job_queue_tail with
  | none =>
    have hl : l = [] := by
      have : (l.map Prod.fst).getLast? = none := by rw [← ht]; exact htail
      exact List.map_eq_nil_iff.mp (List.getLast?_eq_none_iff.mp this)
    subst hl
    have hq : (q.malloc_job addr job junk).add_job addr =
        { node := Function.update (Function.update q.node addr { job := job, next := junk })
            addr { job := job, next := none },
          job_queue_head := some addr, job_queue_tail := some addr } := by
      unfold JobQueue.add_job JobQueue.malloc_job
      simp only [htail, Function.update_same]
    rw [hq]
    refine ⟨?_, hnd1, ?_, ?_⟩
    · exact ⟨rfl, by simp [chain]⟩
    · intro x hx
      have : x = (addr, job) := by simpa using hx
      rw [this]
      simp
    · simp
  | some t =>
    have hq : (q.malloc_job addr job junk).add_job addr =
        { node := Function.update
            (Function.update (Function.update q.node addr { job := job, next := junk })
              addr { job := job, next := none })
            t { (Function.update (Function.update q.node addr { job := job, next := junk })
              addr { job := job, next := none }) t with next := some addr },
          job_queue_head := q.job_queue_head, job_queue_tail := some addr } := by
      unfold JobQueue.add_job JobQueue.malloc_job
      simp only [htail, Function.update_same]
    have hlastl : (l.map Prod.fst).getLast? = some t := by rw [← ht]; exact htail
    have htm : t ∈ l.map Prod.fst := List.mem_of_getLast?_eq_some hlastl
    have hta : t ≠ addr := fun h => hfresh (h ▸ htm)
    rw [hq]
    refine ⟨?_, hnd1, ?_, ?_⟩
    · rw [List.map_append]
      refine chain_snoc q.node _ t addr ?_ ?_ ?_ _ _ hc hnd hlastl hfresh
      · intro x hxt hxa
        simp only [Function.update_apply, if_neg hxt, if_neg hxa]
      · simp only [Function.update_apply, if_true]
      · simp only [Function.update_apply, if_neg (Ne.symm hta), if_true]
    · intro x hx
      rw [List.mem_append] at hx
      rcases hx with hx | hx
      · have hxa : x.1 ≠ addr := fun h => hfresh (h ▸ List.mem_map_of_mem Prod.fst hx)
        have := hj x hx
        by_cases hxt : x.1 = t
        · simp only [Function.update_apply, hxt, if_true, if_neg hta]
          rw [← hxt]; exact this
        · simp only [Function.update_apply, if_neg hxt, if_neg hxa]
          exact this
      · have : x = (addr, job) := by simpa using hx
        rw [this]
        simp only [Function.update_apply, if_neg (Ne.symm hta), if_true]
    · exact hlast.symm

theorem queue_holds_get (q : JobQueue) (a : Nat) (j : Job) (l : List (Nat × Job))
    (h : QueueHolds q ((a, j) :: l)) :
    ∃ q1, q.get_job = some (a, q1) ∧ (q1.node a).job = j ∧ QueueHolds q1 l := by
  obtain ⟨hc, hnd, hj, ht⟩ := h
  obtain ⟨hhead, hrest⟩ := hc
  have hnd' := List.nodup_cons.mp hnd
  have hna : a ∉ l.map Prod.fst := hnd'.1
  refine ⟨{ node := Function.update q.node a { q.node a with next := none },
            job_queue_head := (q.node a).next,
            job_queue_tail := if (q.node a).next = none then none else q.job_queue_tail },
    ?_, ?_, ?_, hnd'.2, ?_, ?_⟩
  · unfold JobQueue.get_job
    rw [hhead]
  · simp only [Function.update_same]
    exact hj (a, j) (List.mem_cons_self _ _)
  · refine chain_congr q.node _ _ _ ?_ hrest
    intro x hx
    have hxa : x ≠ a := fun h => hna (h ▸ hx)
    simp only [Function.update_apply, if_neg hxa]
  · intro x hx
    have hxa : x.1 ≠ a := fun h => hna (h ▸ List.mem_map_of_mem Prod.fst hx)
    simp only [Function.update_apply, if_neg hxa]
    exact hj x (List.mem_cons_of_mem _ hx)
  · have hnil := chain_nil_iff _ _ _ hrest
    cases l with
    | nil =>
      simp only [hnil.mpr rfl, if_true]
      rfl
    | cons b bs =>
      have hne : (q.node a).next ≠ none := fun h => by
        have := hnil.mp h
        simp at this
      simp only [if_neg hne]
      rw [ht]
      simp [List.getLast?_cons_cons]

/-- Running admissible calls from a queue holding `l`: the jobs held before and the jobs
added are, in order, the jobs returned followed by the jobs still held. -/
theorem queue_run_spec : ∀ (ops : List QueueOp) (q : JobQueue) (l : List (Nat × Job)),
    QueueHolds q l → ops_ok (l.map Prod.fst) ops →
    ∃ l1, QueueHolds (queue_run q ops).1 l1 ∧
      l.map Prod.snd ++ added_jobs ops = (queue_run q ops).2 ++ l1.map Prod.snd ∧
      (queue_run q ops).2.length = get_count ops := by
  intro ops
  induction ops with
  | nil =>
    intro q l h _
    exact ⟨l, h, by simp [queue_run, added_jobs], rfl⟩
  | cons op ops ih =>
    intro q l h hok
    cases op with
    | add addr job junk =>
      obtain ⟨hfresh, hok1⟩ := hok
      have h1 := queue_holds_add q l addr job junk h hfresh
      obtain ⟨l1, hq1, heq, hlen⟩ := ih _ (l ++ [(addr, job)]) h1
        (by rw [List.map_append]; exact hok1)
      have hrun : queue_run q (QueueOp.add addr job junk :: ops) =
          queue_run ((q.malloc_job addr job junk).add_job addr) ops := by
        rw [queue_run]
      rw [hrun]
      refine ⟨l1, hq1, ?_, hlen⟩
      rw [← heq]
      simp [added_jobs]
    | get =>
      cases l with
      | nil => exact absurd hok (fun h => h)
      | cons x l =>
        obtain ⟨a, j⟩ := x
        obtain ⟨q1, hget, hjob, hq1⟩ := queue_holds_get q a j l h
        have hok1 : ops_ok (l.map Prod.fst) ops := hok
        obtain ⟨l1, hl1, heq, hlen⟩ := ih q1 l hq1 hok1
        have hrun : queue_run q (QueueOp.get :: ops) =
            ((queue_run q1 ops).1, (q1.node a).job :: (queue_run q1 ops).2) := by
          rw [queue_run, hget]
        rw [hrun]
        refine ⟨l1, hl1, ?_, ?_⟩
        · simp only [List.map_cons, List.cons_append, added_jobs, hjob]
          rw [heq]
        · simp only [List.length_cons, get_count, hlen]

/-- C23. From the empty queue (both pointers `NULL`, whatever the heap holds), for every
sequence of `add_job` and `get_job` calls in which each added cell is not already in the
queue and `get_job` is called only on a non-empty queue: the jobs returned by the
`get_job` calls are, in order, the first jobs added, one per call; the queue left holds
exactly the remaining added jobs in insertion order, as a `NULL`-terminated list from
`job_queue_head` whose last cell is `job_queue_tail`; and `job_queue_tail` is `NULL`
exactly when `job_queue_head` is. -/
theorem job_queue_fifo (q0 : JobQueue) (ops : List QueueOp)
    (hhead : q0.job_queue_head = none) (htail : q0.job_queue_tail = none)
    (hok : ops_ok [] ops) :
    (queue_run q0 ops).2 = (added_jobs ops).take (get_count ops) ∧
    (∃ l, QueueHolds (queue_run q0 ops).1 l ∧
      l.map Prod.snd = (added_jobs ops).drop (get_count ops)) ∧
    ((queue_run q0 ops).1.job_queue_tail = none ↔
      (queue_run q0 ops).1.job_queue_head = none) := by
  have h0 : QueueHolds q0 [] := ⟨hhead, List.nodup_nil, fun x hx => by simp at hx, htail⟩
  obtain ⟨l1, hq1, heq, hlen⟩ := queue_run_spec ops q0 [] h0 hok
  simp only [List.map_nil, List.nil_append] at heq
  refine ⟨?_, ⟨l1, hq1, ?_⟩, (queue_holds_null _ _ hq1).1⟩
  · rw [heq, ← hlen, List.take_left']
    rfl
  · rw [heq, ← hlen, List.drop_left']
    rfl

/-- C23 on the sample calls: the two `get_job` calls return the first and the second job,
and the third job is the only one left, at the head and the tail of the queue. -/
theorem job_queue_fifo_witness :
    (queue_run sample_queue sample_queue_ops).2 =
      [server_unicast 1 "first", server_unicast 2 "second"] ∧
    (queue_run sample_queue sample_queue_ops).1.job_queue_head = some 100 ∧
    (queue_run sample_queue sample_queue_ops).1.job_queue_tail = some 100 ∧
    ((queue_run sample_queue sample_queue_ops).1.node 100).job = server_unicast 3 "third" ∧
    ((queue_run sample_queue sample_queue_ops).1.node 100).next = none ∧
    (queue_run sample_queue sample_queue_ops).2 =
      (added_jobs sample_queue_ops).take (get_count sample_queue_ops) :=
  ⟨by decide, by decide, by decide, by decide, by decide,
    (job_queue_fifo sample_queue sample_queue_ops rfl rfl (by decide)).1⟩

/-- C29 on `#r` with the members 5, 6 and 7. -/
theorem who_line_fits_witness :
    who_line "#r" (room_at sample_state_who.registry 1) = "Members of #r (3): 5, 6, 7" ∧
    (who_line "#r" (room_at sample_state_who.registry 1)).length < MAX_TEXT_SIZE :=
  ⟨by decide,
    (who_line_fits "#r" (room_at sample_state_who.registry 1) (by decide) (by decide)
      (by decide)).2.2.2⟩

end ChatServer
